import Mathlib

/-!
# Processor-time sampling and pool aggregation

A shallow embedding of `pkg/procstats/procstats.go` and of the CPU-usage part of
`pkg/cri/resource-manager/policy/builtin/podpools/metrics.go`.

Conventions of the embedding:

* a Go `string` is a `List Char` (valid UTF-8 text; every separator the code
  splits on is one ASCII byte, so splitting characters and splitting bytes agree);
* `uint64` values are naturals below `2 ^ 64`, with explicit reduction modulo
  `2 ^ 64` wherever the code adds or subtracts; `int` is the 64-bit signed
  integer of the platforms the agent runs on, an `Int` wrapped by `wrapInt64`;
* a slice is a `List`; an index outside the slice is a Go run-time panic, which
  the embedding keeps as an outcome of its own, together with the state the
  in-place writes have reached;
* `float64` is `Float64` below: the IEEE 754 binary64 values with
  round-to-nearest-even; negative zero, which the operations of this code never
  produce, is not represented;
* a loop that may not end takes fuel, one unit for each test of its condition,
  and gives no result when the fuel runs out; every other loop runs over a list;
* the standard-library functions the code calls (`strings.Split`,
  `strings.TrimSpace`, `strconv.ParseUint`, `strconv.Atoi`, `fmt.Sprintf`) are
  modelled after their documented behaviour.
-/

/-- A Go string. -/
abbrev GoString := List Char

/-! ## Machine integers -/

/-- The number of `uint64` values. -/
def twoPow64 : Nat := 18446744073709551616

/-- Largest `uint64`. -/
def maxUint64 : Nat := 18446744073709551615

/-- Largest `int` (64-bit). -/
def maxInt64 : Int := 9223372036854775807

/-- Smallest `int` (64-bit). -/
def minInt64 : Int := -9223372036854775808

/-- Two's-complement wrap-around of an integer into the `int` range. -/
def wrapInt64 (z : Int) : Int :=
  (z + 9223372036854775808) % 18446744073709551616 - 9223372036854775808

/-- Addition of `uint64` values. -/
def addU64 (a b : Nat) : Nat := (a + b) % twoPow64

/-- Subtraction of `uint64` values (wraps below zero). -/
def subU64 (a b : Nat) : Nat := (a + twoPow64 - b % twoPow64) % twoPow64

/-! ## `strings` -/

namespace Strings

/-- The call `strings.Split(s, sep)` for a one-byte separator: the pieces of `s`
between the occurrences of `sep`; never empty (`Split("", sep)` is `[""]`). -/
def Split (s : GoString) (sep : Char) : List GoString :=
  s.splitOn sep

/-- The predicate `unicode.IsSpace`: the code points with the White_Space property. -/
def isSpace (c : Char) : Bool :=
  let n := c.toNat
  n == 0x20 || (0x09 ≤ n && n ≤ 0x0D) || n == 0x85 || n == 0xA0 || n == 0x1680 ||
  (0x2000 ≤ n && n ≤ 0x200A) || n == 0x2028 || n == 0x2029 || n == 0x202F ||
  n == 0x205F || n == 0x3000

/-- The call `strings.TrimSpace(s)`: `s` without leading and trailing white space. -/
def TrimSpace (s : GoString) : GoString :=
  ((s.dropWhile isSpace).reverse.dropWhile isSpace).reverse

end Strings

/-! ## `strconv` -/

namespace Strconv

/-- The value of a decimal digit character, `none` for any other character. -/
def digitVal (c : Char) : Option Nat :=
  if 48 ≤ c.toNat ∧ c.toNat ≤ 57 then some (c.toNat - 48) else none

/-- The two errors of package `strconv`: `ErrSyntax` (malformed) and `ErrRange`
(out of range). -/
inductive NumError where
  | malformed
  | outOfRange
  deriving DecidableEq, Repr

/-- The digit loop of `strconv.ParseUint(s, 10, 64)`: `n` is the value read so far.
The result is the value returned and the error (`none` is `nil`). A character
that is no digit is a syntax error (value 0); a value that leaves the 64-bit
range is a range error (value `maxUint64`), reported at the digit where it happens. -/
def parseUintLoop : GoString → Nat → Nat × Option NumError
  | [], n => (n, none)
  | c :: cs, n =>
    match digitVal c with
    | none => (0, some .malformed)
    | some d =>
      if n ≥ maxUint64 / 10 + 1 then (maxUint64, some .outOfRange)
      else if n * 10 + d > maxUint64 then (maxUint64, some .outOfRange)
      else parseUintLoop cs (n * 10 + d)

/-- The call `strconv.ParseUint(s, 10, 64)`: value and error. -/
def ParseUint (s : GoString) : Nat × Option NumError :=
  match s with
  | [] => (0, some .malformed)
  | _ => parseUintLoop s 0

/-- The call `strconv.ParseInt(s, 10, 0)` with a 64-bit `int`: an optional sign,
then `ParseUint`; a syntax error gives 0, a magnitude out of range gives the
nearest bound together with a range error. -/
def ParseInt (s : GoString) : Int × Option NumError :=
  match s with
  | [] => (0, some .malformed)
  | c :: cs =>
    let neg := c == '-'
    let body := if c == '+' ∨ c == '-' then cs else s
    match ParseUint body with
    | (_, some .malformed) => (0, some .malformed)
    | (un, _) =>
      if !neg ∧ un ≥ 9223372036854775808 then (maxInt64, some .outOfRange)
      else if neg ∧ un > 9223372036854775808 then (minInt64, some .outOfRange)
      else (if neg then -(un : Int) else (un : Int), none)

/-- The call `strconv.Atoi(s)`. Its fast path for short strings returns what
`ParseInt(s, 10, 0)` returns, so the embedding has the one path. -/
def Atoi (s : GoString) : Int × Option NumError := ParseInt s

/-- Digits of `n`, most significant first, in front of `acc`; `fuel` bounds the
number of digits. -/
def digitsAux : Nat → Nat → GoString → GoString
  | 0, _, acc => acc
  | fuel + 1, n, acc =>
    if n < 10 then Char.ofNat (48 + n) :: acc
    else digitsAux fuel (n / 10) (Char.ofNat (48 + n % 10) :: acc)

/-- Canonical decimal text of a natural number (`strconv.Itoa` on a non-negative value). -/
def decimal (n : Nat) : GoString := digitsAux (n + 1) n []

/-- Decimal text of an `int`, as `strconv.Itoa` and the verb `%d` write it. -/
def Itoa (z : Int) : GoString :=
  if z < 0 then '-' :: decimal z.natAbs else decimal z.natAbs

/-- The number that a text of decimal digits writes, read after the value `n`
(a character that is no digit counts as the digit 0). -/
def digitsFrom (n : Nat) (s : GoString) : Nat :=
  s.foldl (fun v c => v * 10 + (digitVal c).getD 0) n

/-- Whether every character of the text is a decimal digit. -/
def allDigits (s : GoString) : Bool :=
  s.all (fun c => (digitVal c).isSome)

/-- What a field of a counter row adds, in words: the number it writes when it
is a non-empty text of decimal digits within the 64-bit range; `2 ^ 64 - 1` when
its leading digits already leave the 64-bit range; 0 for every other text (empty,
or with a character that is no digit). -/
def fieldValue (s : GoString) : Nat :=
  if digitsFrom 0 (s.takeWhile (fun c => (digitVal c).isSome)) > maxUint64 then maxUint64
  else if s ≠ [] ∧ allDigits s = true then digitsFrom 0 s
  else 0

end Strconv

/-! ## `fmt` -/

namespace Fmt

/-- An operand of `fmt.Sprintf`, of one of the two types the code passes. -/
inductive Operand where
  | str (s : GoString)
  | int (z : Int)

/-- What the formatting engine of package `fmt` writes for the rest of a format
that starts at a directive other than a final `%s` applied to a string or a final
`%d` applied to an integer (flags, widths, other verbs, mismatched or missing
operands). The code reaches it only when text that came from the input contains
`%`; the embedding leaves it open, and every theorem holds for each such engine. -/
abbrev Engine := GoString → Operand → GoString

/-- The call `fmt.Sprintf(format, a)` with one operand: plain text is copied, a
final `%s` writes a string operand as it is, a final `%d` writes an integer
operand in decimal. -/
def Sprintf (eng : Engine) : GoString → Operand → GoString
  | [], a => eng [] a
  | ['%', 's'], .str s => s
  | ['%', 'd'], .int z => Strconv.Itoa z
  | '%' :: rest, a => eng ('%' :: rest) a
  | c :: rest, a => c :: Sprintf eng rest a

end Fmt

/-! ## `float64` -/

/-- A `float64`: not-a-number, an infinity with its sign, or the finite number
`m * 2 ^ e`, kept in lowest terms (`m` odd, or `m = 0` and `e = 0`). Negative
zero, which no operation of this code produces, is not represented. -/
inductive Float64 where
  | nan
  | inf (neg : Bool)
  | fin (m : Int) (e : Int)
  deriving DecidableEq, Repr

namespace Float64

/-- The constant `0.0`. -/
def zero : Float64 := fin 0 0

/-- The constant `1.0`. -/
def one : Float64 := fin 1 0

/-- The constant `100.0`, which is `25 * 2 ^ 2`. -/
def hundred : Float64 := fin 25 2

/-- The position of the leading bit, `⌊log₂ n⌋` for `n > 0`; `fuel` bounds the
number of halvings. -/
def log2Aux : Nat → Nat → Nat
  | 0, _ => 0
  | fuel + 1, n => if n < 2 then 0 else log2Aux fuel (n / 2) + 1

/-- The position of the leading bit of `n`: `⌊log₂ n⌋` for `n > 0`. -/
def log2 (n : Nat) : Nat := log2Aux n n

/-- Lowest terms of `m * 2 ^ e` for `m > 0`: halves `m` while it is even. -/
def lowest : Nat → Nat → Int → Nat × Int
  | 0, m, e => (m, e)
  | fuel + 1, m, e => if m % 2 = 0 ∧ m ≠ 0 then lowest fuel (m / 2) (e + 1) else (m, e)

/-- Rounding to binary64 (to nearest, ties to even) of the exact value
`± (n / d) * 2 ^ e`, for `d > 0`. The result has 53 significant bits from
`2 ^ (-1022)` upwards and is a multiple of `2 ^ (-1074)` below; a rounded magnitude
of `2 ^ 1024` or more is an infinity. -/
def round (neg : Bool) (n d : Nat) (e : Int) : Float64 :=
  if n = 0 then fin 0 0
  else
    let k0 : Int := (log2 n : Int) - (log2 d : Int)
    let k : Int :=
      if (if 0 ≤ k0 then d * 2 ^ k0.toNat ≤ n else d ≤ n * 2 ^ (-k0).toNat) then k0 else k0 - 1
    let top : Int := max (k + e) (-1022)
    let s : Int := e - (top - 52)
    let n1 : Nat := if 0 ≤ s then n * 2 ^ s.toNat else n
    let d1 : Nat := if 0 ≤ s then d else d * 2 ^ (-s).toNat
    let q := n1 / d1
    let r := n1 % d1
    let m : Nat :=
      if 2 * r < d1 then q else if d1 < 2 * r then q + 1 else if q % 2 = 0 then q else q + 1
    if m = 0 then fin 0 0
    else if 1024 ≤ (log2 m : Int) + (top - 52) then inf neg
    else
      let (m1, e1) := lowest (log2 m + 1) m (top - 52)
      fin (if neg then -(m1 : Int) else (m1 : Int)) e1

/-- The conversion `float64(n)` of an unsigned integer. -/
def ofNat (n : Nat) : Float64 := round false n 1 0

/-- The conversion `float64(z)` of a signed integer. -/
def ofInt (z : Int) : Float64 := round (decide (z < 0)) z.natAbs 1 0

/-- The quotient `x / y`. -/
def div : Float64 → Float64 → Float64
  | fin a ea, fin b eb =>
    if b = 0 then (if a = 0 then nan else inf (decide (a < 0)))
    else round (decide (a < 0) != decide (b < 0)) a.natAbs b.natAbs (ea - eb)
  | fin _ _, inf _ => fin 0 0
  | inf s, fin b _ => inf (s != decide (b < 0))
  | _, _ => nan

/-- The difference `x - y`. -/
def sub : Float64 → Float64 → Float64
  | fin a ea, fin b eb =>
    let e := min ea eb
    let m : Int := a * 2 ^ (ea - e).toNat - b * 2 ^ (eb - e).toNat
    round (decide (m < 0)) m.natAbs 1 e
  | fin _ _, inf s => inf (!s)
  | inf s, fin _ _ => inf s
  | inf s, inf t => if s = t then nan else inf s
  | _, _ => nan

/-- The product `x * y`. -/
def mul : Float64 → Float64 → Float64
  | fin a ea, fin b eb => round (decide (a * b < 0)) (a * b).natAbs 1 (ea + eb)
  | fin a _, inf s => if a = 0 then nan else inf (s != decide (a < 0))
  | inf s, fin b _ => if b = 0 then nan else inf (s != decide (b < 0))
  | inf s, inf t => inf (s != t)
  | _, _ => nan

/-- The first step of `round` under a name of its own, for the proofs: the
exponent `k` with `2 ^ k ≤ n / d < 2 ^ (k + 1)`, for `n, d > 0`. -/
def binade (n d : Nat) : Int :=
  let k0 : Int := (log2 n : Int) - (log2 d : Int)
  if (if 0 ≤ k0 then d * 2 ^ k0.toNat ≤ n else d ≤ n * 2 ^ (-k0).toNat) then k0 else k0 - 1

/-- The rounding step of `round` under a name of its own, for the proofs: the
integer nearest to `n1 / d1`, the even one at a tie. -/
def nearest (n1 d1 : Nat) : Nat :=
  let q := n1 / d1
  let r := n1 % d1
  if 2 * r < d1 then q else if d1 < 2 * r then q + 1 else if q % 2 = 0 then q else q + 1

end Float64

/-! ## Outcomes of a call -/

/-- A Go `error` value that is not `nil`, with its text. -/
structure GoError where
  text : GoString
  deriving DecidableEq, Repr

/-- How a call ends: it returns values and a `nil` error, it returns an error
that is not `nil`, it panics (a run-time index error), or, where a loop of the
embedding is given fuel, the fuel runs out before the call returns. -/
inductive Result (α : Type) where
  | ok (a : α)
  | err (e : GoError)
  | panic
  | outOfFuel
  deriving DecidableEq, Repr

/-- A write `xs[i] = v` into a slice: `none` when `i` is outside the slice. -/
def store {α : Type} (xs : List α) (i : Nat) (v : α) : Option (List α) :=
  if i < xs.length then some (xs.set i v) else none

/-! ## `procstats` -/

namespace Procstats

open Strings Strconv

/-- The struct `CPUTimeStat` (its lock is left out: the embedding is sequential). -/
structure CPUTimeStat where
  PrevIdleTime : List Nat
  PrevTotalTime : List Nat
  CurIdleTime : List Nat
  CurTotalTime : List Nat
  DeltaIdleTime : List Nat
  DeltaTotalTime : List Nat
  CPUUsage : List Float64
  IsGetCPUUsageBegin : Bool
  CPUNumber : Int
  deriving DecidableEq, Repr

/-- The function `readLines` on the result of `ioutil.ReadFile`: the lines of the
file that hold something other than white space, in order. -/
def readLines (file : Except GoError GoString) : Except GoError (List GoString) :=
  match file with
  | .error e => .error e
  | .ok data => .ok ((Split data '\n').filter (fun rawLine => (TrimSpace rawLine).length > 0))

/-- The state a loop has reached, and whether it got there by running to its
end or by a panic. -/
inductive Run where
  | done (t : CPUTimeStat)
  | panicked (t : CPUTimeStat)
  deriving DecidableEq, Repr

/-- The sum `totalTime` of one row: every field that parses adds its value,
every other field adds what `ParseUint` returns with its error. -/
def rowTotal (split : List GoString) : Nat :=
  split.foldl (fun totalTime s => addU64 totalTime (ParseUint s).1) 0

/-- Lines 59 to 68 of one iteration, for processor `i`: the row is split, its
counters are stored in `CurIdleTime[i]` and `CurTotalTime[i]`, and `CPUUsage[i]`
is set to `0.0`. -/
def readStep (lines : List GoString) (t : CPUTimeStat) (i : Nat) : Run :=
  match lines[i + 1]? with
  | none => .panicked t
  | some line =>
    let split := Split line ' '
    match split[4]? with
    | none => .panicked t
    | some idleField =>
      match store t.CurIdleTime i (ParseUint idleField).1 with
      | none => .panicked t
      | some curIdle =>
        let t1 := { t with CurIdleTime := curIdle }
        match store t1.CurTotalTime i (rowTotal split) with
        | none => .panicked t1
        | some curTotal =>
          let t2 := { t1 with CurTotalTime := curTotal }
          match store t2.CPUUsage i Float64.zero with
          | none => .panicked t2
          | some usage0 => .done { t2 with CPUUsage := usage0 }

/-- Lines 70 to 72, the body of `if t.IsGetCPUUsageBegin`, for processor `i`:
the two deltas against the previous sample, and the usage from them. -/
def deltaStep (t : CPUTimeStat) (i : Nat) : Run :=
  match t.CurIdleTime[i]?, t.PrevIdleTime[i]? with
  | some ci, some pi =>
    match store t.DeltaIdleTime i (subU64 ci pi) with
    | none => .panicked t
    | some deltaIdle =>
      let t4 := { t with DeltaIdleTime := deltaIdle }
      match t4.CurTotalTime[i]?, t4.PrevTotalTime[i]? with
      | some ct, some pt =>
        match store t4.DeltaTotalTime i (subU64 ct pt) with
        | none => .panicked t4
        | some deltaTotal =>
          let t5 := { t4 with DeltaTotalTime := deltaTotal }
          match t5.DeltaIdleTime[i]?, t5.DeltaTotalTime[i]? with
          | some di, some dt =>
            match store t5.CPUUsage i
                (Float64.mul (Float64.sub Float64.one
                  (Float64.div (Float64.ofNat di) (Float64.ofNat dt)))
                  Float64.hundred) with
            | none => .panicked t5
            | some usage => .done { t5 with CPUUsage := usage }
          | _, _ => .panicked t5
      | _, _ => .panicked t4
  | _, _ => .panicked t

/-- Lines 74 and 75, for processor `i`: the current counters become the previous ones. -/
def copyStep (t : CPUTimeStat) (i : Nat) : Run :=
  match t.CurIdleTime[i]? with
  | none => .panicked t
  | some ci =>
    match store t.PrevIdleTime i ci with
    | none => .panicked t
    | some prevIdle =>
      let t7 := { t with PrevIdleTime := prevIdle }
      match t7.CurTotalTime[i]? with
      | none => .panicked t7
      | some ct =>
        match store t7.PrevTotalTime i ct with
        | none => .panicked t7
        | some prevTotal => .done { t7 with PrevTotalTime := prevTotal }

/-- One iteration of the loop of `GetCPUTimeStat`, for processor `i`. -/
def sampleRow (lines : List GoString) (t : CPUTimeStat) (i : Nat) : Run :=
  match readStep lines t i with
  | .panicked t3 => .panicked t3
  | .done t3 =>
    match (if t3.IsGetCPUUsageBegin then deltaStep t3 i else .done t3) with
    | .panicked t6 => .panicked t6
    | .done t6 => copyStep t6 i

/-- The loop `for i := 0; i < t.CPUNumber; i++` of `GetCPUTimeStat`, over the
values of `i` still to come; a panic ends it. -/
def sampleRows (lines : List GoString) : List Nat → CPUTimeStat → Run
  | [], t => .done t
  | i :: rest, t =>
    match sampleRow lines t i with
    | .panicked t1 => .panicked t1
    | .done t1 => sampleRows lines rest t1

/-- A processor row of the counter table: the label `cpuK`, then the counters in
canonical decimal, each after a single space. -/
def cpuRow (K : Nat) (fs : List Nat) : GoString :=
  ('c' :: 'p' :: 'u' :: decimal K) ++ fs.flatMap (fun f => ' ' :: decimal f)

/-- Two states hold the same values for processor `i` in all seven slices. -/
def sameAt (i : Nat) (t t' : CPUTimeStat) : Prop :=
  t'.PrevIdleTime[i]? = t.PrevIdleTime[i]? ∧ t'.PrevTotalTime[i]? = t.PrevTotalTime[i]? ∧
  t'.CurIdleTime[i]? = t.CurIdleTime[i]? ∧ t'.CurTotalTime[i]? = t.CurTotalTime[i]? ∧
  t'.DeltaIdleTime[i]? = t.DeltaIdleTime[i]? ∧ t'.DeltaTotalTime[i]? = t.DeltaTotalTime[i]? ∧
  t'.CPUUsage[i]? = t.CPUUsage[i]?

/-- Two states agree on what an iteration does not write: the flag, the processor
count and the lengths of the seven slices. -/
def sameShape (t t' : CPUTimeStat) : Prop :=
  t'.IsGetCPUUsageBegin = t.IsGetCPUUsageBegin ∧ t'.CPUNumber = t.CPUNumber ∧
  t'.PrevIdleTime.length = t.PrevIdleTime.length ∧
  t'.PrevTotalTime.length = t.PrevTotalTime.length ∧
  t'.CurIdleTime.length = t.CurIdleTime.length ∧
  t'.CurTotalTime.length = t.CurTotalTime.length ∧
  t'.DeltaIdleTime.length = t.DeltaIdleTime.length ∧
  t'.DeltaTotalTime.length = t.DeltaTotalTime.length ∧
  t'.CPUUsage.length = t.CPUUsage.length

/-- The value `(1.0 - float64(deltaIdle)/float64(deltaTotal)) * 100.0` of line 72. -/
def usageOf (deltaIdle deltaTotal : Nat) : Float64 :=
  Float64.mul (Float64.sub Float64.one
    (Float64.div (Float64.ofNat deltaIdle) (Float64.ofNat deltaTotal))) Float64.hundred

/-- The usage of line 72, `(1 - deltaIdle / deltaTotal) * 100`, in exact rational
arithmetic: what `usageOf` computes with a rounding after each operation. -/
def usageQ (deltaIdle deltaTotal : Nat) : ℚ :=
  (1 - (deltaIdle : ℚ) / (deltaTotal : ℚ)) * 100

/-- The pool value of line 204, `(1 - sumIdle / sumTotal) * 100 * k`, in exact
rational arithmetic, over the sums `sumIdle` and `sumTotal` that the loop of
`updatePoolCPUUsageMetrics` has added up and the number `k` of identifiers. -/
def poolUsageQ (sumIdle sumTotal k : Nat) : ℚ :=
  (1 - (sumIdle : ℚ) / (sumTotal : ℚ)) * 100 * (k : ℚ)

/-- Processor `i` of `t'` holds the sample of row `i + 1` of `lines`, taken over
the state `t`: the counters of the row in the current and previous slices, and
either the usage `0.0` with the deltas of `t` (flag of `t` not set) or the deltas
against the previous counters of `t` and the usage computed from them (flag set). -/
def sampledAt (lines : List GoString) (t t' : CPUTimeStat) (i : Nat) : Prop :=
  ∃ line idleField, lines[i + 1]? = some line ∧ (Split line ' ')[4]? = some idleField ∧
    t'.CurIdleTime[i]? = some (ParseUint idleField).1 ∧
    t'.CurTotalTime[i]? = some (rowTotal (Split line ' ')) ∧
    t'.PrevIdleTime[i]? = some (ParseUint idleField).1 ∧
    t'.PrevTotalTime[i]? = some (rowTotal (Split line ' ')) ∧
    (t.IsGetCPUUsageBegin = false →
      t'.DeltaIdleTime[i]? = t.DeltaIdleTime[i]? ∧
      t'.DeltaTotalTime[i]? = t.DeltaTotalTime[i]? ∧
      t'.CPUUsage[i]? = some Float64.zero) ∧
    (t.IsGetCPUUsageBegin = true →
      ∃ pi pt, t.PrevIdleTime[i]? = some pi ∧ t.PrevTotalTime[i]? = some pt ∧
        t'.DeltaIdleTime[i]? = some (subU64 (ParseUint idleField).1 pi) ∧
        t'.DeltaTotalTime[i]? = some (subU64 (rowTotal (Split line ' ')) pt) ∧
        t'.CPUUsage[i]? = some (usageOf (subU64 (ParseUint idleField).1 pi)
          (subU64 (rowTotal (Split line ' ')) pt)))

/-- The invariant of the state: each of the seven slices has length `CPUNumber`. -/
def wellSized (t : CPUTimeStat) : Prop :=
  (t.PrevIdleTime.length : Int) = t.CPUNumber ∧ (t.PrevTotalTime.length : Int) = t.CPUNumber ∧
  (t.CurIdleTime.length : Int) = t.CPUNumber ∧ (t.CurTotalTime.length : Int) = t.CPUNumber ∧
  (t.DeltaIdleTime.length : Int) = t.CPUNumber ∧
  (t.DeltaTotalTime.length : Int) = t.CPUNumber ∧
  (t.CPUUsage.length : Int) = t.CPUNumber

/-- The method `GetCPUTimeStat`, given what reading `/proc/stat` returned: the
outcome of the call and the state it leaves behind. -/
def GetCPUTimeStat (file : Except GoError GoString) (t : CPUTimeStat) :
    Result Unit × CPUTimeStat :=
  match readLines file with
  | .error e => (.err e, t)
  | .ok lines =>
    match sampleRows lines (List.range t.CPUNumber.toNat) t with
    | .panicked t1 => (.panic, t1)
    | .done t1 => (.ok (), { t1 with IsGetCPUUsageBegin := true })

end Procstats

/-! ## `podpools`: `resolvePools` -/

namespace Podpools

open Strings Strconv Fmt

/-- The inner loop of `resolvePools`, `for j := begin + 1; j <= end; j++`, entered
with `j` and the text built so far. `j++` wraps as `int` does. One unit of `fuel`
is one test of the loop condition; `none` means the fuel ran out before the loop
was left. -/
def rangeLoop (eng : Engine) : Nat → Int → Int → GoString → Option GoString
  | 0, _, _, _ => none
  | fuel + 1, j, stop, cpus =>
    if j ≤ stop then
      rangeLoop eng fuel (wrapInt64 (j + 1)) stop
        (Sprintf eng (cpus ++ [',', '%', 'd']) (.int j))
    else some cpus

/-- The body of the outer loop of `resolvePools` for one comma-separated token. -/
def resolveToken (eng : Engine) (fuel : Nat) (cpus : GoString) (cpusetStr : GoString) :
    Option GoString :=
  let cpuMember := Split cpusetStr '-'
  let first := cpuMember.headD []
  let cpus1 :=
    if cpus ≠ [] then Sprintf eng (cpus ++ [',', '%', 's']) (.str first)
    else Sprintf eng ['%', 's'] (.str first)
  if cpuMember.length > 1 then
    let start := (Atoi first).1
    let stop := (Atoi (cpuMember.getD 1 [])).1
    rangeLoop eng fuel (wrapInt64 (start + 1)) stop cpus1
  else some cpus1

/-- The outer loop of `resolvePools` over the tokens, from the text built so far. -/
def resolveTokens (eng : Engine) (fuel : Nat) : List GoString → GoString → Option GoString
  | [], cpus => some cpus
  | tok :: rest, cpus =>
    match resolveToken eng fuel cpus tok with
    | none => none
    | some cpus1 => resolveTokens eng fuel rest cpus1

/-- The function `resolvePools`: resolves a cpuset into single cpus. `fuel` bounds
the iterations of each range loop; `none` means a range loop did not end within it. -/
def resolvePools (eng : Engine) (fuel : Nat) (cpuset : GoString) : Option GoString :=
  resolveTokens eng fuel (Split cpuset ',') []

/-- The package variable `cpuTimeStat` as initialised: seven zeroed slices of
length `cpuNumber`. -/
def cpuTimeStat (cpuNumber : Nat) : Procstats.CPUTimeStat where
  PrevIdleTime := List.replicate cpuNumber 0
  PrevTotalTime := List.replicate cpuNumber 0
  CurIdleTime := List.replicate cpuNumber 0
  CurTotalTime := List.replicate cpuNumber 0
  DeltaIdleTime := List.replicate cpuNumber 0
  DeltaTotalTime := List.replicate cpuNumber 0
  CPUUsage := List.replicate cpuNumber Float64.zero
  IsGetCPUUsageBegin := false
  CPUNumber := cpuNumber

/-- The struct `PoolMetrics`. -/
structure PoolMetrics where
  DefName : GoString
  PrettyName : GoString
  CPUs : GoString
  CPUMiliSize : GoString
  Memory : GoString
  ContainerNames : GoString
  PodNames : GoString
  deriving DecidableEq, Repr

/-- The struct `Metrics`: the map `PoolMetrics`, as the list of its entries (pool
name and value; `PollMetrics` stores no `nil` value). -/
structure Metrics where
  PoolMetrics : List (GoString × PoolMetrics)
  deriving DecidableEq, Repr

/-- A constant gauge made by `prometheus.MustNewConstMetric`: the index of its
descriptor in `descriptors`, its value and its label values. -/
structure Metric where
  desc : Nat
  value : Float64
  labelValues : List GoString
  deriving DecidableEq, Repr

/-- Index of the descriptor `thread_cpu_usage`. -/
def threadCPUUsageDesc : Nat := 0

/-- Index of the descriptor `pool_cpu_usage`. -/
def poolCPUUsageDesc : Nat := 1

/-- The order `<` of Go strings: lexicographic by bytes, which for UTF-8 text is
lexicographic by code points. -/
def strLt : GoString → GoString → Bool
  | [], [] => false
  | [], _ :: _ => true
  | _ :: _, [] => false
  | a :: as, b :: bs => a.toNat < b.toNat || (a == b && strLt as bs)

/-- The call `sort.Sort(sort.StringSlice(names))`: the names in ascending order. -/
def sortStrings (names : List GoString) : List GoString :=
  names.insertionSort (fun a b => strLt b a = false)

/-- The loop over `cpusPerPoolList` in `updatePoolCPUUsageMetrics`: the sums
`poolDeltaIdleTime` and `poolDeltaTotalTime`; `none` is the panic of an index
outside `DeltaIdleTime` or `DeltaTotalTime`. -/
def sumPool (t : Procstats.CPUTimeStat) : List GoString → Nat → Nat → Option (Nat × Nat)
  | [], idle, total => some (idle, total)
  | cpuId :: rest, idle, total =>
    let cpuIdInt := (Atoi cpuId).1
    if cpuIdInt < 0 then none
    else
      match t.DeltaIdleTime[cpuIdInt.toNat]? with
      | none => none
      | some di =>
        match t.DeltaTotalTime[cpuIdInt.toNat]? with
        | none => none
        | some dt => sumPool t rest (addU64 idle di) (addU64 total dt)

/-- The value `poolCPUUsageList[poolName]` that one iteration of the loop of
`updatePoolCPUUsageMetrics` computes from the pool's cpuset string. -/
def poolCPUUsage (eng : Engine) (fuel : Nat) (t : Procstats.CPUTimeStat) (cpuset : GoString) :
    Result Float64 :=
  match resolvePools eng fuel cpuset with
  | none => .outOfFuel
  | some cpus =>
    let cpusPerPoolList := Split cpus ','
    match sumPool t cpusPerPoolList 0 0 with
    | none => .panic
    | some (poolDeltaIdleTime, poolDeltaTotalTime) =>
      .ok (Float64.mul
        (Float64.mul
          (Float64.sub Float64.one
            (Float64.div (Float64.ofNat poolDeltaIdleTime) (Float64.ofNat poolDeltaTotalTime)))
          Float64.hundred)
        (Float64.ofInt (cpusPerPoolList.length : Int)))

/-- The loop of `updatePoolCPUUsageMetrics` over the sorted pool names still to
come: one record per pool, in that order; a panic or a range loop that does not
end stops it. -/
def poolRecords (eng : Engine) (fuel : Nat) (policyName : GoString) (ppm : Metrics)
    (t : Procstats.CPUTimeStat) : List GoString → Result (List Metric)
  | [] => .ok []
  | poolName :: rest =>
    match ppm.PoolMetrics.lookup poolName with
    | none => .panic
    | some pm =>
      match poolCPUUsage eng fuel t pm.CPUs with
      | .ok usage =>
        match poolRecords eng fuel policyName ppm t rest with
        | .ok records =>
          .ok ({ desc := poolCPUUsageDesc, value := usage,
                 labelValues := [policyName, poolName, pm.DefName, pm.CPUs, pm.Memory,
                   pm.CPUMiliSize, pm.PodNames, pm.ContainerNames] } :: records)
        | r => r
      | .err e => .err e
      | .panic => .panic
      | .outOfFuel => .outOfFuel

/-- The function `updatePoolCPUUsageMetrics`. The argument is `none` for a `nil`
pointer. `policyName` is the constant `PolicyName`, declared elsewhere in the package. -/
def updatePoolCPUUsageMetrics (eng : Engine) (fuel : Nat) (policyName : GoString)
    (ppm : Option Metrics) (t : Procstats.CPUTimeStat) : Result (List Metric) :=
  match ppm with
  | none => .err ⟨"Podpools metrics used to count pool CPU usage is missing.".toList⟩
  | some m => poolRecords eng fuel policyName m t (sortStrings (m.PoolMetrics.map Prod.fst))

/-- The function `updateThreadCPUUsageMetrics`: one record per processor, the
`i`-th with value `CPUUsage[i]` and label `strconv.Itoa(i)`; an index outside
`CPUUsage` panics. -/
def updateThreadCPUUsageMetrics (cpuNumber : Nat) (t : Procstats.CPUTimeStat) :
    Result (List Metric) :=
  (List.range cpuNumber).foldr
    (fun (i : Nat) acc =>
      match t.CPUUsage[i]?, acc with
      | some u, .ok records =>
        .ok ({ desc := threadCPUUsageDesc, value := u, labelValues := [Itoa (i : Int)] } :: records)
      | _, _ => .panic)
    (.ok [])

/-- The argument of `CollectMetrics`, a `policy.Metrics` interface value: a
`*Metrics` (`none` for the `nil` pointer) or a value of another type. -/
inductive PolicyMetrics where
  | podpools (m : Option Metrics)
  | other

/-- The method `CollectMetrics`, given what reading `/proc/stat` returns: the
outcome of the scrape and the sampling state after it. -/
def CollectMetrics (eng : Engine) (fuel : Nat) (policyName : GoString) (cpuNumber : Nat)
    (file : Except GoError GoString) (m : PolicyMetrics) (t : Procstats.CPUTimeStat) :
    Result (List Metric) × Procstats.CPUTimeStat :=
  match m with
  | .other => (.err ⟨"Wrong podpools metrics.".toList⟩, t)
  | .podpools metrics =>
    match Procstats.GetCPUTimeStat file t with
    | (.err e, t1) => (.err e, t1)
    | (.panic, t1) => (.panic, t1)
    | (.outOfFuel, t1) => (.outOfFuel, t1)
    | (.ok _, t1) =>
      match updateThreadCPUUsageMetrics cpuNumber t1 with
      | .ok threadCPUMetrics =>
        match updatePoolCPUUsageMetrics eng fuel policyName metrics t1 with
        | .ok poolCPUMetrics => (.ok (threadCPUMetrics ++ poolCPUMetrics), t1)
        | r => (r, t1)
      | r => (r, t1)

/-! ### Well-formed processor-set strings -/

/-- A token of a processor-set string: one identifier, or a range `lo-hi`. -/
inductive CpuToken where
  | single (n : Nat)
  | range (lo hi : Nat)
  deriving DecidableEq, Repr

/-- The text of a token, its numbers in canonical decimal. -/
def CpuToken.text : CpuToken → GoString
  | .single n => decimal n
  | .range lo hi => decimal lo ++ '-' :: decimal hi

/-- The identifiers a token stands for: `[n]`, or `[lo, lo + 1, ..., hi]`. -/
def CpuToken.members : CpuToken → List Nat
  | .single n => [n]
  | .range lo hi => List.range' lo (hi + 1 - lo)

/-- A range is well formed when `lo ≤ hi`; a single identifier always is. -/
def CpuToken.wellFormed : CpuToken → Prop
  | .single _ => True
  | .range lo hi => lo ≤ hi

/-- The largest number a token mentions among its range bounds (0 for a single identifier,
which the code copies without reading it as a number). -/
def CpuToken.bound : CpuToken → Nat
  | .single _ => 0
  | .range _ hi => hi

/-- The number of identifiers a token adds after its first one. -/
def CpuToken.span : CpuToken → Nat
  | .single _ => 0
  | .range lo hi => hi - lo

/-- Pieces of text with a comma between neighbours. -/
def joinComma : List GoString → GoString
  | [] => []
  | [x] => x
  | x :: y :: rest => x ++ ',' :: joinComma (y :: rest)

/-- The processor-set string made of the given tokens, comma-separated. -/
def cpusetText (toks : List CpuToken) : GoString :=
  joinComma (toks.map CpuToken.text)

end Podpools

/-! # Properties -/

/-! ## Decimal text and its parsing -/

namespace Strconv

theorem toNat_digit (d : Nat) (h : d < 10) : (Char.ofNat (48 + d)).toNat = 48 + d := by
  interval_cases d <;> rfl

theorem digitVal_digit (d : Nat) (h : d < 10) : digitVal (Char.ofNat (48 + d)) = some d := by
  interval_cases d <;> rfl

theorem digitsAux_acc : ∀ (fuel n : Nat) (acc : GoString),
    digitsAux fuel n acc = digitsAux fuel n [] ++ acc := by
  intro fuel
  induction fuel with
  | zero => intro n acc; simp [digitsAux]
  | succ f ih =>
    intro n acc
    unfold digitsAux
    split
    · simp
    · rw [ih (n / 10) (_ :: acc), ih (n / 10) [_]]; simp

theorem digitsAux_fuel : ∀ (f1 f2 n : Nat) (acc : GoString), n < f1 → n < f2 →
    digitsAux f1 n acc = digitsAux f2 n acc := by
  intro f1
  induction f1 with
  | zero => intro f2 n acc h; omega
  | succ f ih =>
    intro f2 n acc h1 h2
    cases f2 with
    | zero => omega
    | succ g =>
      unfold digitsAux
      split
      · rfl
      · exact ih g (n / 10) _ (by omega) (by omega)

theorem decimal_small (n : Nat) (h : n < 10) : decimal n = [Char.ofNat (48 + n)] := by
  simp [decimal, digitsAux, h]

theorem decimal_step (n : Nat) (h : 10 ≤ n) :
    decimal n = decimal (n / 10) ++ [Char.ofNat (48 + n % 10)] := by
  have h1 : ¬ n < 10 := by omega
  simp only [decimal]
  rw [digitsAux, if_neg h1, digitsAux_acc, digitsAux_fuel n (n / 10 + 1) (n / 10) [] (by omega) (by omega)]

/-- Every character of a canonical decimal is a digit. -/
theorem decimal_digits (n : Nat) : ∀ c ∈ decimal n, 48 ≤ c.toNat ∧ c.toNat ≤ 57 := by
  induction n using Nat.strong_induction_on with
  | _ n ih =>
    by_cases h : n < 10
    · rw [decimal_small n h]
      intro c hc
      simp at hc
      subst hc
      rw [toNat_digit n h]; omega
    · rw [decimal_step n (by omega)]
      intro c hc
      rcases List.mem_append.1 hc with hc | hc
      · exact ih (n / 10) (by omega) c hc
      · simp at hc
        subst hc
        rw [toNat_digit (n % 10) (by omega)]; omega

theorem decimal_ne_nil (n : Nat) : decimal n ≠ [] := by
  by_cases h : n < 10
  · rw [decimal_small n h]; simp
  · rw [decimal_step n (by omega)]; simp

theorem not_mem_decimal (c : Char) (hc : c.toNat < 48 ∨ 57 < c.toNat) (n : Nat) :
    c ∉ decimal n := by
  intro h
  have := decimal_digits n c h
  omega

theorem parseUintLoop_append : ∀ (xs ys : GoString) (k : Nat),
    parseUintLoop (xs ++ ys) k =
      match parseUintLoop xs k with
      | (v, none) => parseUintLoop ys v
      | r => r := by
  intro xs
  induction xs with
  | nil => intro ys k; simp [parseUintLoop]
  | cons c cs ih =>
    intro ys k
    simp only [List.cons_append, parseUintLoop]
    cases digitVal c with
    | none => simp
    | some d =>
      simp only
      split
      · rfl
      · split
        · rfl
        · exact ih ys _

/-- Reading a canonical decimal gives its number back, within the 64-bit range. -/
theorem parseUintLoop_decimal (n : Nat) (h : n ≤ maxUint64) :
    parseUintLoop (decimal n) 0 = (n, none) := by
  induction n using Nat.strong_induction_on with
  | _ n ih =>
    by_cases hn : n < 10
    · rw [decimal_small n hn]
      simp [parseUintLoop, digitVal_digit n hn, maxUint64]
      omega
    · rw [decimal_step n (by omega), parseUintLoop_append, ih (n / 10) (by omega) (by omega)]
      simp only [maxUint64] at h
      simp only [parseUintLoop, digitVal_digit (n % 10) (by omega), maxUint64]
      have e : n / 10 * 10 + n % 10 = n := by omega
      rw [e, if_neg (by omega), if_neg (by omega)]

theorem ParseUint_decimal (n : Nat) (h : n ≤ maxUint64) : ParseUint (decimal n) = (n, none) := by
  have hne := decimal_ne_nil n
  unfold ParseUint
  split
  · contradiction
  · exact parseUintLoop_decimal n h

end Strconv


namespace Strconv

/-- The call `Atoi` reads a canonical decimal below `2 ^ 63` back without error. -/
theorem Atoi_decimal (n : Nat) (h : n < 9223372036854775808) :
    Atoi (decimal n) = ((n : Int), none) := by
  have hp := ParseUint_decimal n (by simp only [maxUint64]; omega)
  have hd := decimal_digits n
  cases hs : decimal n with
  | nil => exact absurd hs (decimal_ne_nil n)
  | cons c cs =>
    rw [hs] at hp hd
    have hc := hd c (by simp)
    have h1 : (c == '-') = false := by
      apply beq_false_of_ne
      rintro rfl
      exact absurd hc (by decide)
    have h2 : (c == '+') = false := by
      apply beq_false_of_ne
      rintro rfl
      exact absurd hc (by decide)
    simp only [Atoi, ParseInt, h1, h2]
    simp only [Bool.false_eq_true, or_self, if_false, hp]
    simp
    omega

theorem Itoa_natCast (n : Nat) : Itoa (n : Int) = decimal n := by
  simp [Itoa]

end Strconv

/-! ## Splitting and joining -/

namespace Strings

theorem Split_none (s : GoString) (c : Char) (h : c ∉ s) : Split s c = [s] := by
  have := List.splitOn_intercalate [s] c (by simpa using h) (by simp)
  simpa [List.intercalate, List.intersperse, Split] using this

theorem Split_pair (a b : GoString) (c : Char) (ha : c ∉ a) (hb : c ∉ b) :
    Split (a ++ c :: b) c = [a, b] := by
  have := List.splitOn_intercalate [a, b] c (by simp [ha, hb]) (by simp)
  simpa [List.intercalate, List.intersperse, Split] using this

theorem Split_ne_nil (s : GoString) (c : Char) : Split s c ≠ [] := by
  exact List.splitOnP_ne_nil _ s

end Strings

namespace Podpools

open Strings Strconv Fmt

theorem joinComma_cons (x : GoString) (rest : List GoString) :
    joinComma (x :: rest) = x ++ rest.flatMap (fun y => ',' :: y) := by
  induction rest generalizing x with
  | nil => simp [joinComma]
  | cons y ys ih => simp [joinComma, ih y]

theorem joinComma_eq_intercalate (l : List GoString) :
    joinComma l = [','].intercalate l := by
  induction l with
  | nil => rfl
  | cons x rest ih =>
    cases rest with
    | nil => simp [joinComma, List.intercalate, List.intersperse]
    | cons y ys =>
      simp only [joinComma, ih]
      simp [List.intercalate, List.intersperse]

theorem Split_joinComma (l : List GoString) (hl : l ≠ []) (h : ∀ s ∈ l, ',' ∉ s) :
    Split (joinComma l) ',' = l := by
  rw [joinComma_eq_intercalate]
  exact List.splitOn_intercalate l ',' h hl

end Podpools

/-! ## `fmt.Sprintf` on text without directives -/

namespace Fmt

theorem Sprintf_cons (eng : Engine) (c : Char) (rest : GoString) (a : Operand) (h : c ≠ '%') :
    Sprintf eng (c :: rest) a = c :: Sprintf eng rest a := by
  rw [Sprintf]
  · exact h
  · intro _ e; exact absurd e h
  · intro _ e; exact absurd e h

theorem Sprintf_text_s (eng : Engine) (pre s : GoString) (h : '%' ∉ pre) :
    Sprintf eng (pre ++ [',', '%', 's']) (.str s) = pre ++ ',' :: s := by
  induction pre with
  | nil =>
    rw [List.nil_append, Sprintf_cons eng ',' _ _ (by decide)]
    rfl
  | cons c cs ih =>
    have hc : c ≠ '%' := fun e => h (by simp [e])
    rw [List.cons_append, Sprintf_cons eng c _ _ hc, ih (fun m => h (by simp [m]))]
    rfl

theorem Sprintf_text_d (eng : Engine) (pre : GoString) (z : Int) (h : '%' ∉ pre) :
    Sprintf eng (pre ++ [',', '%', 'd']) (.int z) = pre ++ ',' :: Strconv.Itoa z := by
  induction pre with
  | nil =>
    rw [List.nil_append, Sprintf_cons eng ',' _ _ (by decide)]
    rfl
  | cons c cs ih =>
    have hc : c ≠ '%' := fun e => h (by simp [e])
    rw [List.cons_append, Sprintf_cons eng c _ _ hc, ih (fun m => h (by simp [m]))]
    rfl

end Fmt

/-! ## `resolvePools` on well-formed processor-set strings -/

namespace Podpools

open Strings Strconv Fmt

theorem percent_not_mem_decimal (n : Nat) : '%' ∉ decimal n :=
  not_mem_decimal '%' (by decide) n

theorem comma_not_mem_decimal (n : Nat) : ',' ∉ decimal n :=
  not_mem_decimal ',' (by decide) n

theorem dash_not_mem_decimal (n : Nat) : '-' ∉ decimal n :=
  not_mem_decimal '-' (by decide) n

theorem percent_not_mem_ids (ks : List Nat) :
    '%' ∉ ks.flatMap (fun k => ',' :: decimal k) := by
  induction ks with
  | nil => simp
  | cons k rest ih =>
    simp only [List.flatMap_cons, List.mem_append, List.mem_cons, not_or]
    exact ⟨⟨by decide, percent_not_mem_decimal k⟩, ih⟩

theorem joinComma_append (xs ys : List GoString) (h : xs ≠ []) :
    joinComma (xs ++ ys) = joinComma xs ++ ys.flatMap (fun y => ',' :: y) := by
  cases xs with
  | nil => exact absurd rfl h
  | cons x rest => simp [joinComma_cons, List.append_assoc]

theorem flatMap_decimal (ks : List Nat) :
    (ks.map decimal).flatMap (fun y => ',' :: y) = ks.flatMap (fun k => ',' :: decimal k) := by
  simp [List.flatMap_map]

/-- The range loop from `a` to `stop`, both well inside the `int` range, writes
`a, a + 1, ..., stop` in decimal, each after a comma, and ends. -/
theorem rangeLoop_run (eng : Engine) : ∀ (len a fuel stop : Nat) (cpus : GoString),
    '%' ∉ cpus → a + len = stop + 1 → stop < 9223372036854775807 → len < fuel →
    rangeLoop eng fuel (a : Int) (stop : Int) cpus =
      some (cpus ++ (List.range' a len).flatMap (fun k => ',' :: decimal k)) := by
  intro len
  induction len with
  | zero =>
    intro a fuel stop cpus _ h1 _ hf
    obtain ⟨f, rfl⟩ : ∃ f, fuel = f + 1 := ⟨fuel - 1, by omega⟩
    have hgt : ¬ ((a : Int) ≤ (stop : Int)) := by omega
    simp [rangeLoop, hgt]
  | succ n ih =>
    intro a fuel stop cpus hp h1 hs hf
    obtain ⟨f, rfl⟩ : ∃ f, fuel = f + 1 := ⟨fuel - 1, by omega⟩
    have hle : (a : Int) ≤ (stop : Int) := by omega
    have hw : wrapInt64 ((a : Int) + 1) = ((a + 1 : Nat) : Int) := by
      unfold wrapInt64
      push_cast
      omega
    have hp1 : '%' ∉ cpus ++ ',' :: decimal a := by
      simp only [List.mem_append, List.mem_cons, not_or]
      exact ⟨hp, by decide, percent_not_mem_decimal a⟩
    rw [rangeLoop, if_pos hle, hw, Sprintf_text_d eng cpus _ hp, Itoa_natCast,
      ih (a + 1) f stop _ hp1 (by omega) hs (by omega)]
    simp [List.range'_succ]

/-- One well-formed token, read after the text `cpus`, adds its identifiers. -/
theorem resolveToken_wellFormed (eng : Engine) (fuel : Nat) (cpus : GoString) (tok : CpuToken)
    (hp : '%' ∉ cpus) (hw : tok.wellFormed) (hb : tok.bound < 9223372036854775807)
    (hf : tok.span < fuel) :
    resolveToken eng fuel cpus tok.text =
      some (if cpus = [] then joinComma (tok.members.map decimal)
        else cpus ++ tok.members.flatMap (fun k => ',' :: decimal k)) := by
  cases tok with
  | single n =>
    have hsplit : Split (decimal n) '-' = [decimal n] := Split_none _ _ (dash_not_mem_decimal n)
    simp only [resolveToken, CpuToken.text, hsplit, List.headD_cons, List.length_singleton,
      CpuToken.members]
    by_cases hc : cpus = []
    · subst hc
      simp [joinComma, Sprintf]
    · simp [hc, Sprintf_text_s eng cpus _ hp]
  | range lo hi =>
    simp only [CpuToken.wellFormed] at hw
    simp only [CpuToken.bound] at hb
    simp only [CpuToken.span] at hf
    have hsplit : Split (decimal lo ++ '-' :: decimal hi) '-' = [decimal lo, decimal hi] :=
      Split_pair _ _ _ (dash_not_mem_decimal lo) (dash_not_mem_decimal hi)
    have hlo := Atoi_decimal lo (by omega)
    have hhi := Atoi_decimal hi (by omega)
    have hw1 : wrapInt64 ((lo : Int) + 1) = ((lo + 1 : Nat) : Int) := by
      unfold wrapInt64
      push_cast
      omega
    have hmem : List.range' lo (hi + 1 - lo) = lo :: List.range' (lo + 1) (hi - lo) := by
      have e : hi + 1 - lo = (hi - lo) + 1 := by omega
      rw [e, List.range'_succ]
    simp only [resolveToken, CpuToken.text, hsplit, List.headD_cons, CpuToken.members, hmem,
      List.length_cons, List.length_nil, List.getD_cons_succ, List.getD_cons_zero, hlo, hhi, hw1]
    by_cases hc : cpus = []
    · subst hc
      have hp1 : '%' ∉ decimal lo := percent_not_mem_decimal lo
      have hs : Sprintf eng ['%', 's'] (Operand.str (decimal lo)) = decimal lo := rfl
      simp only [ne_eq, not_true_eq_false, if_false, hs, if_true]
      rw [if_pos (by omega), rangeLoop_run eng (hi - lo) (lo + 1) fuel hi _ hp1 (by omega) hb hf]
      simp [joinComma_cons, List.flatMap_map]
    · have hp1 : '%' ∉ cpus ++ ',' :: decimal lo := by
        simp only [List.mem_append, List.mem_cons, not_or]
        exact ⟨hp, by decide, percent_not_mem_decimal lo⟩
      simp only [ne_eq, hc, not_false_eq_true, if_true, if_false, Sprintf_text_s eng cpus _ hp]
      rw [if_pos (by omega), rangeLoop_run eng (hi - lo) (lo + 1) fuel hi _ hp1 (by omega) hb hf]
      simp

theorem members_ne_nil (tok : CpuToken) (hw : tok.wellFormed) : tok.members ≠ [] := by
  cases tok with
  | single n => simp [CpuToken.members]
  | range lo hi =>
    simp only [CpuToken.wellFormed] at hw
    have e : hi + 1 - lo = (hi - lo) + 1 := by omega
    simp [CpuToken.members, e, List.range'_succ]

/-- The tokens read after text that is not empty: their identifiers are added
in order. -/
theorem resolveTokens_after (eng : Engine) (fuel : Nat) : ∀ (toks : List CpuToken)
    (cpus : GoString), cpus ≠ [] → '%' ∉ cpus →
    (∀ t ∈ toks, t.wellFormed ∧ t.bound < 9223372036854775807 ∧ t.span < fuel) →
    resolveTokens eng fuel (toks.map CpuToken.text) cpus =
      some (cpus ++ (toks.flatMap CpuToken.members).flatMap (fun k => ',' :: decimal k)) := by
  intro toks
  induction toks with
  | nil => intro cpus _ _ _; simp [resolveTokens]
  | cons t rest ih =>
    intro cpus hne hp h
    obtain ⟨hw, hb, hf⟩ := h t (by simp)
    have hp1 : '%' ∉ cpus ++ t.members.flatMap (fun k => ',' :: decimal k) := by
      simp only [List.mem_append, not_or]
      exact ⟨hp, percent_not_mem_ids _⟩
    simp only [List.map_cons, resolveTokens, resolveToken_wellFormed eng fuel cpus t hp hw hb hf,
      if_neg hne]
    rw [ih _ (by simp [hne]) hp1 (fun u hu => h u (by simp [hu]))]
    simp

/-- On a well-formed processor-set string whose range bounds are below the
largest `int`, `resolvePools` returns the identifiers of all tokens, in order,
in decimal and comma-separated. -/
theorem resolvePools_wellFormed (eng : Engine) (fuel : Nat) (toks : List CpuToken)
    (hne : toks ≠ [])
    (h : ∀ t ∈ toks, t.wellFormed ∧ t.bound < 9223372036854775807 ∧ t.span < fuel) :
    resolvePools eng fuel (cpusetText toks) =
      some (joinComma ((toks.flatMap CpuToken.members).map decimal)) := by
  have hsplit : Split (cpusetText toks) ',' = toks.map CpuToken.text := by
    apply Split_joinComma
    · simpa using hne
    · intro s hs
      obtain ⟨t, _, rfl⟩ := List.mem_map.1 hs
      cases t with
      | single n => exact comma_not_mem_decimal n
      | range lo hi =>
        simp only [CpuToken.text, List.mem_append, List.mem_cons, not_or]
        exact ⟨comma_not_mem_decimal lo, by decide, comma_not_mem_decimal hi⟩
  cases toks with
  | nil => exact absurd rfl hne
  | cons t rest =>
    obtain ⟨hw, hb, hf⟩ := h t (by simp)
    have hm := members_ne_nil t hw
    have hj : joinComma (t.members.map decimal) ≠ [] := by
      cases hmm : t.members with
      | nil => exact absurd hmm hm
      | cons k ks =>
        rw [List.map_cons, joinComma_cons]
        simp [decimal_ne_nil k]
    have hp1 : '%' ∉ joinComma (t.members.map decimal) := by
      cases hmm : t.members with
      | nil => exact absurd hmm hm
      | cons k ks =>
        rw [List.map_cons, joinComma_cons, flatMap_decimal]
        simp only [List.mem_append, not_or]
        exact ⟨percent_not_mem_decimal k, percent_not_mem_ids ks⟩
    rw [resolvePools, hsplit, List.map_cons, resolveTokens,
      resolveToken_wellFormed eng fuel [] t (by simp) hw hb hf]
    simp only [if_true]
    rw [resolveTokens_after eng fuel rest _ hj hp1 (fun u hu => h u (by simp [hu]))]
    rw [List.flatMap_cons, List.map_append, joinComma_append _ _ (by simpa using hm),
      flatMap_decimal]

/-- Splitting the comma-separated decimals of a non-empty list gives the decimals back. -/
theorem Split_ids (ids : List Nat) (h : ids ≠ []) :
    Split (joinComma (ids.map decimal)) ',' = ids.map decimal := by
  apply Split_joinComma
  · simpa using h
  · intro s hs
    obtain ⟨k, _, rfl⟩ := List.mem_map.1 hs
    exact comma_not_mem_decimal k

theorem members_flatMap_ne_nil (toks : List CpuToken) (hne : toks ≠ [])
    (h : ∀ t ∈ toks, t.wellFormed) : toks.flatMap CpuToken.members ≠ [] := by
  cases toks with
  | nil => exact absurd rfl hne
  | cons t rest =>
    have := members_ne_nil t (h t (by simp))
    simp [this]

end Podpools

/-! ## A range that ends at the largest `int` -/

namespace Podpools

open Strings Strconv Fmt

theorem wrapInt64_range (z : Int) : minInt64 ≤ wrapInt64 z ∧ wrapInt64 z ≤ maxInt64 := by
  unfold wrapInt64 minInt64 maxInt64
  omega

/-- With `end` the largest `int`, the condition `j <= end` never fails: the range
loop is not left, whatever the fuel. -/
theorem rangeLoop_maxInt (eng : Engine) : ∀ (fuel : Nat) (j : Int) (cpus : GoString),
    j ≤ maxInt64 → rangeLoop eng fuel j maxInt64 cpus = none := by
  intro fuel
  induction fuel with
  | zero => intro j cpus _; rfl
  | succ f ih =>
    intro j cpus hj
    rw [rangeLoop, if_pos hj]
    exact ih _ _ (wrapInt64_range _).2

theorem resolvePools_unbounded (eng : Engine) (fuel : Nat) :
    resolvePools eng fuel "0-9223372036854775807".toList = none := by
  have h : resolvePools eng fuel "0-9223372036854775807".toList =
      (match rangeLoop eng fuel (wrapInt64 (0 + 1)) maxInt64 ['0'] with
        | none => none
        | some cpus1 => resolveTokens eng fuel [] cpus1) := by
    rfl
  rw [h, rangeLoop_maxInt eng fuel _ _ (wrapInt64_range _).2]

end Podpools

/-! ## One iteration of the sampling loop -/

theorem store_eq_some {α : Type} (xs ys : List α) (i : Nat) (v : α) :
    store xs i v = some ys ↔ i < xs.length ∧ ys = xs.set i v := by
  unfold store
  split <;> simp_all [eq_comm]

theorem store_of_lt {α : Type} (xs : List α) (i : Nat) (v : α) (h : i < xs.length) :
    store xs i v = some (xs.set i v) := by
  simp [store, h]

namespace Procstats

open Strings Strconv

/-- A first step that runs to its end has found row `i + 1` with a fifth field,
and has written the three slices at `i`. -/
theorem readStep_done (lines : List GoString) (t t' : CPUTimeStat) (i : Nat)
    (h : readStep lines t i = .done t') :
    ∃ line idleField, lines[i + 1]? = some line ∧ (Split line ' ')[4]? = some idleField ∧
      i < t.CurIdleTime.length ∧ i < t.CurTotalTime.length ∧ i < t.CPUUsage.length ∧
      t' = { t with
        CurIdleTime := t.CurIdleTime.set i (ParseUint idleField).1,
        CurTotalTime := t.CurTotalTime.set i (rowTotal (Split line ' ')),
        CPUUsage := t.CPUUsage.set i Float64.zero } := by
  unfold readStep at h
  cases hl : lines[i + 1]? with
  | none => simp [hl] at h
  | some line =>
    cases hf : (Split line ' ')[4]? with
    | none => simp [hl, hf] at h
    | some idleField =>
      cases hci : store t.CurIdleTime i (ParseUint idleField).1 with
      | none => simp [hl, hf, hci] at h
      | some curIdle =>
        cases hct : store t.CurTotalTime i (rowTotal (Split line ' ')) with
        | none => simp [hl, hf, hci, hct] at h
        | some curTotal =>
          cases hu0 : store t.CPUUsage i Float64.zero with
          | none => simp [hl, hf, hci, hct, hu0] at h
          | some usage0 =>
            simp only [hl, hf, hci, hct, hu0, Run.done.injEq] at h
            rw [store_eq_some] at hci hct hu0
            refine ⟨line, idleField, rfl, hf, hci.1, hct.1, hu0.1, ?_⟩
            rw [← h, hci.2, hct.2, hu0.2]

/-- A second step that runs to its end has read the four counters of `i` and
has written the two deltas and the usage computed from them. -/
theorem deltaStep_done (t t' : CPUTimeStat) (i : Nat) (h : deltaStep t i = .done t') :
    ∃ ci pi ct pt, t.CurIdleTime[i]? = some ci ∧ t.PrevIdleTime[i]? = some pi ∧
      t.CurTotalTime[i]? = some ct ∧ t.PrevTotalTime[i]? = some pt ∧
      i < t.DeltaIdleTime.length ∧ i < t.DeltaTotalTime.length ∧ i < t.CPUUsage.length ∧
      t' = { t with
        DeltaIdleTime := t.DeltaIdleTime.set i (subU64 ci pi),
        DeltaTotalTime := t.DeltaTotalTime.set i (subU64 ct pt),
        CPUUsage := t.CPUUsage.set i
          (Float64.mul (Float64.sub Float64.one
            (Float64.div (Float64.ofNat (subU64 ci pi)) (Float64.ofNat (subU64 ct pt))))
            Float64.hundred) } := by
  unfold deltaStep at h
  cases hci : t.CurIdleTime[i]? with
  | none => simp [hci] at h
  | some ci =>
    cases hpi : t.PrevIdleTime[i]? with
    | none => simp [hci, hpi] at h
    | some pi =>
      cases hdi : store t.DeltaIdleTime i (subU64 ci pi) with
      | none => simp [hci, hpi, hdi] at h
      | some deltaIdle =>
        cases hct : t.CurTotalTime[i]? with
        | none => simp [hci, hpi, hdi, hct] at h
        | some ct =>
          cases hpt : t.PrevTotalTime[i]? with
          | none => simp [hci, hpi, hdi, hct, hpt] at h
          | some pt =>
            cases hdt : store t.DeltaTotalTime i (subU64 ct pt) with
            | none => simp [hci, hpi, hdi, hct, hpt, hdt] at h
            | some deltaTotal =>
              rw [store_eq_some] at hdi hdt
              obtain ⟨hdi1, rfl⟩ := hdi
              obtain ⟨hdt1, rfl⟩ := hdt
              simp only [hci, hpi, hct, hpt, store_of_lt _ _ _ hdi1, store_of_lt _ _ _ hdt1,
                List.getElem?_set_self hdi1, List.getElem?_set_self hdt1] at h
              cases hu : store t.CPUUsage i
                  (Float64.mul (Float64.sub Float64.one
                    (Float64.div (Float64.ofNat (subU64 ci pi)) (Float64.ofNat (subU64 ct pt))))
                    Float64.hundred) with
              | none => simp [hu] at h
              | some usage =>
                simp only [hu, Run.done.injEq] at h
                rw [store_eq_some] at hu
                refine ⟨ci, pi, ct, pt, rfl, rfl, rfl, rfl, hdi1, hdt1, hu.1, ?_⟩
                rw [← h, hu.2]

/-- A third step that runs to its end has copied the current counters of `i`
into the previous ones. -/
theorem copyStep_done (t t' : CPUTimeStat) (i : Nat) (h : copyStep t i = .done t') :
    ∃ ci ct, t.CurIdleTime[i]? = some ci ∧ t.CurTotalTime[i]? = some ct ∧
      i < t.PrevIdleTime.length ∧ i < t.PrevTotalTime.length ∧
      t' = { t with
        PrevIdleTime := t.PrevIdleTime.set i ci,
        PrevTotalTime := t.PrevTotalTime.set i ct } := by
  unfold copyStep at h
  cases hci : t.CurIdleTime[i]? with
  | none => simp [hci] at h
  | some ci =>
    cases hpi : store t.PrevIdleTime i ci with
    | none => simp [hci, hpi] at h
    | some prevIdle =>
      cases hct : t.CurTotalTime[i]? with
      | none => simp [hci, hpi, hct] at h
      | some ct =>
        cases hpt : store t.PrevTotalTime i ct with
        | none => simp [hci, hpi, hct, hpt] at h
        | some prevTotal =>
          simp only [hci, hpi, hct, hpt, Run.done.injEq] at h
          rw [store_eq_some] at hpi hpt
          refine ⟨ci, ct, rfl, rfl, hpi.1, hpt.1, ?_⟩
          rw [← h, hpi.2, hpt.2]

end Procstats

namespace Procstats

open Strings Strconv

/-- What a complete iteration for processor `i` has done, on a state whose flag
is not set: the counters of row `i + 1` are in the current and previous slices,
the usage is `0.0`, the deltas are as they were. -/
theorem sampleRow_done_first (lines : List GoString) (t t' : CPUTimeStat) (i : Nat)
    (hflag : t.IsGetCPUUsageBegin = false) (h : sampleRow lines t i = .done t') :
    ∃ line idleField, lines[i + 1]? = some line ∧ (Split line ' ')[4]? = some idleField ∧
      i < t.CurIdleTime.length ∧ i < t.CurTotalTime.length ∧ i < t.CPUUsage.length ∧
      i < t.PrevIdleTime.length ∧ i < t.PrevTotalTime.length ∧
      t' = { t with
        CurIdleTime := t.CurIdleTime.set i (ParseUint idleField).1,
        CurTotalTime := t.CurTotalTime.set i (rowTotal (Split line ' ')),
        CPUUsage := t.CPUUsage.set i Float64.zero,
        PrevIdleTime := t.PrevIdleTime.set i (ParseUint idleField).1,
        PrevTotalTime := t.PrevTotalTime.set i (rowTotal (Split line ' ')) } := by
  unfold sampleRow at h
  cases hr : readStep lines t i with
  | panicked t3 => simp [hr] at h
  | done t3 =>
    obtain ⟨line, idleField, hl, hf, h1, h2, h3, rfl⟩ := readStep_done lines t t3 i hr
    have hif : (if t.IsGetCPUUsageBegin = true then deltaStep { t with
        CurIdleTime := t.CurIdleTime.set i (ParseUint idleField).1,
        CurTotalTime := t.CurTotalTime.set i (rowTotal (Split line ' ')),
        CPUUsage := t.CPUUsage.set i Float64.zero } i else Run.done { t with
        CurIdleTime := t.CurIdleTime.set i (ParseUint idleField).1,
        CurTotalTime := t.CurTotalTime.set i (rowTotal (Split line ' ')),
        CPUUsage := t.CPUUsage.set i Float64.zero }) = Run.done { t with
        CurIdleTime := t.CurIdleTime.set i (ParseUint idleField).1,
        CurTotalTime := t.CurTotalTime.set i (rowTotal (Split line ' ')),
        CPUUsage := t.CPUUsage.set i Float64.zero } := by
      rw [if_neg (by simp [hflag])]
    simp only [hr, hif] at h
    obtain ⟨ci, ct, hci, hct, h4, h5, rfl⟩ := copyStep_done _ t' i h
    simp only [List.getElem?_set_self h1, List.getElem?_set_self h2, Option.some.injEq] at hci hct
    subst hci hct
    exact ⟨line, idleField, hl, hf, h1, h2, h3, h4, h5, rfl⟩

/-- What a complete iteration for processor `i` has done, on a state whose flag
is set: as before, and the deltas against the previous counters and the usage
computed from them are written. -/
theorem sampleRow_done_next (lines : List GoString) (t t' : CPUTimeStat) (i : Nat)
    (hflag : t.IsGetCPUUsageBegin = true) (h : sampleRow lines t i = .done t') :
    ∃ line idleField pi pt, lines[i + 1]? = some line ∧
      (Split line ' ')[4]? = some idleField ∧
      t.PrevIdleTime[i]? = some pi ∧ t.PrevTotalTime[i]? = some pt ∧
      i < t.CurIdleTime.length ∧ i < t.CurTotalTime.length ∧ i < t.CPUUsage.length ∧
      i < t.DeltaIdleTime.length ∧ i < t.DeltaTotalTime.length ∧
      t' = { t with
        CurIdleTime := t.CurIdleTime.set i (ParseUint idleField).1,
        CurTotalTime := t.CurTotalTime.set i (rowTotal (Split line ' ')),
        DeltaIdleTime := t.DeltaIdleTime.set i (subU64 (ParseUint idleField).1 pi),
        DeltaTotalTime := t.DeltaTotalTime.set i (subU64 (rowTotal (Split line ' ')) pt),
        CPUUsage := t.CPUUsage.set i
          (usageOf (subU64 (ParseUint idleField).1 pi) (subU64 (rowTotal (Split line ' ')) pt)),
        PrevIdleTime := t.PrevIdleTime.set i (ParseUint idleField).1,
        PrevTotalTime := t.PrevTotalTime.set i (rowTotal (Split line ' ')) } := by
  unfold sampleRow at h
  cases hr : readStep lines t i with
  | panicked t3 => simp [hr] at h
  | done t3 =>
    obtain ⟨line, idleField, hl, hf, h1, h2, h3, rfl⟩ := readStep_done lines t t3 i hr
    have hif : ∀ (a b : Run), (if t.IsGetCPUUsageBegin = true then a else b) = a := by
      intro a b
      rw [if_pos hflag]
    simp only [hr, hif] at h
    cases hd : deltaStep { t with
        CurIdleTime := t.CurIdleTime.set i (ParseUint idleField).1,
        CurTotalTime := t.CurTotalTime.set i (rowTotal (Split line ' ')),
        CPUUsage := t.CPUUsage.set i Float64.zero } i with
    | panicked t6 => simp [hd] at h
    | done t6 =>
      simp only [hd] at h
      obtain ⟨ci, pi, ct, pt, hci, hpi, hct, hpt, h6, h7, _, rfl⟩ := deltaStep_done _ t6 i hd
      obtain ⟨ci', ct', hci', hct', h4, h5, rfl⟩ := copyStep_done _ t' i h
      simp only [List.getElem?_set_self h1, List.getElem?_set_self h2, Option.some.injEq]
        at hci hct hci' hct'
      subst hci hct hci' hct'
      refine ⟨line, idleField, pi, pt, hl, hf, hpi, hpt, h1, h2, h3, h6, h7, ?_⟩
      simp [usageOf, List.set_set]

end Procstats

/-! ## The sampling loop -/

namespace Procstats

open Strings Strconv

theorem sameAt_refl (i : Nat) (t : CPUTimeStat) : sameAt i t t :=
  ⟨rfl, rfl, rfl, rfl, rfl, rfl, rfl⟩

theorem sameAt_trans {i : Nat} {t t1 t2 : CPUTimeStat} (h1 : sameAt i t t1)
    (h2 : sameAt i t1 t2) : sameAt i t t2 := by
  obtain ⟨a1, a2, a3, a4, a5, a6, a7⟩ := h1
  obtain ⟨b1, b2, b3, b4, b5, b6, b7⟩ := h2
  exact ⟨b1.trans a1, b2.trans a2, b3.trans a3, b4.trans a4, b5.trans a5, b6.trans a6,
    b7.trans a7⟩

theorem sameShape_refl (t : CPUTimeStat) : sameShape t t :=
  ⟨rfl, rfl, rfl, rfl, rfl, rfl, rfl, rfl, rfl⟩

theorem sameShape_trans {t t1 t2 : CPUTimeStat} (h1 : sameShape t t1)
    (h2 : sameShape t1 t2) : sameShape t t2 := by
  obtain ⟨a1, a2, a3, a4, a5, a6, a7, a8, a9⟩ := h1
  obtain ⟨b1, b2, b3, b4, b5, b6, b7, b8, b9⟩ := h2
  exact ⟨b1.trans a1, b2.trans a2, b3.trans a3, b4.trans a4, b5.trans a5, b6.trans a6,
    b7.trans a7, b8.trans a8, b9.trans a9⟩

/-- An iteration for processor `j` leaves every other processor as it was. -/
theorem sampleRow_frame (lines : List GoString) (t t' : CPUTimeStat) (i j : Nat)
    (hij : j ≠ i) (h : sampleRow lines t j = .done t') : sameAt i t t' := by
  cases hflag : t.IsGetCPUUsageBegin with
  | false =>
    obtain ⟨_, _, _, _, _, _, _, _, _, rfl⟩ := sampleRow_done_first lines t t' j hflag h
    simp [sameAt, List.getElem?_set_ne hij]
  | true =>
    obtain ⟨_, _, _, _, _, _, _, _, _, _, _, _, _, rfl⟩ :=
      sampleRow_done_next lines t t' j hflag h
    simp [sameAt, List.getElem?_set_ne hij]

/-- An iteration keeps the flag, the processor count and the lengths. -/
theorem sampleRow_shape (lines : List GoString) (t t' : CPUTimeStat) (j : Nat)
    (h : sampleRow lines t j = .done t') : sameShape t t' := by
  cases hflag : t.IsGetCPUUsageBegin with
  | false =>
    obtain ⟨_, _, _, _, _, _, _, _, _, rfl⟩ := sampleRow_done_first lines t t' j hflag h
    simp [sameShape]
  | true =>
    obtain ⟨_, _, _, _, _, _, _, _, _, _, _, _, _, rfl⟩ :=
      sampleRow_done_next lines t t' j hflag h
    simp [sameShape]

/-- A complete iteration for processor `i` leaves the sample of row `i + 1` at `i`. -/
theorem sampleRow_sampledAt (lines : List GoString) (t t' : CPUTimeStat) (i : Nat)
    (h : sampleRow lines t i = .done t') : sampledAt lines t t' i := by
  cases hflag : t.IsGetCPUUsageBegin with
  | false =>
    obtain ⟨line, idleField, hl, hf, h1, h2, h3, h4, h5, rfl⟩ :=
      sampleRow_done_first lines t t' i hflag h
    refine ⟨line, idleField, hl, hf, ?_⟩
    simp [List.getElem?_set_self, h1, h2, h3, h4, h5, hflag]
  | true =>
    obtain ⟨line, idleField, pi, pt, hl, hf, hpi, hpt, h1, h2, h3, h6, h7, rfl⟩ :=
      sampleRow_done_next lines t t' i hflag h
    have h4 : i < t.PrevIdleTime.length := by
      rcases List.getElem?_eq_some_iff.1 hpi with ⟨hlt, _⟩
      exact hlt
    have h5 : i < t.PrevTotalTime.length := by
      rcases List.getElem?_eq_some_iff.1 hpt with ⟨hlt, _⟩
      exact hlt
    refine ⟨line, idleField, hl, hf, ?_⟩
    simp [List.getElem?_set_self, h1, h2, h3, h4, h5, h6, h7, hpi, hpt, hflag]

theorem sampledAt_after {lines : List GoString} {t t1 t2 : CPUTimeStat} {i : Nat}
    (h : sampledAt lines t t1 i) (hs : sameAt i t1 t2) : sampledAt lines t t2 i := by
  obtain ⟨line, idleField, hl, hf, c1, c2, c3, c4, c5, c6⟩ := h
  obtain ⟨b1, b2, b3, b4, b5, b6, b7⟩ := hs
  refine ⟨line, idleField, hl, hf, b3.trans c1, b4.trans c2, b1.trans c3, b2.trans c4, ?_, ?_⟩
  · intro hflag
    obtain ⟨d1, d2, d3⟩ := c5 hflag
    exact ⟨b5.trans d1, b6.trans d2, b7.trans d3⟩
  · intro hflag
    obtain ⟨pi, pt, d1, d2, d3, d4, d5⟩ := c6 hflag
    exact ⟨pi, pt, d1, d2, b5.trans d3, b6.trans d4, b7.trans d5⟩

theorem sampledAt_before {lines : List GoString} {t t1 t2 : CPUTimeStat} {i : Nat}
    (hs : sameAt i t t1) (hsh : sameShape t t1) (h : sampledAt lines t1 t2 i) :
    sampledAt lines t t2 i := by
  obtain ⟨line, idleField, hl, hf, c1, c2, c3, c4, c5, c6⟩ := h
  obtain ⟨b1, b2, b3, b4, b5, b6, b7⟩ := hs
  have hflag1 := hsh.1
  refine ⟨line, idleField, hl, hf, c1, c2, c3, c4, ?_, ?_⟩
  · intro hflag
    obtain ⟨d1, d2, d3⟩ := c5 (hflag1.trans hflag)
    exact ⟨d1.trans b5, d2.trans b6, d3⟩
  · intro hflag
    obtain ⟨pi, pt, d1, d2, d3, d4, d5⟩ := c6 (hflag1.trans hflag)
    exact ⟨pi, pt, b1.symm.trans d1, b2.symm.trans d2, d3, d4, d5⟩

/-- The loop leaves the processors it does not visit as they were. -/
theorem sampleRows_frame (lines : List GoString) (i : Nat) :
    ∀ (is : List Nat) (t t' : CPUTimeStat), i ∉ is → sampleRows lines is t = .done t' →
      sameAt i t t' := by
  intro is
  induction is with
  | nil =>
    intro t t' _ h
    simp only [sampleRows, Run.done.injEq] at h
    subst h
    exact sameAt_refl i t
  | cons j rest ih =>
    intro t t' hi h
    unfold sampleRows at h
    cases hr : sampleRow lines t j with
    | panicked t1 => simp [hr] at h
    | done t1 =>
      simp only [hr] at h
      have hij : j ≠ i := fun e => hi (by simp [e])
      exact sameAt_trans (sampleRow_frame lines t t1 i j hij hr)
        (ih t1 t' (fun m => hi (by simp [m])) h)

/-- The loop keeps the flag, the processor count and the lengths. -/
theorem sampleRows_shape (lines : List GoString) :
    ∀ (is : List Nat) (t t' : CPUTimeStat), sampleRows lines is t = .done t' →
      sameShape t t' := by
  intro is
  induction is with
  | nil =>
    intro t t' h
    simp only [sampleRows, Run.done.injEq] at h
    subst h
    exact sameShape_refl t
  | cons j rest ih =>
    intro t t' h
    unfold sampleRows at h
    cases hr : sampleRow lines t j with
    | panicked t1 => simp [hr] at h
    | done t1 =>
      simp only [hr] at h
      exact sameShape_trans (sampleRow_shape lines t t1 j hr) (ih t1 t' h)

/-- A loop that runs to its end over distinct processors leaves, at each of
them, the sample of its row. -/
theorem sampleRows_sampledAt (lines : List GoString) (i : Nat) :
    ∀ (is : List Nat) (t t' : CPUTimeStat), is.Nodup → i ∈ is →
      sampleRows lines is t = .done t' → sampledAt lines t t' i := by
  intro is
  induction is with
  | nil => intro t t' _ hi; simp at hi
  | cons j rest ih =>
    intro t t' hnd hi h
    unfold sampleRows at h
    cases hr : sampleRow lines t j with
    | panicked t1 => simp [hr] at h
    | done t1 =>
      simp only [hr] at h
      rw [List.nodup_cons] at hnd
      by_cases hij : i = j
      · subst hij
        exact sampledAt_after (sampleRow_sampledAt lines t t1 i hr)
          (sampleRows_frame lines i rest t1 t' hnd.1 h)
      · have hmem : i ∈ rest := by
          rcases List.mem_cons.1 hi with e | m
          · exact absurd e hij
          · exact m
        exact sampledAt_before (sampleRow_frame lines t t1 i j (fun e => hij e.symm) hr)
          (sampleRow_shape lines t t1 j hr) (ih t1 t' hnd.2 hmem h)

/-- A call that returns `nil` has read the file, has run the loop to its end,
and has set the flag. -/
theorem GetCPUTimeStat_ok (file : Except GoError GoString) (t t' : CPUTimeStat)
    (h : GetCPUTimeStat file t = (.ok (), t')) :
    ∃ lines t1, readLines file = .ok lines ∧
      sampleRows lines (List.range t.CPUNumber.toNat) t = .done t1 ∧
      t' = { t1 with IsGetCPUUsageBegin := true } := by
  unfold GetCPUTimeStat at h
  cases hl : readLines file with
  | error e => simp [hl] at h
  | ok lines =>
    simp only [hl] at h
    cases hr : sampleRows lines (List.range t.CPUNumber.toNat) t with
    | panicked t1 => simp [hr] at h
    | done t1 =>
      simp only [hr, Prod.mk.injEq, true_and] at h
      exact ⟨lines, t1, rfl, hr, h.symm⟩

/-- After a call that returns `nil`, every processor below `CPUNumber` holds the
sample of its row, the flag is set, and the lengths are as before. -/
theorem GetCPUTimeStat_sampled (file : Except GoError GoString) (t t' : CPUTimeStat)
    (h : GetCPUTimeStat file t = (.ok (), t')) :
    ∃ lines, readLines file = .ok lines ∧ t'.IsGetCPUUsageBegin = true ∧
      t'.CPUNumber = t.CPUNumber ∧
      (∀ i : Nat, (i : Int) < t.CPUNumber → sampledAt lines t t' i) := by
  obtain ⟨lines, t1, hl, hr, rfl⟩ := GetCPUTimeStat_ok file t t' h
  have hsh := sampleRows_shape lines _ t t1 hr
  refine ⟨lines, hl, rfl, hsh.2.1, ?_⟩
  intro i hi
  have hmem : i ∈ List.range t.CPUNumber.toNat := by
    rw [List.mem_range]
    omega
  exact sampledAt_after (sampleRows_sampledAt lines i _ t t1 (List.nodup_range _) hmem hr)
    ⟨rfl, rfl, rfl, rfl, rfl, rfl, rfl⟩

end Procstats

/-! ## Rows of the counter table -/

namespace Strings

theorem intercalate_cons_flatMap (c : Char) (x : GoString) (rest : List GoString) :
    [c].intercalate (x :: rest) = x ++ rest.flatMap (fun y => c :: y) := by
  induction rest generalizing x with
  | nil => simp [List.intercalate, List.intersperse]
  | cons y ys ih =>
    have h := ih y
    simp only [List.intercalate, List.intersperse] at h ⊢
    simp only [List.flatten_cons, List.flatMap_cons, h]
    simp

/-- Splitting pieces that were joined by a separator none of them contains
gives the pieces back. -/
theorem Split_pieces (c : Char) (x : GoString) (rest : List GoString)
    (h : ∀ s ∈ x :: rest, c ∉ s) :
    Split (x ++ rest.flatMap (fun y => c :: y)) c = x :: rest := by
  rw [← intercalate_cons_flatMap]
  exact List.splitOn_intercalate (x :: rest) c h (by simp)

end Strings

namespace Procstats

open Strings Strconv

theorem Split_cpuRow (K : Nat) (fs : List Nat) :
    Split (cpuRow K fs) ' ' = ('c' :: 'p' :: 'u' :: decimal K) :: fs.map decimal := by
  have h := Split_pieces ' ' ('c' :: 'p' :: 'u' :: decimal K) (fs.map decimal) (by
    intro s hs
    rcases List.mem_cons.1 hs with rfl | hs
    · simp only [List.mem_cons, not_or]
      exact ⟨by decide, by decide, by decide, not_mem_decimal ' ' (by decide) K⟩
    · obtain ⟨f, _, rfl⟩ := List.mem_map.1 hs
      exact not_mem_decimal ' ' (by decide) f)
  rw [← h, cpuRow, List.flatMap_map]

theorem ParseUint_label (K : Nat) :
    ParseUint ('c' :: 'p' :: 'u' :: decimal K) = (0, some .malformed) := by
  rfl

theorem foldl_counters (fs : List Nat) (h : ∀ f ∈ fs, f < 18446744073709551616) :
    ∀ a : Nat, (fs.map decimal).foldl (fun totalTime s => addU64 totalTime (ParseUint s).1)
      (a % 18446744073709551616) = (a + fs.sum) % 18446744073709551616 := by
  induction fs with
  | nil => intro a; simp
  | cons f rest ih =>
    intro a
    have hf := h f (by simp)
    have hp := ParseUint_decimal f (by simp only [maxUint64]; omega)
    simp only [List.map_cons, List.foldl_cons, hp, List.sum_cons]
    have e : addU64 (a % 18446744073709551616) f = (a + f) % 18446744073709551616 := by
      simp only [addU64, twoPow64]
      omega
    rw [e, ih (fun g hg => h g (by simp [hg])) (a + f)]
    congr 1
    omega

/-- The total of a well-formed row is the sum of its counters modulo `2 ^ 64`:
the label parses to nothing and adds 0. -/
theorem rowTotal_cpuRow (K : Nat) (fs : List Nat) (h : ∀ f ∈ fs, f < 18446744073709551616) :
    rowTotal (Split (cpuRow K fs) ' ') = fs.sum % 18446744073709551616 := by
  rw [Split_cpuRow, rowTotal, List.foldl_cons, ParseUint_label]
  have e : addU64 0 (0, some NumError.malformed).1 = 0 % 18446744073709551616 := by
    rfl
  rw [e, foldl_counters fs h 0]
  simp

theorem readStep_first_row (first1 first2 : GoString) (rows : List GoString)
    (t : CPUTimeStat) (i : Nat) :
    readStep (first1 :: rows) t i = readStep (first2 :: rows) t i := by
  simp [readStep]

theorem sampleRows_first_row (first1 first2 : GoString) (rows : List GoString) :
    ∀ (is : List Nat) (t : CPUTimeStat),
      sampleRows (first1 :: rows) is t = sampleRows (first2 :: rows) is t := by
  intro is
  induction is with
  | nil => intro t; rfl
  | cons i rest ih =>
    intro t
    simp only [sampleRows, sampleRow, readStep_first_row first1 first2 rows t i, ih]

end Procstats

/-! ## Division by a zero total -/

namespace Float64

theorem ofNat_zero : ofNat 0 = fin 0 0 := by
  rfl

/-- A quotient by `0.0` is not-a-number or an infinity. -/
theorem div_zero (x : Float64) : div x (fin 0 0) = nan ∨ ∃ s, div x (fin 0 0) = inf s := by
  cases x with
  | nan => exact Or.inl rfl
  | inf s => exact Or.inr ⟨_, rfl⟩
  | fin a ea =>
    by_cases ha : a = 0
    · left
      simp [div, ha]
    · right
      exact ⟨decide (a < 0), by simp [div, ha]⟩

theorem sub_not_finite (x y : Float64) (h : y = nan ∨ ∃ s, y = inf s) :
    sub x y = nan ∨ ∃ s, sub x y = inf s := by
  rcases h with rfl | ⟨s, rfl⟩
  · left
    cases x <;> rfl
  · cases x with
    | nan => exact Or.inl rfl
    | inf t =>
      by_cases e : t = s
      · left
        simp [sub, e]
      · right
        exact ⟨t, by simp [sub, e]⟩
    | fin a ea => exact Or.inr ⟨_, rfl⟩

theorem mul_not_finite (x y : Float64) (h : x = nan ∨ ∃ s, x = inf s) :
    mul x y = nan ∨ ∃ s, mul x y = inf s := by
  rcases h with rfl | ⟨s, rfl⟩
  · left
    cases y <;> rfl
  · cases y with
    | nan => exact Or.inl rfl
    | inf t => exact Or.inr ⟨_, rfl⟩
    | fin b eb =>
      by_cases hb : b = 0
      · left
        simp [mul, hb]
      · right
        exact ⟨s != decide (b < 0), by simp [mul, hb]⟩

end Float64

namespace Procstats

/-- With a total delta of zero the usage of line 72 is not-a-number or an
infinity, never a finite number. -/
theorem usageOf_zero_total (deltaIdle : Nat) :
    usageOf deltaIdle 0 = .nan ∨ ∃ s, usageOf deltaIdle 0 = .inf s := by
  unfold usageOf
  rw [Float64.ofNat_zero]
  exact Float64.mul_not_finite _ _ (Float64.sub_not_finite _ _ (Float64.div_zero _))

/-- When some row of the loop cannot be found, the loop does not run to its end. -/
theorem sampleRows_missing_row (lines : List GoString) (is : List Nat) (t : CPUTimeStat)
    (i : Nat) (hnd : is.Nodup) (hi : i ∈ is) (hrow : lines.length ≤ i + 1) :
    ∃ t1, sampleRows lines is t = .panicked t1 := by
  cases h : sampleRows lines is t with
  | panicked t1 => exact ⟨t1, rfl⟩
  | done t1 =>
    obtain ⟨line, _, hl, _⟩ := sampleRows_sampledAt lines i is t t1 hnd hi h
    rw [List.getElem?_eq_none hrow] at hl
    exact Option.noConfusion hl

end Procstats

/-! ## The sums and the value of a pool -/

namespace Podpools

open Strings Strconv Fmt Procstats

/-- Over identifiers written in canonical decimal and inside both slices, the
loop of `updatePoolCPUUsageMetrics` adds the deltas up, modulo `2 ^ 64`. -/
theorem sumPool_ids (t : CPUTimeStat) (ids : List Nat)
    (h : ∀ id ∈ ids, id < t.DeltaIdleTime.length ∧ id < t.DeltaTotalTime.length ∧
      id < 9223372036854775808) :
    ∀ a b : Nat, sumPool t (ids.map decimal) (a % 18446744073709551616)
        (b % 18446744073709551616) =
      some ((a + (ids.map (fun id => t.DeltaIdleTime.getD id 0)).sum) % 18446744073709551616,
        (b + (ids.map (fun id => t.DeltaTotalTime.getD id 0)).sum) % 18446744073709551616) := by
  induction ids with
  | nil => intro a b; simp [sumPool]
  | cons id rest ih =>
    intro a b
    obtain ⟨h1, h2, h3⟩ := h id (by simp)
    have e1 : t.DeltaIdleTime[id]? = some (t.DeltaIdleTime.getD id 0) := by
      simp [List.getD_eq_getElem?_getD, List.getElem?_eq_getElem h1]
    have e2 : t.DeltaTotalTime[id]? = some (t.DeltaTotalTime.getD id 0) := by
      simp [List.getD_eq_getElem?_getD, List.getElem?_eq_getElem h2]
    have ea : ∀ x y : Nat, addU64 (x % 18446744073709551616) y =
        (x + y) % 18446744073709551616 := by
      intro x y
      simp only [addU64, twoPow64]
      omega
    have hneg : ¬ ((id : Int) < 0) := by omega
    simp only [List.map_cons, sumPool, Atoi_decimal id h3, if_neg hneg, Int.toNat_ofNat, e1, e2,
      ea, List.sum_cons]
    rw [ih (fun j hj => h j (by simp [hj]))]
    simp only [Nat.add_assoc]

/-- Identifiers that `Atoi` reads as indices inside both slices are summed
without a panic. -/
theorem sumPool_in_range (t : CPUTimeStat) (ids : List GoString)
    (h : ∀ id ∈ ids, 0 ≤ (Atoi id).1 ∧ (Atoi id).1.toNat < t.DeltaIdleTime.length ∧
      (Atoi id).1.toNat < t.DeltaTotalTime.length) :
    ∀ a b : Nat, ∃ r, sumPool t ids a b = some r := by
  induction ids with
  | nil => intro a b; exact ⟨_, rfl⟩
  | cons id rest ih =>
    intro a b
    obtain ⟨h0, h1, h2⟩ := h id (by simp)
    have hneg : ¬ ((Atoi id).1 < 0) := by omega
    simp only [sumPool, if_neg hneg, List.getElem?_eq_getElem h1, List.getElem?_eq_getElem h2]
    exact ih (fun j hj => h j (by simp [hj])) _ _

theorem mem_members_range (lo hi : Nat) (h : lo ≤ hi) :
    hi ∈ CpuToken.members (.range lo hi) := by
  simp only [CpuToken.members, List.mem_range'_1]
  omega

/-- The value of a pool whose processor-set string is well formed and inside
the slices: the formula of line 204 over the sums of the deltas of its
identifiers and their number. -/
theorem poolCPUUsage_wellFormed (eng : Engine) (fuel : Nat) (t : CPUTimeStat)
    (toks : List CpuToken) (hne : toks ≠ []) (hw : ∀ tok ∈ toks, tok.wellFormed)
    (hr : ∀ id ∈ toks.flatMap CpuToken.members,
      id < t.DeltaIdleTime.length ∧ id < t.DeltaTotalTime.length)
    (hlen : t.DeltaIdleTime.length < 9223372036854775808)
    (hfuel : t.DeltaIdleTime.length ≤ fuel) :
    poolCPUUsage eng fuel t (cpusetText toks) =
      .ok (Float64.mul
        (Float64.mul
          (Float64.sub Float64.one
            (Float64.div
              (Float64.ofNat (((toks.flatMap CpuToken.members).map
                (fun id => t.DeltaIdleTime.getD id 0)).sum % 18446744073709551616))
              (Float64.ofNat (((toks.flatMap CpuToken.members).map
                (fun id => t.DeltaTotalTime.getD id 0)).sum % 18446744073709551616))))
          Float64.hundred)
        (Float64.ofInt ((toks.flatMap CpuToken.members).length : Int))) := by
  have hb : ∀ tok ∈ toks,
      tok.wellFormed ∧ tok.bound < 9223372036854775807 ∧ tok.span < fuel := by
    intro tok htok
    refine ⟨hw tok htok, ?_⟩
    cases tok with
    | single n =>
      have hmem : n ∈ toks.flatMap CpuToken.members :=
        List.mem_flatMap.2 ⟨_, htok, by simp [CpuToken.members]⟩
      have := (hr n hmem).1
      simp only [CpuToken.bound, CpuToken.span]
      omega
    | range lo hi =>
      have hwf : lo ≤ hi := hw _ htok
      have hmem : hi ∈ toks.flatMap CpuToken.members :=
        List.mem_flatMap.2 ⟨_, htok, mem_members_range lo hi hwf⟩
      have := (hr hi hmem).1
      simp only [CpuToken.bound, CpuToken.span]
      omega
  have hids : ∀ id ∈ toks.flatMap CpuToken.members,
      id < t.DeltaIdleTime.length ∧ id < t.DeltaTotalTime.length ∧
        id < 9223372036854775808 := by
    intro id hid
    have := hr id hid
    exact ⟨this.1, this.2, by omega⟩
  have hsum := sumPool_ids t _ hids 0 0
  simp only [Nat.zero_mod, Nat.zero_add] at hsum
  simp only [poolCPUUsage, resolvePools_wellFormed eng fuel toks hne hb,
    Split_ids _ (members_flatMap_ne_nil toks hne hw), hsum, List.length_map]

/-- The whole path of one pool whose processor-set string is well formed, with
all identifiers below `N`, inside the slices: the identifiers `resolvePools`
writes, the sums the loop adds up modulo `2 ^ 64`, and the value of line 204 from
them. -/
theorem poolCPUUsage_sums (eng : Engine) (fuel : Nat) (t : CPUTimeStat)
    (toks : List CpuToken) (N : Nat) (hne : toks ≠ []) (hw : ∀ tok ∈ toks, tok.wellFormed)
    (hN : ∀ id ∈ toks.flatMap CpuToken.members, id < N)
    (hr : ∀ id ∈ toks.flatMap CpuToken.members,
      id < t.DeltaIdleTime.length ∧ id < t.DeltaTotalTime.length)
    (hlen : N < 9223372036854775808) (hfuel : N ≤ fuel) :
    ∃ cpus, resolvePools eng fuel (cpusetText toks) = some cpus ∧
      (Split cpus ',').length = (toks.flatMap CpuToken.members).length ∧
      sumPool t (Split cpus ',') 0 0 =
        some (((toks.flatMap CpuToken.members).map
            (fun id => t.DeltaIdleTime.getD id 0)).sum % 18446744073709551616,
          ((toks.flatMap CpuToken.members).map
            (fun id => t.DeltaTotalTime.getD id 0)).sum % 18446744073709551616) ∧
      poolCPUUsage eng fuel t (cpusetText toks) =
        .ok (Float64.mul
          (usageOf (((toks.flatMap CpuToken.members).map
              (fun id => t.DeltaIdleTime.getD id 0)).sum % 18446744073709551616)
            (((toks.flatMap CpuToken.members).map
              (fun id => t.DeltaTotalTime.getD id 0)).sum % 18446744073709551616))
          (Float64.ofInt ((toks.flatMap CpuToken.members).length : Int))) := by
  have hb : ∀ tok ∈ toks,
      tok.wellFormed ∧ tok.bound < 9223372036854775807 ∧ tok.span < fuel := by
    intro tok htok
    refine ⟨hw tok htok, ?_⟩
    cases tok with
    | single n =>
      have hmem : n ∈ toks.flatMap CpuToken.members :=
        List.mem_flatMap.2 ⟨_, htok, by simp [CpuToken.members]⟩
      have := hN n hmem
      simp only [CpuToken.bound, CpuToken.span]
      omega
    | range lo hi =>
      have hwf : lo ≤ hi := hw _ htok
      have hmem : hi ∈ toks.flatMap CpuToken.members :=
        List.mem_flatMap.2 ⟨_, htok, mem_members_range lo hi hwf⟩
      have := hN hi hmem
      simp only [CpuToken.bound, CpuToken.span]
      omega
  have hids : ∀ id ∈ toks.flatMap CpuToken.members,
      id < t.DeltaIdleTime.length ∧ id < t.DeltaTotalTime.length ∧
        id < 9223372036854775808 := by
    intro id hid
    have := hr id hid
    have := hN id hid
    exact ⟨(hr id hid).1, (hr id hid).2, by omega⟩
  have hsum := sumPool_ids t _ hids 0 0
  simp only [Nat.zero_mod, Nat.zero_add] at hsum
  have hres := resolvePools_wellFormed eng fuel toks hne hb
  have hsplit := Split_ids _ (members_flatMap_ne_nil toks hne hw)
  refine ⟨_, hres, by rw [hsplit, List.length_map], by rw [hsplit]; exact hsum, ?_⟩
  simp only [poolCPUUsage, hres, hsplit, hsum, List.length_map]
  rfl

/-- A pool whose total deltas add up to 0 gets the not-a-number value or an
infinity, never a finite number. -/
theorem poolCPUUsage_zero_sum (eng : Engine) (fuel : Nat) (t : CPUTimeStat)
    (cpuset cpus : GoString) (idle : Nat) (h1 : resolvePools eng fuel cpuset = some cpus)
    (h2 : sumPool t (Split cpus ',') 0 0 = some (idle, 0)) :
    poolCPUUsage eng fuel t cpuset = .ok .nan ∨
      ∃ s, poolCPUUsage eng fuel t cpuset = .ok (.inf s) := by
  simp only [poolCPUUsage, h1, h2, Float64.ofNat_zero]
  rcases Float64.mul_not_finite _ (Float64.ofInt ((Split cpus ',').length : Int))
    (Float64.mul_not_finite _ Float64.hundred
      (Float64.sub_not_finite Float64.one _ (Float64.div_zero (Float64.ofNat idle))))
    with e | ⟨s, e⟩
  · left
    rw [e]
  · right
    exact ⟨s, by rw [e]⟩

/-- A pool whose processor set resolves to indices inside both slices gets a value. -/
theorem poolCPUUsage_in_range (eng : Engine) (fuel : Nat) (t : CPUTimeStat)
    (cpuset cpus : GoString) (h1 : resolvePools eng fuel cpuset = some cpus)
    (h2 : ∀ id ∈ Split cpus ',', 0 ≤ (Atoi id).1 ∧
      (Atoi id).1.toNat < t.DeltaIdleTime.length ∧
      (Atoi id).1.toNat < t.DeltaTotalTime.length) :
    ∃ usage, poolCPUUsage eng fuel t cpuset = .ok usage := by
  obtain ⟨⟨idle, total⟩, hr⟩ := sumPool_in_range t _ h2 0 0
  simp only [poolCPUUsage, h1, hr]
  exact ⟨_, rfl⟩

theorem lookup_of_mem_keys {β : Type} (name : GoString) :
    ∀ (l : List (GoString × β)), name ∈ l.map Prod.fst →
      ∃ v, l.lookup name = some v ∧ (name, v) ∈ l := by
  intro l
  induction l with
  | nil => intro h; simp at h
  | cons kv rest ih =>
    intro h
    obtain ⟨k, v⟩ := kv
    by_cases e : name = k
    · subst e
      exact ⟨v, by simp [List.lookup], by simp⟩
    · have hmem : name ∈ rest.map Prod.fst := by
        simp only [List.map_cons, List.mem_cons] at h
        rcases h with h | h
        · exact absurd h e
        · exact h
      obtain ⟨w, hw1, hw2⟩ := ih hmem
      refine ⟨w, ?_, by simp [hw2]⟩
      have hb : (name == k) = false := beq_false_of_ne e
      simp [List.lookup, hb, hw1]

/-- When every pool resolves to indices inside the slices, the loop over the pool
names gives one record per name, in the order of the names. -/
theorem poolRecords_in_range (eng : Engine) (fuel : Nat) (policyName : GoString)
    (m : Metrics) (t : CPUTimeStat)
    (h : ∀ entry ∈ m.PoolMetrics, ∃ cpus, resolvePools eng fuel entry.2.CPUs = some cpus ∧
      ∀ id ∈ Split cpus ',', 0 ≤ (Atoi id).1 ∧
        (Atoi id).1.toNat < t.DeltaIdleTime.length ∧
        (Atoi id).1.toNat < t.DeltaTotalTime.length) :
    ∀ names : List GoString, (∀ n ∈ names, n ∈ m.PoolMetrics.map Prod.fst) →
      ∃ records, poolRecords eng fuel policyName m t names = .ok records ∧
        records.map (fun r => r.labelValues.getD 1 []) = names := by
  intro names
  induction names with
  | nil => intro _; exact ⟨[], rfl, rfl⟩
  | cons name rest ih =>
    intro hn
    obtain ⟨pm, hl, hmem⟩ := lookup_of_mem_keys name m.PoolMetrics (hn name (by simp))
    obtain ⟨cpus, hc1, hc2⟩ := h _ hmem
    obtain ⟨usage, hu⟩ := poolCPUUsage_in_range eng fuel t pm.CPUs cpus hc1 hc2
    obtain ⟨records, hr1, hr2⟩ := ih (fun n hm => hn n (by simp [hm]))
    simp only [poolRecords, hl, hu, hr1]
    exact ⟨_, rfl, by rw [List.map_cons, hr2]; rfl⟩

theorem sortStrings_perm (names : List GoString) : (sortStrings names).Perm names :=
  List.perm_insertionSort _ names

end Podpools

/-! ## Fields that do not parse -/

namespace Strconv

theorem le_digitsFrom (s : GoString) : ∀ n : Nat, n ≤ digitsFrom n s := by
  induction s with
  | nil => intro n; exact Nat.le_refl n
  | cons c cs ih =>
    intro n
    have h := ih (n * 10 + (digitVal c).getD 0)
    simp only [digitsFrom, List.foldl_cons] at h ⊢
    omega

/-- Digits whose number stays within the 64-bit range are read as that number. -/
theorem parseUintLoop_digits (s : GoString) : ∀ n : Nat, allDigits s = true →
    digitsFrom n s ≤ maxUint64 → parseUintLoop s n = (digitsFrom n s, none) := by
  induction s with
  | nil => intro n _ _; rfl
  | cons c cs ih =>
    intro n hd hv
    simp only [allDigits, List.all_cons, Bool.and_eq_true] at hd
    obtain ⟨hc, hcs⟩ := hd
    obtain ⟨d, hcd⟩ := Option.isSome_iff_exists.1 hc
    have hstep : digitsFrom n (c :: cs) = digitsFrom (n * 10 + d) cs := by
      simp [digitsFrom, hcd]
    rw [hstep] at hv ⊢
    have hle := le_digitsFrom cs (n * 10 + d)
    simp only [maxUint64] at hv
    simp only [parseUintLoop, hcd, maxUint64]
    rw [if_neg (by omega), if_neg (by omega)]
    exact ih (n * 10 + d) hcs (by simp only [maxUint64]; exact hv)

/-- Digits whose number leaves the 64-bit range are read as `2 ^ 64 - 1`, with a
range error, whatever follows them. -/
theorem parseUintLoop_overflow (s : GoString) : ∀ (n : Nat) (rest : GoString),
    allDigits s = true → n ≤ maxUint64 → maxUint64 < digitsFrom n s →
    parseUintLoop (s ++ rest) n = (maxUint64, some .outOfRange) := by
  induction s with
  | nil =>
    intro n rest _ hn hv
    simp only [digitsFrom, List.foldl_nil] at hv
    omega
  | cons c cs ih =>
    intro n rest hd hn hv
    simp only [allDigits, List.all_cons, Bool.and_eq_true] at hd
    obtain ⟨hc, hcs⟩ := hd
    obtain ⟨d, hcd⟩ := Option.isSome_iff_exists.1 hc
    have hstep : digitsFrom n (c :: cs) = digitsFrom (n * 10 + d) cs := by
      simp [digitsFrom, hcd]
    rw [hstep] at hv
    simp only [List.cons_append, parseUintLoop, hcd]
    split
    · rfl
    · split
      · rfl
      · exact ih (n * 10 + d) rest hcs (by omega) hv

theorem takeWhile_allDigits (s : GoString) :
    allDigits (s.takeWhile (fun c => (digitVal c).isSome)) = true := by
  induction s with
  | nil => rfl
  | cons c cs ih =>
    by_cases hc : (digitVal c).isSome = true
    · simp only [List.takeWhile_cons, hc, if_true, allDigits, List.all_cons, Bool.true_and]
      exact ih
    · simp [List.takeWhile_cons, hc, allDigits]

theorem takeWhile_of_allDigits (s : GoString) (h : allDigits s = true) :
    s.takeWhile (fun c => (digitVal c).isSome) = s := by
  induction s with
  | nil => rfl
  | cons c cs ih =>
    simp only [allDigits, List.all_cons, Bool.and_eq_true] at h
    simp only [List.takeWhile_cons, h.1, if_true]
    rw [ih h.2]

/-- A text is its leading digits, followed by nothing or by a character that
is no digit. -/
theorem digits_then_rest (s : GoString) :
    allDigits s = true ∨ ∃ c rest, digitVal c = none ∧
      s = s.takeWhile (fun c => (digitVal c).isSome) ++ c :: rest := by
  induction s with
  | nil => exact Or.inl rfl
  | cons c cs ih =>
    by_cases hc : (digitVal c).isSome = true
    · rcases ih with h | ⟨c', rest, h1, h2⟩
      · left
        simp [allDigits, hc] at h ⊢
        exact h
      · right
        refine ⟨c', rest, h1, ?_⟩
        simp only [List.takeWhile_cons, hc, if_true, List.cons_append]
        rw [← h2]
    · right
      refine ⟨c, cs, ?_, by simp [List.takeWhile_cons, hc]⟩
      cases h : digitVal c with
      | none => rfl
      | some d => simp [h] at hc

/-- What `ParseUint` returns for a field is the value the words give it. -/
theorem ParseUint_fieldValue (s : GoString) : (ParseUint s).1 = fieldValue s := by
  have hpre := takeWhile_allDigits s
  by_cases hov : maxUint64 < digitsFrom 0 (s.takeWhile (fun c => (digitVal c).isSome))
  · have hsplit : s = s.takeWhile (fun c => (digitVal c).isSome) ++
        s.dropWhile (fun c => (digitVal c).isSome) := (List.takeWhile_append_dropWhile _ s).symm
    have hne : s ≠ [] := by
      intro e
      rw [e] at hov
      simp [digitsFrom] at hov
    have hp := parseUintLoop_overflow _ 0 (s.dropWhile (fun c => (digitVal c).isSome)) hpre
      (Nat.zero_le _) hov
    rw [← hsplit] at hp
    have hP : ParseUint s = parseUintLoop s 0 := by
      cases s with
      | nil => exact absurd rfl hne
      | cons c cs => rfl
    simp only [fieldValue, gt_iff_lt, hov, if_true, hP, hp]
  · have hle : digitsFrom 0 (s.takeWhile (fun c => (digitVal c).isSome)) ≤ maxUint64 := by
      omega
    cases s with
    | nil => simp [fieldValue, ParseUint, digitsFrom, allDigits, maxUint64]
    | cons c cs =>
      have hP : ParseUint (c :: cs) = parseUintLoop (c :: cs) 0 := rfl
      rcases digits_then_rest (c :: cs) with hall | ⟨c', rest, hc', hs⟩
      · rw [takeWhile_of_allDigits _ hall] at hle hov
        simp only [fieldValue, gt_iff_lt, takeWhile_of_allDigits _ hall, hov, if_false, hall,
          ne_eq, not_false_eq_true, and_self, if_true, hP,
          parseUintLoop_digits _ 0 hall hle, reduceCtorEq]
      · have hnot : allDigits (c :: cs) ≠ true := by
          intro hall
          rw [hs] at hall
          simp [allDigits, hc'] at hall
        have hp : parseUintLoop (c :: cs) 0 = (0, some .malformed) := by
          rw [hs, parseUintLoop_append, parseUintLoop_digits _ 0 hpre hle]
          simp [parseUintLoop, hc']
        simp only [fieldValue, gt_iff_lt, hov, if_false, hnot, and_false, hP, hp]
        simp

end Strconv

/-! ## A table of the right shape is sampled without a panic -/

namespace Procstats

open Strings Strconv

theorem foldl_fields (fields : List GoString) : ∀ a : Nat,
    fields.foldl (fun totalTime s => addU64 totalTime (ParseUint s).1)
      (a % 18446744073709551616) =
      (a + (fields.map fieldValue).sum) % 18446744073709551616 := by
  induction fields with
  | nil => intro a; simp
  | cons f rest ih =>
    intro a
    have e : addU64 (a % 18446744073709551616) (ParseUint f).1 =
        (a + fieldValue f) % 18446744073709551616 := by
      rw [ParseUint_fieldValue]
      simp only [addU64, twoPow64]
      omega
    simp only [List.foldl_cons, List.map_cons, List.sum_cons, e]
    rw [ih (a + fieldValue f)]
    congr 1
    omega

/-- The total of a row is the sum of the values of its fields, modulo `2 ^ 64`. -/
theorem rowTotal_fields (fields : List GoString) :
    rowTotal fields = (fields.map fieldValue).sum % 18446744073709551616 := by
  have h := foldl_fields fields 0
  simpa [rowTotal] using h

/-- An iteration runs to its end when row `i + 1` exists with a fifth field and
`i` is inside the seven slices. -/
theorem sampleRow_runs (lines : List GoString) (t : CPUTimeStat) (i : Nat)
    (line idleField : GoString) (hl : lines[i + 1]? = some line)
    (hf : (Split line ' ')[4]? = some idleField)
    (h1 : i < t.PrevIdleTime.length) (h2 : i < t.PrevTotalTime.length)
    (h3 : i < t.CurIdleTime.length) (h4 : i < t.CurTotalTime.length)
    (h5 : i < t.DeltaIdleTime.length) (h6 : i < t.DeltaTotalTime.length)
    (h7 : i < t.CPUUsage.length) :
    ∃ t', sampleRow lines t i = .done t' := by
  have hread : readStep lines t i = .done { t with
      CurIdleTime := t.CurIdleTime.set i (ParseUint idleField).1,
      CurTotalTime := t.CurTotalTime.set i (rowTotal (Split line ' ')),
      CPUUsage := t.CPUUsage.set i Float64.zero } := by
    simp only [readStep, hl, hf, store_of_lt _ _ _ h3, store_of_lt _ _ _ h4,
      store_of_lt _ _ _ h7]
  have hcopy : ∀ t6 : CPUTimeStat, i < t6.CurIdleTime.length → i < t6.CurTotalTime.length →
      i < t6.PrevIdleTime.length → i < t6.PrevTotalTime.length →
      ∃ t', copyStep t6 i = .done t' := by
    intro t6 a b c d
    simp only [copyStep, List.getElem?_eq_getElem a, List.getElem?_eq_getElem b,
      store_of_lt _ _ _ c, store_of_lt _ _ _ d]
    exact ⟨_, rfl⟩
  cases hflag : t.IsGetCPUUsageBegin with
  | false =>
    have hif : ∀ (a b : Run), (if t.IsGetCPUUsageBegin = true then a else b) = b := by
      intro a b
      rw [if_neg (by simp [hflag])]
    simp only [sampleRow, hread, hif]
    exact hcopy _ (by simpa using h3) (by simpa using h4) h1 h2
  | true =>
    have hif : ∀ (a b : Run), (if t.IsGetCPUUsageBegin = true then a else b) = a := by
      intro a b
      rw [if_pos hflag]
    have h5' : i < (t.DeltaIdleTime.set i
        (subU64 (ParseUint idleField).1 t.PrevIdleTime[i])).length := by simpa using h5
    have h6' : i < (t.DeltaTotalTime.set i
        (subU64 (rowTotal (Split line ' ')) t.PrevTotalTime[i])).length := by simpa using h6
    have h7' : i < (t.CPUUsage.set i Float64.zero).length := by simpa using h7
    have hdelta : ∃ t6, deltaStep { t with
        CurIdleTime := t.CurIdleTime.set i (ParseUint idleField).1,
        CurTotalTime := t.CurTotalTime.set i (rowTotal (Split line ' ')),
        CPUUsage := t.CPUUsage.set i Float64.zero } i = .done t6 ∧
        t6.CurIdleTime.length = t.CurIdleTime.length ∧
        t6.CurTotalTime.length = t.CurTotalTime.length ∧
        t6.PrevIdleTime = t.PrevIdleTime ∧ t6.PrevTotalTime = t.PrevTotalTime := by
      simp only [deltaStep, List.getElem?_set_self h3, List.getElem?_set_self h4,
        List.getElem?_eq_getElem h1, List.getElem?_eq_getElem h2, store_of_lt _ _ _ h5,
        store_of_lt _ _ _ h6, List.getElem?_set_self h5, List.getElem?_set_self h6,
        store_of_lt _ _ _ h7']
      exact ⟨_, rfl, by simp, by simp, rfl, rfl⟩
    obtain ⟨t6, hd, e1, e2, e3, e4⟩ := hdelta
    simp only [sampleRow, hread, hif, hd]
    exact hcopy t6 (by omega) (by omega) (by rw [e3]; exact h1) (by rw [e4]; exact h2)

/-- The loop runs to its end over indices that all have a row with a fifth
field and are inside the seven slices. -/
theorem sampleRows_runs (lines : List GoString) : ∀ (is : List Nat) (t : CPUTimeStat),
    (∀ i ∈ is, (∃ line idleField, lines[i + 1]? = some line ∧
        (Split line ' ')[4]? = some idleField) ∧
      i < t.PrevIdleTime.length ∧ i < t.PrevTotalTime.length ∧
      i < t.CurIdleTime.length ∧ i < t.CurTotalTime.length ∧
      i < t.DeltaIdleTime.length ∧ i < t.DeltaTotalTime.length ∧ i < t.CPUUsage.length) →
    ∃ t', sampleRows lines is t = .done t' := by
  intro is
  induction is with
  | nil => intro t _; exact ⟨t, rfl⟩
  | cons i rest ih =>
    intro t h
    obtain ⟨⟨line, idleField, hl, hf⟩, h1, h2, h3, h4, h5, h6, h7⟩ := h i (by simp)
    obtain ⟨t1, hrow⟩ := sampleRow_runs lines t i line idleField hl hf h1 h2 h3 h4 h5 h6 h7
    obtain ⟨_, _, s1, s2, s3, s4, s5, s6, s7⟩ := sampleRow_shape lines t t1 i hrow
    simp only [sampleRows, hrow]
    apply ih t1
    intro j hj
    obtain ⟨hrowj, g1, g2, g3, g4, g5, g6, g7⟩ := h j (by simp [hj])
    exact ⟨hrowj, by omega, by omega, by omega, by omega, by omega, by omega, by omega⟩

end Procstats

namespace Strconv

theorem fieldValue_malformed (d rest : GoString) (c : Char) (hd : allDigits d = true)
    (hv : digitsFrom 0 d ≤ maxUint64) (hc : digitVal c = none) :
    fieldValue (d ++ c :: rest) = 0 := by
  have hne : d ++ c :: rest ≠ [] := by simp
  have hP : ParseUint (d ++ c :: rest) = parseUintLoop (d ++ c :: rest) 0 := by
    cases h : d ++ c :: rest with
    | nil => exact absurd h hne
    | cons x xs => rfl
  rw [← ParseUint_fieldValue, hP, parseUintLoop_append, parseUintLoop_digits d 0 hd hv]
  simp [parseUintLoop, hc]

theorem fieldValue_overflow (d rest : GoString) (hd : allDigits d = true)
    (hv : maxUint64 < digitsFrom 0 d) : fieldValue (d ++ rest) = maxUint64 := by
  have hne : d ++ rest ≠ [] := by
    intro e
    have hdn : d = [] := (List.append_eq_nil.1 e).1
    rw [hdn] at hv
    simp [digitsFrom] at hv
  have hP : ParseUint (d ++ rest) = parseUintLoop (d ++ rest) 0 := by
    cases h : d ++ rest with
    | nil => exact absurd h hne
    | cons x xs => rfl
  rw [← ParseUint_fieldValue, hP, parseUintLoop_overflow d 0 rest hd (Nat.zero_le _) hv]

end Strconv

namespace Procstats

open Strings Strconv

/-- A readable table in which each of the first `CPUNumber` processor rows has
at least five fields, read into a state of the right size, is sampled without an
error and without a panic; each processor gets the values of its row's fields. -/
theorem GetCPUTimeStat_shape (data : GoString) (lines : List GoString) (t : CPUTimeStat)
    (hl : readLines (.ok data) = .ok lines)
    (hrows : ∀ i : Nat, (i : Int) < t.CPUNumber →
      ∃ line, lines[i + 1]? = some line ∧ 5 ≤ (Split line ' ').length)
    (hsize : wellSized t) :
    ∃ t', GetCPUTimeStat (.ok data) t = (.ok (), t') ∧
      ∀ i : Nat, (i : Int) < t.CPUNumber →
        ∃ line, lines[i + 1]? = some line ∧
          t'.CurIdleTime[i]? = some (fieldValue ((Split line ' ').getD 4 [])) ∧
          t'.CurTotalTime[i]? =
            some (((Split line ' ').map fieldValue).sum % 18446744073709551616) := by
  obtain ⟨z1, z2, z3, z4, z5, z6, z7⟩ := hsize
  have hrun : ∃ t1, sampleRows lines (List.range t.CPUNumber.toNat) t = .done t1 := by
    apply sampleRows_runs
    intro i hi
    rw [List.mem_range] at hi
    obtain ⟨line, hline, h5⟩ := hrows i (by omega)
    refine ⟨⟨line, (Split line ' ')[4], hline, List.getElem?_eq_getElem (by omega)⟩,
      by omega, by omega, by omega, by omega, by omega, by omega, by omega⟩
  obtain ⟨t1, ht1⟩ := hrun
  have hcall : GetCPUTimeStat (.ok data) t = (.ok (), { t1 with IsGetCPUUsageBegin := true }) := by
    simp only [GetCPUTimeStat, hl, ht1]
  refine ⟨_, hcall, ?_⟩
  intro i hi
  obtain ⟨lines', hl', _, _, hs⟩ := GetCPUTimeStat_sampled _ t _ hcall
  rw [hl] at hl'
  simp only [Except.ok.injEq] at hl'
  subst hl'
  obtain ⟨line, idleField, a1, a2, a3, a4, _⟩ := hs i hi
  refine ⟨line, a1, ?_, ?_⟩
  · have e : (Split line ' ').getD 4 [] = idleField := by
      simp [List.getD_eq_getElem?_getD, a2]
    rw [e, ← ParseUint_fieldValue]
    exact a3
  · rw [← rowTotal_fields]
    exact a4

end Procstats

namespace Procstats

/-- A call that returns `nil` keeps the processor count and the lengths of the
seven slices. -/
theorem GetCPUTimeStat_lengths (file : Except GoError GoString) (t t' : CPUTimeStat)
    (h : GetCPUTimeStat file t = (.ok (), t')) :
    t'.CPUNumber = t.CPUNumber ∧
    t'.PrevIdleTime.length = t.PrevIdleTime.length ∧
    t'.PrevTotalTime.length = t.PrevTotalTime.length ∧
    t'.CurIdleTime.length = t.CurIdleTime.length ∧
    t'.CurTotalTime.length = t.CurTotalTime.length ∧
    t'.DeltaIdleTime.length = t.DeltaIdleTime.length ∧
    t'.DeltaTotalTime.length = t.DeltaTotalTime.length ∧
    t'.CPUUsage.length = t.CPUUsage.length := by
  obtain ⟨lines, t1, _, hr, rfl⟩ := GetCPUTimeStat_ok file t t' h
  obtain ⟨_, s0, s1, s2, s3, s4, s5, s6, s7⟩ := sampleRows_shape lines _ t t1 hr
  exact ⟨s0, s1, s2, s3, s4, s5, s6, s7⟩

theorem GetCPUTimeStat_wellSized (file : Except GoError GoString) (t t' : CPUTimeStat)
    (h : GetCPUTimeStat file t = (.ok (), t')) (hsize : wellSized t) : wellSized t' := by
  obtain ⟨s0, s1, s2, s3, s4, s5, s6, s7⟩ := GetCPUTimeStat_lengths file t t' h
  obtain ⟨z1, z2, z3, z4, z5, z6, z7⟩ := hsize
  unfold wellSized
  rw [s0, s1, s2, s3, s4, s5, s6, s7]
  exact ⟨z1, z2, z3, z4, z5, z6, z7⟩

end Procstats

/-! ## Range tokens whose bounds are not both numbers in order -/

namespace Strconv

/-- A text that `Atoi` rejects as malformed is read as 0. -/
theorem Atoi_malformed (s : GoString) (h : (Atoi s).2 = some .malformed) : (Atoi s).1 = 0 := by
  unfold Atoi ParseInt at h ⊢
  cases s with
  | nil => rfl
  | cons c cs =>
    simp only at h ⊢
    generalize ParseUint (if (c == '+') = true ∨ (c == '-') = true then cs else c :: cs) = r
      at h ⊢
    rcases r with ⟨un, _ | _ | _⟩
    · simp only at h
      split_ifs at h <;> simp at h
    · rfl
    · simp only at h
      split_ifs at h <;> simp at h

theorem percent_not_mem_Itoa (z : Int) : '%' ∉ Itoa z := by
  unfold Itoa
  split
  · simp only [List.mem_cons, not_or]
    exact ⟨by decide, not_mem_decimal '%' (by decide) _⟩
  · exact not_mem_decimal '%' (by decide) _

end Strconv

namespace Podpools

open Strings Strconv Fmt

/-- The range loop entered beyond its end is left at once. -/
theorem rangeLoop_skip (eng : Engine) (fuel : Nat) (j stop : Int) (cpus : GoString)
    (hf : 0 < fuel) (h : stop < j) : rangeLoop eng fuel j stop cpus = some cpus := by
  obtain ⟨f, rfl⟩ : ∃ f, fuel = f + 1 := ⟨fuel - 1, by omega⟩
  rw [rangeLoop, if_neg (by omega)]

/-- The text after the first piece of a token has been written. -/
theorem firstPiece (eng : Engine) (cpus first : GoString) (hp : '%' ∉ cpus) :
    (if cpus ≠ [] then Sprintf eng (cpus ++ [',', '%', 's']) (.str first)
      else Sprintf eng ['%', 's'] (.str first)) =
    (if cpus = [] then first else cpus ++ ',' :: first) := by
  by_cases hc : cpus = []
  · subst hc
    simp [Sprintf]
  · simp [hc, Sprintf_text_s eng cpus _ hp]

/-- A token with two pieces or more whose first two are read as `a` and `b`,
both below the largest `int`: the first piece is written as it is, then
`a + 1, ..., b` in decimal (nothing when `b ≤ a`). -/
theorem resolveToken_bounds (eng : Engine) (fuel : Nat) (cpus tok first second : GoString)
    (more : List GoString) (a b : Nat) (hsplit : Split tok '-' = first :: second :: more)
    (ha : (Atoi first).1 = (a : Int)) (hb : (Atoi second).1 = (b : Int))
    (ha' : a < 9223372036854775807) (hb' : b < 9223372036854775807)
    (hp : '%' ∉ cpus) (hpf : a < b → '%' ∉ first) (hf : b - a < fuel) :
    resolveToken eng fuel cpus tok =
      some ((if cpus = [] then first else cpus ++ ',' :: first) ++
        (List.range' (a + 1) (b - a)).flatMap (fun k => ',' :: decimal k)) := by
  have hw : wrapInt64 ((a : Int) + 1) = ((a + 1 : Nat) : Int) := by
    unfold wrapInt64
    push_cast
    omega
  simp only [resolveToken, hsplit, List.headD_cons, List.length_cons, List.getD_cons_succ,
    List.getD_cons_zero, ha, hb, hw, firstPiece eng cpus first hp]
  rw [if_pos (by omega)]
  by_cases hab : a < b
  · have hp1 : '%' ∉ (if cpus = [] then first else cpus ++ ',' :: first) := by
      by_cases hc : cpus = []
      · simp only [hc, if_true]
        exact hpf hab
      · simp only [hc, if_false, List.mem_append, List.mem_cons, not_or]
        exact ⟨hp, by decide, hpf hab⟩
    exact rangeLoop_run eng (b - a) (a + 1) fuel b _ hp1 (by omega) hb' hf
  · have e : b - a = 0 := by omega
    rw [e, rangeLoop_skip eng fuel _ _ _ (by omega) (by push_cast; omega)]
    simp

/-- The range loop only adds to a text that holds no `%`. -/
theorem rangeLoop_length (eng : Engine) : ∀ (fuel : Nat) (j stop : Int) (cpus r : GoString),
    '%' ∉ cpus → rangeLoop eng fuel j stop cpus = some r →
    cpus.length ≤ r.length ∧ (j ≤ stop → cpus.length < r.length) := by
  intro fuel
  induction fuel with
  | zero => intro j stop cpus r _ h; simp [rangeLoop] at h
  | succ f ih =>
    intro j stop cpus r hp h
    rw [rangeLoop] at h
    by_cases hj : j ≤ stop
    · rw [if_pos hj, Sprintf_text_d eng cpus j hp] at h
      have hp1 : '%' ∉ cpus ++ ',' :: Itoa j := by
        simp only [List.mem_append, List.mem_cons, not_or]
        exact ⟨hp, by decide, percent_not_mem_Itoa j⟩
      have := (ih _ _ _ _ hp1 h).1
      simp only [List.length_append, List.length_cons] at this
      exact ⟨by omega, fun _ => by omega⟩
    · rw [if_neg hj] at h
      simp only [Option.some.injEq] at h
      subst h
      exact ⟨Nat.le_refl _, fun hle => absurd hle hj⟩

theorem resolvePools_max_twice (eng : Engine) (fuel : Nat) :
    resolvePools eng fuel "9223372036854775807-9223372036854775807".toList = none := by
  have h : resolvePools eng fuel "9223372036854775807-9223372036854775807".toList =
      (match rangeLoop eng fuel (wrapInt64 (maxInt64 + 1)) maxInt64
          "9223372036854775807".toList with
        | none => none
        | some cpus1 => resolveTokens eng fuel [] cpus1) := by
    rfl
  rw [h, rangeLoop_maxInt eng fuel _ _ (wrapInt64_range _).2]

theorem resolvePools_many_digits (eng : Engine) (fuel : Nat) :
    resolvePools eng fuel "0-99999999999999999999".toList = none := by
  have h : resolvePools eng fuel "0-99999999999999999999".toList =
      (match rangeLoop eng fuel (wrapInt64 (0 + 1)) maxInt64 ['0'] with
        | none => none
        | some cpus1 => resolveTokens eng fuel [] cpus1) := by
    rfl
  rw [h, rangeLoop_maxInt eng fuel _ _ (wrapInt64_range _).2]

/-- With `begin` the largest `int`, `begin + 1` wraps to the smallest one and the
loop is entered: the token `9223372036854775807-0` never gives its first bound alone. -/
theorem resolvePools_max_down (eng : Engine) (fuel : Nat) :
    resolvePools eng fuel "9223372036854775807-0".toList ≠
      some "9223372036854775807".toList := by
  have h : resolvePools eng fuel "9223372036854775807-0".toList =
      (match rangeLoop eng fuel minInt64 0 "9223372036854775807".toList with
        | none => none
        | some cpus1 => resolveTokens eng fuel [] cpus1) := by
    rfl
  rw [h]
  cases hr : rangeLoop eng fuel minInt64 0 "9223372036854775807".toList with
  | none => simp
  | some r =>
    have hlen := (rangeLoop_length eng fuel minInt64 0 _ r (by decide) hr).2 (by decide)
    simp only [resolveTokens, ne_eq, Option.some.injEq]
    intro e
    rw [e] at hlen
    exact Nat.lt_irrefl _ hlen

end Podpools

/-! ## The usage in exact arithmetic -/

namespace Procstats

theorem sum_usageQ (idle : Nat → Nat) (T : Nat) (hT : T ≠ 0) (ids : List Nat) :
    (ids.map (fun id => usageQ (idle id) T)).sum =
      (ids.length : ℚ) * 100 - ((ids.map idle).sum : ℚ) * 100 / (T : ℚ) := by
  have hT' : (T : ℚ) ≠ 0 := Nat.cast_ne_zero.2 hT
  induction ids with
  | nil => simp
  | cons id rest ih =>
    rw [List.map_cons, List.sum_cons, ih, List.map_cons, List.sum_cons, List.length_cons]
    unfold usageQ
    push_cast
    field_simp
    ring

theorem sum_const (total : Nat → Nat) (T : Nat) (ids : List Nat)
    (h : ∀ id ∈ ids, total id = T) : (ids.map total).sum = ids.length * T := by
  induction ids with
  | nil => simp
  | cons id rest ih =>
    simp only [List.map_cons, List.sum_cons, List.length_cons, h id (by simp),
      ih (fun j hj => h j (by simp [hj]))]
    ring

/-- With the same total delta `T`, not zero, for all its members, the pool value
is the sum of the members' usages, in exact arithmetic. -/
theorem poolUsageQ_eq_sum (idle total : Nat → Nat) (T : Nat) (hT : T ≠ 0) (ids : List Nat)
    (h : ∀ id ∈ ids, total id = T) :
    poolUsageQ (ids.map idle).sum (ids.map total).sum ids.length =
      (ids.map (fun id => usageQ (idle id) (total id))).sum := by
  have hT' : (T : ℚ) ≠ 0 := Nat.cast_ne_zero.2 hT
  have hmap : ids.map (fun id => usageQ (idle id) (total id)) =
      ids.map (fun id => usageQ (idle id) T) := by
    apply List.map_congr_left
    intro id hid
    rw [h id hid]
  rw [hmap, sum_usageQ idle T hT ids, sum_const total T ids h, poolUsageQ]
  by_cases hk : ids.length = 0
  · have hnil : ids = [] := List.length_eq_zero.1 hk
    subst hnil
    simp
  · have hk' : (ids.length : ℚ) ≠ 0 := Nat.cast_ne_zero.2 hk
    push_cast
    field_simp
    ring

/-- A delta of idle time within the delta of total time gives a usage between
0 and 100, in exact arithmetic. -/
theorem usageQ_bounds (deltaIdle deltaTotal : Nat) (hle : deltaIdle ≤ deltaTotal)
    (hpos : 0 < deltaTotal) :
    0 ≤ usageQ deltaIdle deltaTotal ∧ usageQ deltaIdle deltaTotal ≤ 100 := by
  have hT : (0 : ℚ) < (deltaTotal : ℚ) := Nat.cast_pos.2 hpos
  have hle' : (deltaIdle : ℚ) ≤ (deltaTotal : ℚ) := Nat.cast_le.2 hle
  have h0 : (0 : ℚ) ≤ (deltaIdle : ℚ) / (deltaTotal : ℚ) :=
    div_nonneg (Nat.cast_nonneg _) (le_of_lt hT)
  have h1 : (deltaIdle : ℚ) / (deltaTotal : ℚ) ≤ 1 := (div_le_one hT).2 hle'
  unfold usageQ
  constructor
  · nlinarith
  · nlinarith

theorem poolUsageQ_bounds (sumIdle sumTotal k : Nat) (hle : sumIdle ≤ sumTotal)
    (hpos : 0 < sumTotal) :
    0 ≤ poolUsageQ sumIdle sumTotal k ∧ poolUsageQ sumIdle sumTotal k ≤ 100 * (k : ℚ) := by
  obtain ⟨h0, h1⟩ := usageQ_bounds sumIdle sumTotal hle hpos
  have hk : (0 : ℚ) ≤ (k : ℚ) := Nat.cast_nonneg k
  have e : poolUsageQ sumIdle sumTotal k = usageQ sumIdle sumTotal * (k : ℚ) := rfl
  rw [e]
  constructor
  · exact mul_nonneg h0 hk
  · exact mul_le_mul_of_nonneg_right h1 hk

theorem sum_le_sum_of_le (idle total : Nat → Nat) (ids : List Nat)
    (h : ∀ id ∈ ids, idle id ≤ total id) : (ids.map idle).sum ≤ (ids.map total).sum := by
  induction ids with
  | nil => simp
  | cons id rest ih =>
    have h1 := h id (by simp)
    have h2 := ih (fun j hj => h j (by simp [hj]))
    simp only [List.map_cons, List.sum_cons]
    omega

end Procstats

namespace Procstats

open Strings Strconv

theorem mem_le_sum (fs : List Nat) : ∀ f ∈ fs, f ≤ fs.sum := by
  induction fs with
  | nil => intro f hf; simp at hf
  | cons g rest ih =>
    intro f hf
    simp only [List.sum_cons]
    rcases List.mem_cons.1 hf with rfl | hm
    · omega
    · have := ih f hm
      omega

/-- Counters that do not decrease, field by field: the sum does not decrease,
and no field grows by more than the sum does. -/
theorem forall₂_le_sum {fs fs' : List Nat} (h : List.Forall₂ (fun a b => a ≤ b) fs fs') :
    fs.sum ≤ fs'.sum ∧ fs.length = fs'.length ∧
      ∀ (k a b : Nat), fs[k]? = some a → fs'[k]? = some b →
        a ≤ b ∧ b + fs.sum ≤ fs'.sum + a := by
  induction h with
  | nil => simp
  | cons hab _ ih =>
    rename_i x y xs ys _
    obtain ⟨hs, hlen, hk⟩ := ih
    refine ⟨by simp only [List.sum_cons]; omega, by simp [hlen], ?_⟩
    intro k a b ha hb
    cases k with
    | zero =>
      simp only [List.getElem?_cons_zero, Option.some.injEq] at ha hb
      subst ha hb
      simp only [List.sum_cons]
      omega
    | succ k =>
      simp only [List.getElem?_cons_succ] at ha hb
      obtain ⟨h1, h2⟩ := hk k a b ha hb
      simp only [List.sum_cons]
      omega

theorem subU64_of_le (c p : Nat) (hle : p ≤ c) (hc : c < 18446744073709551616) :
    subU64 c p = c - p := by
  simp only [subU64, twoPow64]
  omega

/-- The sample of a well-formed row: the fourth counter and the sum of the
counters, in the current and the previous slices. -/
theorem sampledAt_cpuRow {lines : List GoString} {t t' : CPUTimeStat} {i : Nat}
    (hs : sampledAt lines t t' i) (fs : List Nat) (hrow : lines[i + 1]? = some (cpuRow i fs))
    (hn : 4 ≤ fs.length) (hsum : fs.sum < 18446744073709551616) :
    ∃ idle, fs[3]? = some idle ∧ t'.CurIdleTime[i]? = some idle ∧
      t'.PrevIdleTime[i]? = some idle ∧ t'.CurTotalTime[i]? = some fs.sum ∧
      t'.PrevTotalTime[i]? = some fs.sum := by
  obtain ⟨line, idleField, a1, a2, a3, a4, a5, a6, _⟩ := hs
  rw [hrow] at a1
  simp only [Option.some.injEq] at a1
  subst a1
  have hfs : ∀ f ∈ fs, f < 18446744073709551616 := by
    intro f hf
    have := mem_le_sum fs f hf
    omega
  rw [rowTotal_cpuRow i fs hfs, Nat.mod_eq_of_lt hsum] at a4 a6
  rw [Split_cpuRow] at a2
  simp only [List.getElem?_cons_succ, List.getElem?_map] at a2
  have h3 : 3 < fs.length := by omega
  rw [List.getElem?_eq_getElem h3] at a2
  simp only [Option.map_some', Option.some.injEq] at a2
  subst a2
  have hp := ParseUint_decimal fs[3] (by
    have := hfs fs[3] (List.getElem_mem h3)
    simp only [maxUint64]
    omega)
  rw [hp] at a3 a5
  exact ⟨fs[3], List.getElem?_eq_getElem h3, a3, a5, a4, a6⟩

/-- Two consecutive samples of rows whose counters do not decrease and whose
sums stay below `2 ^ 64`: the idle delta of each processor is within its total
delta, and the stored usage is the one computed from the two. -/
theorem deltas_ordered (file1 file2 : Except GoError GoString)
    (lines1 lines2 : List GoString) (t0 t1 t2 : CPUTimeStat)
    (h1 : GetCPUTimeStat file1 t0 = (.ok (), t1))
    (h2 : GetCPUTimeStat file2 t1 = (.ok (), t2))
    (hl1 : readLines file1 = .ok lines1) (hl2 : readLines file2 = .ok lines2)
    (i : Nat) (hi : (i : Int) < t1.CPUNumber) (fs fs' : List Nat)
    (hr1 : lines1[i + 1]? = some (cpuRow i fs)) (hr2 : lines2[i + 1]? = some (cpuRow i fs'))
    (hle : List.Forall₂ (fun a b => a ≤ b) fs fs') (hn : 4 ≤ fs.length)
    (hsum : fs'.sum < 18446744073709551616) :
    ∃ deltaIdle deltaTotal, t2.DeltaIdleTime[i]? = some deltaIdle ∧
      t2.DeltaTotalTime[i]? = some deltaTotal ∧ deltaIdle ≤ deltaTotal ∧
      deltaTotal < 18446744073709551616 ∧
      t2.CPUUsage[i]? = some (usageOf deltaIdle deltaTotal) := by
  obtain ⟨la, hla, hflag1, hn1, hs1⟩ := GetCPUTimeStat_sampled file1 t0 t1 h1
  obtain ⟨lb, hlb, _, _, hs2⟩ := GetCPUTimeStat_sampled file2 t1 t2 h2
  rw [hl1] at hla
  rw [hl2] at hlb
  simp only [Except.ok.injEq] at hla hlb
  subst hla hlb
  obtain ⟨hsums, hlen, hk⟩ := forall₂_le_sum hle
  obtain ⟨idle1, e1, _, p1, _, p2⟩ :=
    sampledAt_cpuRow (hs1 i (by omega)) fs hr1 hn (by omega)
  obtain ⟨idle2, e2, c1, _, c2, _⟩ :=
    sampledAt_cpuRow (hs2 i hi) fs' hr2 (by omega) hsum
  obtain ⟨line, idleField, b1, b2, b3, b4, _, _, _, b8⟩ := hs2 i hi
  obtain ⟨pi, pt, d1, d2, d3, d4, d5⟩ := b8 hflag1
  rw [p1] at d1
  rw [p2] at d2
  rw [c1] at b3
  rw [c2] at b4
  simp only [Option.some.injEq] at d1 d2 b3 b4
  subst d1 d2
  rw [← b3] at d3 d5
  rw [← b4] at d4 d5
  obtain ⟨k1, k2⟩ := hk 3 idle1 idle2 e1 e2
  have hidle2 : idle2 ≤ fs'.sum := mem_le_sum fs' idle2 (List.getElem?_mem e2)
  rw [subU64_of_le idle2 idle1 k1 (by omega)] at d3 d5
  rw [subU64_of_le fs'.sum fs.sum hsums hsum] at d4 d5
  exact ⟨_, _, d3, d4, by omega, by omega, d5⟩

end Procstats

/-! ## The records of one scrape -/

namespace Podpools

open Strings Strconv Fmt Procstats

theorem char_eq_of_toNat (a b : Char) (h : a.toNat = b.toNat) : a = b := by
  have ha := Char.ofNat_toNat a
  have hb := Char.ofNat_toNat b
  rw [h] at ha
  exact ha.symm.trans hb

theorem strLt_cons (a b : Char) (as bs : GoString) :
    strLt (a :: as) (b :: bs) = true ↔ a.toNat < b.toNat ∨ (a = b ∧ strLt as bs = true) := by
  simp [strLt]

theorem strLt_cons_false (a b : Char) (as bs : GoString) :
    strLt (a :: as) (b :: bs) = false ↔
      ¬ a.toNat < b.toNat ∧ (a = b → strLt as bs = false) := by
  rw [← Bool.not_eq_true, strLt_cons]
  simp only [not_or, not_and, Bool.not_eq_true]

theorem strLt_total : ∀ a b : GoString, strLt b a = false ∨ strLt a b = false := by
  intro a
  induction a with
  | nil => intro b; left; cases b <;> rfl
  | cons x xs ih =>
    intro b
    cases b with
    | nil => right; rfl
    | cons y ys =>
      rcases Nat.lt_trichotomy x.toNat y.toNat with h | h | h
      · left
        rw [strLt_cons_false]
        refine ⟨by omega, fun e => ?_⟩
        subst e
        omega
      · have e := char_eq_of_toNat x y h
        subst e
        rcases ih ys with h1 | h1
        · left; rw [strLt_cons_false]; exact ⟨by omega, fun _ => h1⟩
        · right; rw [strLt_cons_false]; exact ⟨by omega, fun _ => h1⟩
      · right
        rw [strLt_cons_false]
        refine ⟨by omega, fun e => ?_⟩
        subst e
        omega

theorem strLt_trans : ∀ a b c : GoString,
    strLt b a = false → strLt c b = false → strLt c a = false := by
  intro a
  induction a with
  | nil => intro b c _ _; cases c <;> rfl
  | cons x xs ih =>
    intro b c h1 h2
    cases b with
    | nil => simp [strLt] at h1
    | cons y ys =>
      cases c with
      | nil => simp [strLt] at h2
      | cons z zs =>
        rw [strLt_cons_false] at h1 h2 ⊢
        refine ⟨by omega, fun e => ?_⟩
        subst e
        have e1 : y = z := char_eq_of_toNat y z (by omega)
        subst e1
        exact ih ys zs (h1.2 rfl) (h2.2 rfl)

theorem strLt_connected : ∀ a b : GoString, strLt b a = false → a ≠ b → strLt a b = true := by
  intro a
  induction a with
  | nil =>
    intro b _ hne
    cases b with
    | nil => exact absurd rfl hne
    | cons y ys => rfl
  | cons x xs ih =>
    intro b h hne
    cases b with
    | nil => simp [strLt] at h
    | cons y ys =>
      rw [strLt_cons_false] at h
      rw [strLt_cons]
      rcases Nat.lt_trichotomy x.toNat y.toNat with h1 | h1 | h1
      · exact Or.inl h1
      · have e := char_eq_of_toNat x y h1
        subst e
        refine Or.inr ⟨rfl, ih ys (h.1 |> fun _ => h.2 rfl) ?_⟩
        intro e
        exact hne (by rw [e])
      · exact absurd h1 h.1

/-- The sorted names are in ascending order: none is below an earlier one. -/
theorem sortStrings_sorted (names : List GoString) :
    List.Pairwise (fun a b => strLt b a = false) (sortStrings names) :=
  @List.sorted_insertionSort GoString (fun a b => strLt b a = false) _
    ⟨strLt_total⟩ ⟨fun a b c => strLt_trans a b c⟩ names

/-- Distinct names come out in strictly ascending order. -/
theorem sortStrings_ascending (names : List GoString) (h : names.Nodup) :
    List.Pairwise (fun a b => strLt a b = true) (sortStrings names) := by
  have h1 := sortStrings_sorted names
  have h2 : (sortStrings names).Nodup := (sortStrings_perm names).nodup_iff.mpr h
  have h3 := List.Pairwise.and h1 h2
  exact h3.imp (fun hab => strLt_connected _ _ hab.1 hab.2)

/-- A run of the pool loop that ends gives one record per name, in the order of
the names, each with the labels of its pool and the value computed for it. -/
theorem poolRecords_ok (eng : Engine) (fuel : Nat) (policyName : GoString) (m : Metrics)
    (t : CPUTimeStat) : ∀ (names : List GoString) (records : List Metric),
    poolRecords eng fuel policyName m t names = .ok records →
    List.Forall₂ (fun name r => ∃ pm usage, m.PoolMetrics.lookup name = some pm ∧
      poolCPUUsage eng fuel t pm.CPUs = .ok usage ∧
      r = ⟨poolCPUUsageDesc, usage, [policyName, name, pm.DefName, pm.CPUs, pm.Memory,
        pm.CPUMiliSize, pm.PodNames, pm.ContainerNames]⟩) names records := by
  intro names
  induction names with
  | nil =>
    intro records h
    simp only [poolRecords, Result.ok.injEq] at h
    subst h
    exact List.Forall₂.nil
  | cons name rest ih =>
    intro records h
    unfold poolRecords at h
    cases hl : m.PoolMetrics.lookup name with
    | none => simp [hl] at h
    | some pm =>
      simp only [hl] at h
      cases hu : poolCPUUsage eng fuel t pm.CPUs with
      | err e => simp [hu] at h
      | panic => simp [hu] at h
      | outOfFuel => simp [hu] at h
      | ok usage =>
        simp only [hu] at h
        cases hr : poolRecords eng fuel policyName m t rest with
        | err e => simp [hr] at h
        | panic => simp [hr] at h
        | outOfFuel => simp [hr] at h
        | ok recs =>
          simp only [hr, Result.ok.injEq] at h
          subst h
          exact List.Forall₂.cons ⟨pm, usage, hl, hu, rfl⟩ (ih recs hr)

/-- The loop of `updateThreadCPUUsageMetrics` over any list of indices: when it
ends, one record per index, in order. -/
theorem threadRecords_ok (t : CPUTimeStat) : ∀ (l : List Nat) (records : List Metric),
    l.foldr
      (fun (i : Nat) acc =>
        match t.CPUUsage[i]?, acc with
        | some u, .ok records =>
          .ok ({ desc := threadCPUUsageDesc, value := u,
                 labelValues := [Itoa (i : Int)] } :: records)
        | _, _ => .panic)
      (Result.ok ([] : List Metric)) = Result.ok records →
    List.Forall₂ (fun i r => ∃ u, t.CPUUsage[i]? = some u ∧
      r = ⟨threadCPUUsageDesc, u, [decimal i]⟩) l records := by
  intro l
  induction l with
  | nil =>
    intro records h
    simp only [List.foldr_nil, Result.ok.injEq] at h
    subst h
    exact List.Forall₂.nil
  | cons i rest ih =>
    intro records h
    rw [List.foldr_cons] at h
    generalize hacc : rest.foldr
      (fun (i : Nat) acc =>
        match t.CPUUsage[i]?, acc with
        | some u, .ok records =>
          .ok ({ desc := threadCPUUsageDesc, value := u,
                 labelValues := [Itoa (i : Int)] } :: records)
        | _, _ => .panic)
      (Result.ok ([] : List Metric)) = acc at h
    cases hu : t.CPUUsage[i]? with
    | none => simp [hu] at h
    | some u =>
      cases acc with
      | err e => simp [hu] at h
      | panic => simp [hu] at h
      | outOfFuel => simp [hu] at h
      | ok recs =>
        simp only [hu, Result.ok.injEq] at h
        subst h
        exact List.Forall₂.cons ⟨u, hu, by rw [Itoa_natCast]⟩ (ih recs hacc)

theorem forall₂_range_get {P : Nat → Metric → Prop} : ∀ (n : Nat) (records : List Metric),
    List.Forall₂ P (List.range n) records →
    records.length = n ∧ ∀ i, i < n → ∃ r, records[i]? = some r ∧ P i r := by
  intro n records h
  have hlen : records.length = n := by
    have := h.length_eq
    simpa using this.symm
  refine ⟨hlen, fun i hi => ?_⟩
  have hi2 : i < records.length := by omega
  refine ⟨records[i], List.getElem?_eq_getElem hi2, ?_⟩
  have := List.Forall₂.get h (by simpa using hi) hi2
  simpa using this

/-- A scrape that succeeds returns the thread records, then the pool records. -/
theorem CollectMetrics_ok (eng : Engine) (fuel : Nat) (policyName : GoString) (cpuNumber : Nat)
    (file : Except GoError GoString) (m : Option Metrics) (t t1 : CPUTimeStat)
    (records : List Metric)
    (h : CollectMetrics eng fuel policyName cpuNumber file (.podpools m) t = (.ok records, t1)) :
    ∃ threads pools, GetCPUTimeStat file t = (.ok (), t1) ∧
      updateThreadCPUUsageMetrics cpuNumber t1 = .ok threads ∧
      updatePoolCPUUsageMetrics eng fuel policyName m t1 = .ok pools ∧
      records = threads ++ pools := by
  unfold CollectMetrics at h
  simp only at h
  generalize hg : GetCPUTimeStat file t = g at h
  obtain ⟨r, t2⟩ := g
  cases r with
  | err e => simp at h
  | panic => simp at h
  | outOfFuel => simp at h
  | ok u =>
    simp only at h
    cases ht : updateThreadCPUUsageMetrics cpuNumber t2 with
    | err e => simp [ht] at h
    | panic => simp [ht] at h
    | outOfFuel => simp [ht] at h
    | ok threads =>
      simp only [ht] at h
      cases hp : updatePoolCPUUsageMetrics eng fuel policyName m t2 with
      | err e => simp [hp] at h
      | panic => simp [hp] at h
      | outOfFuel => simp [hp] at h
      | ok pools =>
        simp only [hp, Prod.mk.injEq, Result.ok.injEq] at h
        obtain ⟨h1, h2⟩ := h
        subst h2
        exact ⟨threads, pools, rfl, ht, hp, h1.symm⟩

end Podpools

/-! ## An identifier outside the slices -/

namespace Podpools

open Strings Strconv Fmt Procstats

/-- The loop over the identifiers of a pool panics when one of them is an index
outside `DeltaIdleTime` or `DeltaTotalTime`, wherever it stands in the list. -/
theorem sumPool_out_of_range (t : CPUTimeStat) (bad : GoString)
    (hbad : (Atoi bad).1 < 0 ∨ t.DeltaIdleTime.length ≤ (Atoi bad).1.toNat ∨
      t.DeltaTotalTime.length ≤ (Atoi bad).1.toNat) :
    ∀ (ids : List GoString), bad ∈ ids → ∀ a b : Nat, sumPool t ids a b = none := by
  intro ids
  induction ids with
  | nil => intro h; simp at h
  | cons id rest ih =>
    intro h a b
    unfold sumPool
    simp only
    by_cases hneg : (Atoi id).1 < 0
    · rw [if_pos hneg]
    · rw [if_neg hneg]
      cases hi : t.DeltaIdleTime[(Atoi id).1.toNat]? with
      | none => rfl
      | some di =>
        cases ht : t.DeltaTotalTime[(Atoi id).1.toNat]? with
        | none => rfl
        | some dt =>
          simp only
          rcases List.mem_cons.1 h with e | hrest
          · subst e
            have h1 : (Atoi bad).1.toNat < t.DeltaIdleTime.length := by
              by_contra hc
              rw [List.getElem?_eq_none (by omega)] at hi
              exact Option.noConfusion hi
            have h2 : (Atoi bad).1.toNat < t.DeltaTotalTime.length := by
              by_contra hc
              rw [List.getElem?_eq_none (by omega)] at ht
              exact Option.noConfusion ht
            rcases hbad with h0 | h0 | h0
            · exact absurd h0 hneg
            · omega
            · omega
          · exact ih hrest _ _

/-- A pool whose processor set resolves to an identifier outside the slices panics. -/
theorem poolCPUUsage_out_of_range (eng : Engine) (fuel : Nat) (t : CPUTimeStat)
    (cpuset cpus bad : GoString) (h1 : resolvePools eng fuel cpuset = some cpus)
    (h2 : bad ∈ Split cpus ',')
    (hbad : (Atoi bad).1 < 0 ∨ t.DeltaIdleTime.length ≤ (Atoi bad).1.toNat ∨
      t.DeltaTotalTime.length ≤ (Atoi bad).1.toNat) :
    poolCPUUsage eng fuel t cpuset = .panic := by
  simp only [poolCPUUsage, h1, sumPool_out_of_range t bad hbad _ h2 0 0]

/-- A pool whose processor set resolves gets a value or panics. -/
theorem poolCPUUsage_resolved (eng : Engine) (fuel : Nat) (t : CPUTimeStat)
    (cpuset cpus : GoString) (h1 : resolvePools eng fuel cpuset = some cpus) :
    poolCPUUsage eng fuel t cpuset = .panic ∨
      ∃ usage, poolCPUUsage eng fuel t cpuset = .ok usage := by
  cases hs : sumPool t (Split cpus ',') 0 0 with
  | none => left; simp only [poolCPUUsage, h1, hs]
  | some r =>
    obtain ⟨idle, total⟩ := r
    right
    simp only [poolCPUUsage, h1, hs]
    exact ⟨_, rfl⟩

theorem mem_keys_of_lookup {β : Type} (name : GoString) (v : β) :
    ∀ (l : List (GoString × β)), l.lookup name = some v → name ∈ l.map Prod.fst := by
  intro l
  induction l with
  | nil => intro h; simp [List.lookup] at h
  | cons kv rest ih =>
    intro h
    obtain ⟨k, w⟩ := kv
    by_cases e : name = k
    · simp only [List.map_cons, List.mem_cons]
      exact Or.inl e
    · have hb : (name == k) = false := by simpa using e
      rw [List.lookup, hb] at h
      simp only [List.map_cons, List.mem_cons]
      exact Or.inr (ih h)

/-- The loop over the pool names panics when one of the names still to come is
a pool with an identifier outside the slices: no record is returned, also not
for the pools before it. -/
theorem poolRecords_out_of_range (eng : Engine) (fuel : Nat) (policyName : GoString)
    (m : Metrics) (t : CPUTimeStat)
    (hres : ∀ entry ∈ m.PoolMetrics, ∃ cpus, resolvePools eng fuel entry.2.CPUs = some cpus)
    (name : GoString) (pm : PoolMetrics) (hpool : m.PoolMetrics.lookup name = some pm)
    (hpanic : poolCPUUsage eng fuel t pm.CPUs = .panic) :
    ∀ names : List GoString, (∀ n ∈ names, n ∈ m.PoolMetrics.map Prod.fst) → name ∈ names →
      poolRecords eng fuel policyName m t names = .panic := by
  intro names
  induction names with
  | nil => intro _ h; simp at h
  | cons n rest ih =>
    intro hkeys hmem
    obtain ⟨v, hv, hin⟩ := lookup_of_mem_keys n m.PoolMetrics (hkeys n (by simp))
    obtain ⟨cpus, hc⟩ := hres (n, v) hin
    unfold poolRecords
    simp only [hv]
    rcases poolCPUUsage_resolved eng fuel t v.CPUs cpus hc with hp | ⟨usage, hu⟩
    · simp only [hp]
    · simp only [hu]
      have hrest : poolRecords eng fuel policyName m t rest = .panic := by
        rcases List.mem_cons.1 hmem with e | hr
        · subst e
          rw [hv] at hpool
          cases hpool
          rw [hu] at hpanic
          exact absurd hpanic (by simp)
        · exact ih (fun k hk => hkeys k (by simp [hk])) hr
      simp only [hrest]

/-- The one error of `updatePoolCPUUsageMetrics` is for the whole call, returned
when the metrics are missing; and for every scrape in which every pool's
processor set resolves only to identifiers inside `[0, processorCount)` (the
lengths of the delta slices) it returns no error and one utilization record per
pool, in the sorted order of the pool names. -/
theorem updatePoolCPUUsageMetrics_in_range :
    (∀ (eng : Engine) (fuel : Nat) (policyName : GoString) (t : CPUTimeStat),
      updatePoolCPUUsageMetrics eng fuel policyName none t =
        .err ⟨"Podpools metrics used to count pool CPU usage is missing.".toList⟩) ∧
    (∀ (eng : Engine) (fuel : Nat) (policyName : GoString) (m : Metrics) (t : CPUTimeStat),
      (∀ entry ∈ m.PoolMetrics, ∃ cpus, resolvePools eng fuel entry.2.CPUs = some cpus ∧
        ∀ id ∈ Split cpus ',', 0 ≤ (Atoi id).1 ∧
          (Atoi id).1.toNat < t.DeltaIdleTime.length ∧
          (Atoi id).1.toNat < t.DeltaTotalTime.length) →
      ∃ records, updatePoolCPUUsageMetrics eng fuel policyName (some m) t = .ok records ∧
        records.length = m.PoolMetrics.length ∧
        records.map (fun r => r.labelValues.getD 1 []) =
          sortStrings (m.PoolMetrics.map Prod.fst)) := by
  refine ⟨fun _ _ _ _ => rfl, ?_⟩
  intro eng fuel policyName m t h
  have hperm := sortStrings_perm (m.PoolMetrics.map Prod.fst)
  obtain ⟨records, h1, h2⟩ := poolRecords_in_range eng fuel policyName m t h
    (sortStrings (m.PoolMetrics.map Prod.fst)) (fun n hn => hperm.mem_iff.1 hn)
  refine ⟨records, h1, ?_, h2⟩
  have hlen := congrArg List.length h2
  rw [List.length_map, hperm.length_eq, List.length_map] at hlen
  exact hlen

end Podpools

/-! ## Rounding to nearest -/

namespace Float64

theorem log2Aux_spec : ∀ (fuel n : Nat), 0 < n → n ≤ fuel →
    2 ^ log2Aux fuel n ≤ n ∧ n < 2 ^ (log2Aux fuel n + 1) := by
  intro fuel
  induction fuel with
  | zero => intro n h1 h2; omega
  | succ fuel ih =>
    intro n h1 h2
    unfold log2Aux
    by_cases h : n < 2
    · rw [if_pos h]
      have : n = 1 := by omega
      subst this
      simp
    · rw [if_neg h]
      obtain ⟨a, b⟩ := ih (n / 2) (by omega) (by omega)
      have e1 : 2 ^ (log2Aux fuel (n / 2) + 1) = 2 * 2 ^ log2Aux fuel (n / 2) := by
        rw [pow_succ]; ring
      have e2 : 2 ^ (log2Aux fuel (n / 2) + 1 + 1) = 2 * 2 ^ (log2Aux fuel (n / 2) + 1) := by
        rw [pow_succ]; ring
      rw [e1] at b
      rw [e2, e1]
      omega

theorem log2_spec (n : Nat) (h : 0 < n) : 2 ^ log2 n ≤ n ∧ n < 2 ^ (log2 n + 1) :=
  log2Aux_spec n n h (Nat.le_refl n)

theorem lowest_spec : ∀ (fuel m : Nat) (e : Int), 0 < m →
    0 < (lowest fuel m e).1 ∧ e ≤ (lowest fuel m e).2 ∧
    ((lowest fuel m e).1 : ℚ) * (2 : ℚ) ^ (lowest fuel m e).2 = (m : ℚ) * (2 : ℚ) ^ e := by
  intro fuel
  induction fuel with
  | zero => intro m e h; exact ⟨h, le_refl e, rfl⟩
  | succ fuel ih =>
    intro m e h
    unfold lowest
    by_cases hc : m % 2 = 0 ∧ m ≠ 0
    · rw [if_pos hc]
      obtain ⟨a, b, c⟩ := ih (m / 2) (e + 1) (by omega)
      refine ⟨a, by omega, ?_⟩
      rw [c]
      have hm : (m : ℚ) = 2 * ((m / 2 : Nat) : ℚ) := by
        have : m = 2 * (m / 2) := by omega
        exact_mod_cast this
      rw [hm, zpow_add_one₀ (by norm_num : (2 : ℚ) ≠ 0)]
      ring
    · rw [if_neg hc]
      exact ⟨h, le_refl e, rfl⟩

theorem two_zpow_pos (k : Int) : (0 : ℚ) < (2 : ℚ) ^ k := zpow_pos (by norm_num) k

theorem two_zpow_toNat (k : Int) (h : 0 ≤ k) : ((2 ^ k.toNat : Nat) : ℚ) = (2 : ℚ) ^ k := by
  have : k = (k.toNat : Int) := (Int.toNat_of_nonneg h).symm
  rw [Nat.cast_pow, Nat.cast_ofNat]
  conv_rhs => rw [this]
  rw [zpow_natCast]

theorem binade_spec (n d : Nat) (hn : 0 < n) (hd : 0 < d) :
    (2 : ℚ) ^ binade n d ≤ (n : ℚ) / d ∧ (n : ℚ) / d < (2 : ℚ) ^ (binade n d + 1) := by
  obtain ⟨n1, n2⟩ := log2_spec n hn
  obtain ⟨d1, d2⟩ := log2_spec d hd
  have hdq : (0 : ℚ) < d := by exact_mod_cast hd
  have hnq : (0 : ℚ) < n := by exact_mod_cast hn
  have qn1 : (2 : ℚ) ^ (log2 n : Int) ≤ n := by
    rw [zpow_natCast]; exact_mod_cast n1
  have qn2 : (n : ℚ) < (2 : ℚ) ^ ((log2 n : Int) + 1) := by
    have : ((log2 n : Int) + 1) = ((log2 n + 1 : Nat) : Int) := by push_cast; ring
    rw [this, zpow_natCast]; exact_mod_cast n2
  have qd1 : (2 : ℚ) ^ (log2 d : Int) ≤ d := by
    rw [zpow_natCast]; exact_mod_cast d1
  have qd2 : (d : ℚ) < (2 : ℚ) ^ ((log2 d : Int) + 1) := by
    have : ((log2 d : Int) + 1) = ((log2 d + 1 : Nat) : Int) := by push_cast; ring
    rw [this, zpow_natCast]; exact_mod_cast d2
  have h2 : (2 : ℚ) ≠ 0 := by norm_num
  -- the quotient lies between 2 ^ (k0 - 1) and 2 ^ (k0 + 1)
  have up : (n : ℚ) / d < (2 : ℚ) ^ ((log2 n : Int) - (log2 d : Int) + 1) := by
    rw [div_lt_iff₀ hdq]
    have e : (2 : ℚ) ^ ((log2 n : Int) - (log2 d : Int) + 1) * (2 : ℚ) ^ (log2 d : Int) =
        (2 : ℚ) ^ ((log2 n : Int) + 1) := by
      rw [← zpow_add₀ h2]; congr 1; ring
    calc (n : ℚ) < (2 : ℚ) ^ ((log2 n : Int) + 1) := qn2
      _ = (2 : ℚ) ^ ((log2 n : Int) - (log2 d : Int) + 1) * (2 : ℚ) ^ (log2 d : Int) := e.symm
      _ ≤ (2 : ℚ) ^ ((log2 n : Int) - (log2 d : Int) + 1) * d :=
        mul_le_mul_of_nonneg_left qd1 (le_of_lt (two_zpow_pos _))
  have lo : (2 : ℚ) ^ ((log2 n : Int) - (log2 d : Int) - 1) ≤ (n : ℚ) / d := by
    rw [le_div_iff₀ hdq]
    have e : (2 : ℚ) ^ ((log2 n : Int) - (log2 d : Int) - 1) * (2 : ℚ) ^ ((log2 d : Int) + 1) =
        (2 : ℚ) ^ (log2 n : Int) := by
      rw [← zpow_add₀ h2]; congr 1; ring
    calc (2 : ℚ) ^ ((log2 n : Int) - (log2 d : Int) - 1) * d
        ≤ (2 : ℚ) ^ ((log2 n : Int) - (log2 d : Int) - 1) * (2 : ℚ) ^ ((log2 d : Int) + 1) :=
          mul_le_mul_of_nonneg_left (le_of_lt qd2) (le_of_lt (two_zpow_pos _))
      _ = (2 : ℚ) ^ (log2 n : Int) := e
      _ ≤ n := qn1
  -- the test compares the quotient with 2 ^ k0
  have test : (if 0 ≤ (log2 n : Int) - (log2 d : Int)
        then d * 2 ^ ((log2 n : Int) - (log2 d : Int)).toNat ≤ n
        else d ≤ n * 2 ^ (-((log2 n : Int) - (log2 d : Int))).toNat) ↔
      (2 : ℚ) ^ ((log2 n : Int) - (log2 d : Int)) ≤ (n : ℚ) / d := by
    by_cases hk : 0 ≤ (log2 n : Int) - (log2 d : Int)
    · rw [if_pos hk, le_div_iff₀ hdq, ← two_zpow_toNat _ hk]
      constructor
      · intro h
        have : ((d * 2 ^ ((log2 n : Int) - (log2 d : Int)).toNat : Nat) : ℚ) ≤ n := by
          exact_mod_cast h
        rw [Nat.cast_mul] at this
        linarith
      · intro h
        have : ((d * 2 ^ ((log2 n : Int) - (log2 d : Int)).toNat : Nat) : ℚ) ≤ n := by
          rw [Nat.cast_mul]
          linarith
        exact_mod_cast this
    · rw [if_neg hk, le_div_iff₀ hdq]
      have hk2 : 0 ≤ -((log2 n : Int) - (log2 d : Int)) := by omega
      have e : (2 : ℚ) ^ ((log2 n : Int) - (log2 d : Int)) =
          1 / ((2 ^ (-((log2 n : Int) - (log2 d : Int))).toNat : Nat) : ℚ) := by
        rw [two_zpow_toNat _ hk2, zpow_neg, one_div, inv_inv]
      have hp : (0 : ℚ) < ((2 ^ (-((log2 n : Int) - (log2 d : Int))).toNat : Nat) : ℚ) := by
        rw [two_zpow_toNat _ hk2]; exact two_zpow_pos _
      rw [e, one_div, inv_mul_le_iff₀ hp]
      constructor
      · intro h
        have : ((d : Nat) : ℚ) ≤ ((n * 2 ^ (-((log2 n : Int) - (log2 d : Int))).toNat : Nat) : ℚ) := by
          exact_mod_cast h
        rw [Nat.cast_mul] at this
        linarith
      · intro h
        have : ((d : Nat) : ℚ) ≤ ((n * 2 ^ (-((log2 n : Int) - (log2 d : Int))).toNat : Nat) : ℚ) := by
          rw [Nat.cast_mul]
          linarith
        exact_mod_cast this
  unfold binade
  simp only
  by_cases hc : (if 0 ≤ (log2 n : Int) - (log2 d : Int)
        then d * 2 ^ ((log2 n : Int) - (log2 d : Int)).toNat ≤ n
        else d ≤ n * 2 ^ (-((log2 n : Int) - (log2 d : Int))).toNat)
  · rw [if_pos hc]
    exact ⟨test.1 hc, up⟩
  · rw [if_neg hc]
    refine ⟨lo, ?_⟩
    have : (log2 n : Int) - (log2 d : Int) - 1 + 1 = (log2 n : Int) - (log2 d : Int) := by ring
    rw [this]
    exact lt_of_not_le (fun h => hc (test.2 h))

theorem nearest_spec (n1 d1 : Nat) (hd : 0 < d1) :
    |((nearest n1 d1 : Nat) : ℚ) - (n1 : ℚ) / d1| ≤ 1 / 2 := by
  have hdq : (0 : ℚ) < d1 := by exact_mod_cast hd
  have hdiv : (n1 : ℚ) / d1 = ((n1 / d1 : Nat) : ℚ) + ((n1 % d1 : Nat) : ℚ) / d1 := by
    have h := Nat.div_add_mod n1 d1
    have hq : (n1 : ℚ) = (d1 : ℚ) * ((n1 / d1 : Nat) : ℚ) + ((n1 % d1 : Nat) : ℚ) := by
      exact_mod_cast h.symm
    conv_lhs => rw [hq]
    field_simp
    ring
  have hr : n1 % d1 < d1 := Nat.mod_lt _ hd
  have hrq : ((n1 % d1 : Nat) : ℚ) < d1 := by exact_mod_cast hr
  have hr0 : (0 : ℚ) ≤ ((n1 % d1 : Nat) : ℚ) := Nat.cast_nonneg _
  have low : 2 * (n1 % d1) ≤ d1 →
      |((n1 / d1 : Nat) : ℚ) - (n1 : ℚ) / d1| ≤ 1 / 2 := by
    intro h
    have hq : (2 : ℚ) * ((n1 % d1 : Nat) : ℚ) ≤ d1 := by exact_mod_cast h
    rw [hdiv, abs_le]
    have h1 : ((n1 % d1 : Nat) : ℚ) / d1 ≤ 1 / 2 := by
      rw [div_le_iff₀ hdq]; linarith
    have h0 : 0 ≤ ((n1 % d1 : Nat) : ℚ) / d1 := div_nonneg hr0 (le_of_lt hdq)
    constructor <;> linarith
  have high : d1 ≤ 2 * (n1 % d1) →
      |((n1 / d1 + 1 : Nat) : ℚ) - (n1 : ℚ) / d1| ≤ 1 / 2 := by
    intro h
    have hq : (d1 : ℚ) ≤ (2 : ℚ) * ((n1 % d1 : Nat) : ℚ) := by exact_mod_cast h
    rw [hdiv, abs_le]
    have h1 : 1 / 2 ≤ ((n1 % d1 : Nat) : ℚ) / d1 := by
      rw [le_div_iff₀ hdq]; linarith
    have h0 : ((n1 % d1 : Nat) : ℚ) / d1 ≤ 1 := by
      rw [div_le_iff₀ hdq]; linarith
    push_cast
    constructor <;> linarith
  unfold nearest
  simp only
  by_cases c1 : 2 * (n1 % d1) < d1
  · rw [if_pos c1]
    exact low (by omega)
  · rw [if_neg c1]
    by_cases c2 : d1 < 2 * (n1 % d1)
    · rw [if_pos c2]
      exact high (by omega)
    · rw [if_neg c2]
      by_cases c3 : n1 / d1 % 2 = 0
      · rw [if_pos c3]
        exact low (by omega)
      · rw [if_neg c3]
        exact high (by omega)

theorem round_unfold (neg : Bool) (n d : Nat) (e : Int) :
    round neg n d e =
      if n = 0 then fin 0 0
      else if nearest
          (if 0 ≤ e - (max (binade n d + e) (-1022) - 52)
            then n * 2 ^ (e - (max (binade n d + e) (-1022) - 52)).toNat else n)
          (if 0 ≤ e - (max (binade n d + e) (-1022) - 52)
            then d else d * 2 ^ (-(e - (max (binade n d + e) (-1022) - 52))).toNat) = 0
        then fin 0 0
      else if 1024 ≤ (log2 (nearest
          (if 0 ≤ e - (max (binade n d + e) (-1022) - 52)
            then n * 2 ^ (e - (max (binade n d + e) (-1022) - 52)).toNat else n)
          (if 0 ≤ e - (max (binade n d + e) (-1022) - 52)
            then d else d * 2 ^ (-(e - (max (binade n d + e) (-1022) - 52))).toNat)) : Int) +
            (max (binade n d + e) (-1022) - 52)
        then inf neg
      else
        fin (if neg then -((lowest (log2 (nearest
          (if 0 ≤ e - (max (binade n d + e) (-1022) - 52)
            then n * 2 ^ (e - (max (binade n d + e) (-1022) - 52)).toNat else n)
          (if 0 ≤ e - (max (binade n d + e) (-1022) - 52)
            then d else d * 2 ^ (-(e - (max (binade n d + e) (-1022) - 52))).toNat)) + 1)
            (nearest
          (if 0 ≤ e - (max (binade n d + e) (-1022) - 52)
            then n * 2 ^ (e - (max (binade n d + e) (-1022) - 52)).toNat else n)
          (if 0 ≤ e - (max (binade n d + e) (-1022) - 52)
            then d else d * 2 ^ (-(e - (max (binade n d + e) (-1022) - 52))).toNat))
            (max (binade n d + e) (-1022) - 52)).1 : Int)
          else ((lowest (log2 (nearest
          (if 0 ≤ e - (max (binade n d + e) (-1022) - 52)
            then n * 2 ^ (e - (max (binade n d + e) (-1022) - 52)).toNat else n)
          (if 0 ≤ e - (max (binade n d + e) (-1022) - 52)
            then d else d * 2 ^ (-(e - (max (binade n d + e) (-1022) - 52))).toNat)) + 1)
            (nearest
          (if 0 ≤ e - (max (binade n d + e) (-1022) - 52)
            then n * 2 ^ (e - (max (binade n d + e) (-1022) - 52)).toNat else n)
          (if 0 ≤ e - (max (binade n d + e) (-1022) - 52)
            then d else d * 2 ^ (-(e - (max (binade n d + e) (-1022) - 52))).toNat))
            (max (binade n d + e) (-1022) - 52)).1 : Int))
          (lowest (log2 (nearest
          (if 0 ≤ e - (max (binade n d + e) (-1022) - 52)
            then n * 2 ^ (e - (max (binade n d + e) (-1022) - 52)).toNat else n)
          (if 0 ≤ e - (max (binade n d + e) (-1022) - 52)
            then d else d * 2 ^ (-(e - (max (binade n d + e) (-1022) - 52))).toNat)) + 1)
            (nearest
          (if 0 ≤ e - (max (binade n d + e) (-1022) - 52)
            then n * 2 ^ (e - (max (binade n d + e) (-1022) - 52)).toNat else n)
          (if 0 ≤ e - (max (binade n d + e) (-1022) - 52)
            then d else d * 2 ^ (-(e - (max (binade n d + e) (-1022) - 52))).toNat))
            (max (binade n d + e) (-1022) - 52)).2 := by
  rfl

theorem round_zero (neg : Bool) (d : Nat) (e : Int) : round neg 0 d e = fin 0 0 := by
  rw [round_unfold, if_pos rfl]

/-- In the normal range `round` gives a finite number within half a unit in the
last place of the exact value, with the sign asked for. -/
theorem round_spec (neg : Bool) (n d : Nat) (e : Int) (hn : 0 < n) (hd : 0 < d)
    (hlo : (2 : ℚ) ^ (-1022 : Int) ≤ (n : ℚ) / d * (2 : ℚ) ^ e)
    (hhi : (n : ℚ) / d * (2 : ℚ) ^ e < (2 : ℚ) ^ (1023 : Int)) :
    ∃ (m : Nat) (e' : Int), round neg n d e = fin (if neg then -(m : Int) else (m : Int)) e' ∧
      0 < m ∧
      |(m : ℚ) * (2 : ℚ) ^ e' - (n : ℚ) / d * (2 : ℚ) ^ e| ≤
        (n : ℚ) / d * (2 : ℚ) ^ e / 2 ^ 53 ∧
      ∀ L : Int, (2 : ℚ) ^ L ≤ (n : ℚ) / d * (2 : ℚ) ^ e → L - 52 ≤ e' := by
  obtain ⟨b1, b2⟩ := binade_spec n d hn hd
  have h2 : (2 : ℚ) ≠ 0 := by norm_num
  have h12 : (1 : ℚ) < 2 := by norm_num
  have hx1 : (2 : ℚ) ^ (binade n d + e) ≤ (n : ℚ) / d * (2 : ℚ) ^ e := by
    rw [zpow_add₀ h2]
    exact mul_le_mul_of_nonneg_right b1 (le_of_lt (two_zpow_pos e))
  have hx2 : (n : ℚ) / d * (2 : ℚ) ^ e < (2 : ℚ) ^ (binade n d + e + 1) := by
    have : binade n d + e + 1 = (binade n d + 1) + e := by ring
    rw [this, zpow_add₀ h2]
    exact mul_lt_mul_of_pos_right b2 (two_zpow_pos e)
  have hk1 : -1022 ≤ binade n d + e := by
    have := lt_of_le_of_lt hlo hx2
    rw [zpow_lt_zpow_iff_right₀ h12] at this
    omega
  have hk2 : binade n d + e ≤ 1022 := by
    have := lt_of_le_of_lt hx1 hhi
    rw [zpow_lt_zpow_iff_right₀ h12] at this
    omega
  have htop : max (binade n d + e) (-1022) = binade n d + e := max_eq_left hk1
  rw [round_unfold, if_neg (by omega : ¬ n = 0), htop]
  have hs : e - (binade n d + e - 52) = 52 - binade n d := by ring
  rw [hs]
  generalize binade n d = k at *
  have hdq : (0 : ℚ) < d := by exact_mod_cast hd
  have key : ∃ n1 d1 : Nat, (if 0 ≤ 52 - k then n * 2 ^ (52 - k).toNat else n) = n1 ∧
      (if 0 ≤ 52 - k then d else d * 2 ^ (-(52 - k)).toNat) = d1 ∧ 0 < d1 ∧
      (n1 : ℚ) / d1 = (n : ℚ) / d * (2 : ℚ) ^ (52 - k) := by
    by_cases hs0 : 0 ≤ 52 - k
    · refine ⟨_, _, rfl, rfl, ?_, ?_⟩
      · rw [if_pos hs0]; exact hd
      · rw [if_pos hs0, if_pos hs0, Nat.cast_mul, two_zpow_toNat _ hs0]
        ring
    · refine ⟨_, _, rfl, rfl, ?_, ?_⟩
      · rw [if_neg hs0]
        exact Nat.mul_pos hd (Nat.pow_pos (by norm_num))
      · have hs1 : 0 ≤ -(52 - k) := by omega
        rw [if_neg hs0, if_neg hs0, Nat.cast_mul, two_zpow_toNat _ hs1, zpow_neg]
        field_simp
  obtain ⟨n1, d1, e1, e2, hd1, hy⟩ := key
  rw [e1, e2]
  have hm := nearest_spec n1 d1 hd1
  rw [hy] at hm
  have hy1 : (4503599627370496 : ℚ) ≤ (n : ℚ) / d * (2 : ℚ) ^ (52 - k) := by
    have e52 : (2 : ℚ) ^ k * (2 : ℚ) ^ (52 - k) = 4503599627370496 := by
      rw [← zpow_add₀ h2]
      have : k + (52 - k) = (52 : Int) := by ring
      rw [this]
      norm_num
    rw [← e52]
    exact mul_le_mul_of_nonneg_right b1 (le_of_lt (two_zpow_pos _))
  have hy2 : (n : ℚ) / d * (2 : ℚ) ^ (52 - k) < 9007199254740992 := by
    have e53 : (2 : ℚ) ^ (k + 1) * (2 : ℚ) ^ (52 - k) = 9007199254740992 := by
      rw [← zpow_add₀ h2]
      have : k + 1 + (52 - k) = (53 : Int) := by ring
      rw [this]
      norm_num
    rw [← e53]
    exact mul_lt_mul_of_pos_right b2 (two_zpow_pos _)
  rw [abs_le] at hm
  have hm1 : 4503599627370496 ≤ nearest n1 d1 := by
    by_contra hc
    have : nearest n1 d1 ≤ 4503599627370495 := by omega
    have : ((nearest n1 d1 : Nat) : ℚ) ≤ 4503599627370495 := by exact_mod_cast this
    linarith [hm.1]
  have hm2 : nearest n1 d1 ≤ 9007199254740992 := by
    by_contra hc
    have : 9007199254740993 ≤ nearest n1 d1 := by omega
    have : (9007199254740993 : ℚ) ≤ ((nearest n1 d1 : Nat) : ℚ) := by exact_mod_cast this
    linarith [hm.2]
  generalize nearest n1 d1 = m at *
  have hmpos : 0 < m := by omega
  have hlog : log2 m ≤ 53 := by
    by_contra hc
    have h54 : 54 ≤ log2 m := by omega
    have hp := Nat.pow_le_pow_right (by norm_num : 0 < 2) h54
    have := (log2_spec m hmpos).1
    norm_num at hp
    omega
  rw [if_neg (by omega : ¬ m = 0), if_neg (by omega : ¬ 1024 ≤ (log2 m : Int) + (k + e - 52))]
  obtain ⟨a, b, c⟩ := lowest_spec (log2 m + 1) m (k + e - 52) hmpos
  refine ⟨_, _, rfl, a, ?_, ?_⟩
  · rw [c]
    have hG := two_zpow_pos (k + e - 52)
    have hxG : (n : ℚ) / d * (2 : ℚ) ^ e =
        (n : ℚ) / d * (2 : ℚ) ^ (52 - k) * (2 : ℚ) ^ (k + e - 52) := by
      rw [mul_assoc, ← zpow_add₀ h2]
      congr 2
      ring
    have hke : (2 : ℚ) ^ (k + e) = (2 : ℚ) ^ (k + e - 52) * 4503599627370496 := by
      have : k + e = (k + e - 52) + (52 : Int) := by ring
      conv_lhs => rw [this, zpow_add₀ h2]
      norm_num
    have hxlow : (2 : ℚ) ^ (k + e - 52) * 4503599627370496 ≤ (n : ℚ) / d * (2 : ℚ) ^ e := by
      rw [← hke]; exact hx1
    have hfac : (m : ℚ) * (2 : ℚ) ^ (k + e - 52) - (n : ℚ) / d * (2 : ℚ) ^ e =
        ((m : ℚ) - (n : ℚ) / d * (2 : ℚ) ^ (52 - k)) * (2 : ℚ) ^ (k + e - 52) := by
      rw [hxG]; ring
    rw [hfac, abs_mul, abs_of_pos hG]
    have habs : |(m : ℚ) - (n : ℚ) / d * (2 : ℚ) ^ (52 - k)| ≤ 1 / 2 := abs_le.2 hm
    have h53 : ((2 : ℚ) ^ 53) = 9007199254740992 := by norm_num
    rw [h53, le_div_iff₀ (by norm_num)]
    calc |(m : ℚ) - (n : ℚ) / d * (2 : ℚ) ^ (52 - k)| * (2 : ℚ) ^ (k + e - 52) * 9007199254740992
        ≤ 1 / 2 * (2 : ℚ) ^ (k + e - 52) * 9007199254740992 := by
          apply mul_le_mul_of_nonneg_right _ (by norm_num)
          exact mul_le_mul_of_nonneg_right habs (le_of_lt hG)
      _ = (2 : ℚ) ^ (k + e - 52) * 4503599627370496 := by ring
      _ ≤ (n : ℚ) / d * (2 : ℚ) ^ e := hxlow
  · intro L hL
    have := lt_of_le_of_lt hL hx2
    rw [zpow_lt_zpow_iff_right₀ h12] at this
    omega

/-- The rounding of the exact value `z / d * 2 ^ e`, of either sign. -/
theorem round_signed (z : Int) (d : Nat) (e : Int) (neg : Bool)
    (hneg : z ≠ 0 → neg = decide (z < 0)) (hd : 0 < d) (L : Int) (hL : -1022 ≤ L)
    (hlo : z ≠ 0 → (2 : ℚ) ^ L ≤ |(z : ℚ) / d * (2 : ℚ) ^ e|)
    (hhi : |(z : ℚ) / d * (2 : ℚ) ^ e| < (2 : ℚ) ^ (1023 : Int)) :
    ∃ (m : Int) (e' : Int), round neg z.natAbs d e = fin m e' ∧
      |(m : ℚ) * (2 : ℚ) ^ e' - (z : ℚ) / d * (2 : ℚ) ^ e| ≤
        |(z : ℚ) / d * (2 : ℚ) ^ e| / 2 ^ 53 ∧
      min 0 (L - 52) ≤ e' := by
  have hdq : (0 : ℚ) < d := by exact_mod_cast hd
  have hE := two_zpow_pos e
  by_cases hz : z = 0
  · subst hz
    refine ⟨0, 0, round_zero neg d e, ?_, min_le_left _ _⟩
    simp
  · have hnat : (z.natAbs : ℚ) = |(z : ℚ)| := by
      rw [Nat.cast_natAbs, Int.cast_abs]
    have habs : |(z : ℚ) / d * (2 : ℚ) ^ e| = (z.natAbs : ℚ) / d * (2 : ℚ) ^ e := by
      rw [abs_mul, abs_div, abs_of_pos hE, abs_of_pos hdq, hnat]
    rw [habs] at hhi hlo ⊢
    have hlo2 : (2 : ℚ) ^ (-1022 : Int) ≤ (z.natAbs : ℚ) / d * (2 : ℚ) ^ e :=
      le_trans (zpow_le_zpow_right₀ (by norm_num) hL) (hlo hz)
    obtain ⟨m, e', h1, _, h3, h4⟩ :=
      round_spec neg z.natAbs d e (Int.natAbs_pos.2 hz) hd hlo2 hhi
    refine ⟨_, e', h1, ?_, le_trans (min_le_right _ _) (h4 L (hlo hz))⟩
    rw [hneg hz]
    by_cases hs : z < 0
    · have hzq : (z : ℚ) = -(z.natAbs : ℚ) := by
        rw [hnat, abs_of_neg (by exact_mod_cast hs)]; ring
      rw [decide_eq_true hs, if_pos rfl, hzq]
      have : ((-(m : Int) : Int) : ℚ) * (2 : ℚ) ^ e' - -(z.natAbs : ℚ) / d * (2 : ℚ) ^ e =
          -((m : ℚ) * (2 : ℚ) ^ e' - (z.natAbs : ℚ) / d * (2 : ℚ) ^ e) := by
        push_cast; ring
      rw [this, abs_neg]
      simpa using h3
    · have hzq : (z : ℚ) = (z.natAbs : ℚ) := by
        rw [hnat, abs_of_nonneg (by exact_mod_cast (not_lt.1 hs))]
      rw [decide_eq_false hs, hzq]
      simpa using h3

theorem one_le_abs_intCast (z : Int) (hz : z ≠ 0) : (1 : ℚ) ≤ |(z : ℚ)| := by
  have h : (1 : Int) ≤ |z| := Int.one_le_abs hz
  have : ((1 : Int) : ℚ) ≤ ((|z| : Int) : ℚ) := by exact_mod_cast h
  rw [Int.cast_abs] at this
  simpa using this

/-- The conversion of an unsigned 64-bit integer is within half a unit in the
last place of it. -/
theorem ofNat_spec (n : Nat) (hn : n < 18446744073709551616) :
    ∃ (m : Int) (e : Int), ofNat n = fin m e ∧
      |(m : ℚ) * (2 : ℚ) ^ e - (n : ℚ)| ≤ |(n : ℚ)| / 2 ^ 53 ∧ -52 ≤ e := by
  have hq : (n : ℚ) < 18446744073709551616 := by exact_mod_cast hn
  have h0 : (0 : ℚ) ≤ n := Nat.cast_nonneg n
  have hval : ((n : Int) : ℚ) / ((1 : Nat) : ℚ) * (2 : ℚ) ^ (0 : Int) = (n : ℚ) := by simp
  have h := round_signed (n : Int) 1 0 false
    (fun hz => by
      have : ¬ ((n : Int) < 0) := by omega
      rw [decide_eq_false this])
    (by norm_num) 0 (by norm_num)
    (fun hz => by
      rw [hval]
      have := one_le_abs_intCast (n : Int) hz
      simpa using this)
    (by
      rw [hval, abs_of_nonneg h0]
      have : (18446744073709551616 : ℚ) < (2 : ℚ) ^ (1023 : Int) := by norm_num
      linarith)
  rw [hval, Int.natAbs_ofNat] at h
  obtain ⟨m, e, h1, h2, h3⟩ := h
  exact ⟨m, e, h1, h2, by simpa using h3⟩

/-- The conversion of a signed 64-bit integer is within half a unit in the last
place of it. -/
theorem ofInt_spec (z : Int) (hz : |(z : ℚ)| < 18446744073709551616) :
    ∃ (m : Int) (e : Int), ofInt z = fin m e ∧
      |(m : ℚ) * (2 : ℚ) ^ e - (z : ℚ)| ≤ |(z : ℚ)| / 2 ^ 53 ∧ -52 ≤ e := by
  have hval : (z : ℚ) / ((1 : Nat) : ℚ) * (2 : ℚ) ^ (0 : Int) = (z : ℚ) := by simp
  have h := round_signed z 1 0 (decide (z < 0)) (fun _ => rfl)
    (by norm_num) 0 (by norm_num)
    (fun h0 => by
      rw [hval]
      have := one_le_abs_intCast z h0
      simpa using this)
    (by
      rw [hval]
      have : (18446744073709551616 : ℚ) < (2 : ℚ) ^ (1023 : Int) := by norm_num
      linarith)
  rw [hval] at h
  obtain ⟨m, e, h1, h2, h3⟩ := h
  exact ⟨m, e, h1, h2, by simpa using h3⟩

/-- The quotient of two finite numbers, the divisor not zero, is within half a
unit in the last place of the exact quotient. -/
theorem div_spec (a ea b eb : Int) (hb : b ≠ 0) (L : Int) (hL : -1022 ≤ L)
    (hlo : a ≠ 0 → (2 : ℚ) ^ L ≤ |(a : ℚ) * (2 : ℚ) ^ ea / ((b : ℚ) * (2 : ℚ) ^ eb)|)
    (hhi : |(a : ℚ) * (2 : ℚ) ^ ea / ((b : ℚ) * (2 : ℚ) ^ eb)| < (2 : ℚ) ^ (1023 : Int)) :
    ∃ (m : Int) (e : Int), div (fin a ea) (fin b eb) = fin m e ∧
      |(m : ℚ) * (2 : ℚ) ^ e - (a : ℚ) * (2 : ℚ) ^ ea / ((b : ℚ) * (2 : ℚ) ^ eb)| ≤
        |(a : ℚ) * (2 : ℚ) ^ ea / ((b : ℚ) * (2 : ℚ) ^ eb)| / 2 ^ 53 ∧
      min 0 (L - 52) ≤ e := by
  have h2 : (2 : ℚ) ≠ 0 := by norm_num
  have hdef : div (fin a ea) (fin b eb) =
      round (decide (a < 0) != decide (b < 0)) a.natAbs b.natAbs (ea - eb) := by
    simp only [div, if_neg hb]
  rw [hdef]
  have hbq : (b : ℚ) ≠ 0 := by exact_mod_cast hb
  have hEb := two_zpow_pos eb
  have hnat : (b.natAbs : ℚ) = |(b : ℚ)| := by rw [Nat.cast_natAbs, Int.cast_abs]
  by_cases hs : b < 0
  · have hd : ((b.natAbs : Nat) : ℚ) = -(b : ℚ) := by
      rw [hnat, abs_of_neg (by exact_mod_cast hs)]
    have hval : (((-a : Int) : Int) : ℚ) / ((b.natAbs : Nat) : ℚ) * (2 : ℚ) ^ (ea - eb) =
        (a : ℚ) * (2 : ℚ) ^ ea / ((b : ℚ) * (2 : ℚ) ^ eb) := by
      rw [hd, zpow_sub₀ h2]
      push_cast
      field_simp
    have h := round_signed (-a) b.natAbs (ea - eb) (decide (a < 0) != decide (b < 0))
      (fun hz => by
        rw [decide_eq_true hs]
        by_cases ha : a < 0
        · have : ¬ (-a < 0) := by omega
          rw [decide_eq_true ha, decide_eq_false this]; rfl
        · have : -a < 0 := by omega
          rw [decide_eq_false ha, decide_eq_true this]; rfl)
      (Int.natAbs_pos.2 hb) L hL
      (fun hz => by rw [hval]; exact hlo (by omega))
      (by rw [hval]; exact hhi)
    rw [hval, Int.natAbs_neg] at h
    exact h
  · have hpos : 0 < b := by omega
    have hd : ((b.natAbs : Nat) : ℚ) = (b : ℚ) := by
      rw [hnat, abs_of_pos (by exact_mod_cast hpos)]
    have hval : (a : ℚ) / ((b.natAbs : Nat) : ℚ) * (2 : ℚ) ^ (ea - eb) =
        (a : ℚ) * (2 : ℚ) ^ ea / ((b : ℚ) * (2 : ℚ) ^ eb) := by
      rw [hd, zpow_sub₀ h2]
      field_simp
    have h := round_signed a b.natAbs (ea - eb) (decide (a < 0) != decide (b < 0))
      (fun hz => by rw [decide_eq_false hs]; simp)
      (Int.natAbs_pos.2 hb) L hL
      (fun hz => by rw [hval]; exact hlo hz)
      (by rw [hval]; exact hhi)
    rw [hval] at h
    exact h

/-- The difference of two finite numbers is within half a unit in the last
place of the exact difference. -/
theorem sub_spec (a ea b eb : Int) (hE : -1022 ≤ min ea eb)
    (hhi : |(a : ℚ) * (2 : ℚ) ^ ea - (b : ℚ) * (2 : ℚ) ^ eb| < (2 : ℚ) ^ (1023 : Int)) :
    ∃ (m : Int) (e : Int), sub (fin a ea) (fin b eb) = fin m e ∧
      |(m : ℚ) * (2 : ℚ) ^ e - ((a : ℚ) * (2 : ℚ) ^ ea - (b : ℚ) * (2 : ℚ) ^ eb)| ≤
        |(a : ℚ) * (2 : ℚ) ^ ea - (b : ℚ) * (2 : ℚ) ^ eb| / 2 ^ 53 ∧
      min 0 (min ea eb - 52) ≤ e := by
  have h2 : (2 : ℚ) ≠ 0 := by norm_num
  have hdef : sub (fin a ea) (fin b eb) =
      round (decide (a * 2 ^ (ea - min ea eb).toNat - b * 2 ^ (eb - min ea eb).toNat < 0))
        (a * 2 ^ (ea - min ea eb).toNat - b * 2 ^ (eb - min ea eb).toNat).natAbs 1
        (min ea eb) := rfl
  rw [hdef]
  have hpa : ((2 : ℚ) ^ (ea - min ea eb).toNat) * (2 : ℚ) ^ (min ea eb) = (2 : ℚ) ^ ea := by
    have h0 : 0 ≤ ea - min ea eb := by have := min_le_left ea eb; omega
    have := two_zpow_toNat (ea - min ea eb) h0
    rw [Nat.cast_pow, Nat.cast_ofNat] at this
    rw [this, ← zpow_add₀ h2]
    congr 1; ring
  have hpb : ((2 : ℚ) ^ (eb - min ea eb).toNat) * (2 : ℚ) ^ (min ea eb) = (2 : ℚ) ^ eb := by
    have h0 : 0 ≤ eb - min ea eb := by have := min_le_right ea eb; omega
    have := two_zpow_toNat (eb - min ea eb) h0
    rw [Nat.cast_pow, Nat.cast_ofNat] at this
    rw [this, ← zpow_add₀ h2]
    congr 1; ring
  have hval : ((a * 2 ^ (ea - min ea eb).toNat - b * 2 ^ (eb - min ea eb).toNat : Int) : ℚ) /
      ((1 : Nat) : ℚ) * (2 : ℚ) ^ (min ea eb) =
      (a : ℚ) * (2 : ℚ) ^ ea - (b : ℚ) * (2 : ℚ) ^ eb := by
    push_cast
    rw [div_one, sub_mul, mul_assoc, mul_assoc, hpa, hpb]
  have h := round_signed (a * 2 ^ (ea - min ea eb).toNat - b * 2 ^ (eb - min ea eb).toNat) 1
    (min ea eb) _ (fun _ => rfl) (by norm_num) (min ea eb) hE
    (fun hz => by
      have h1 := one_le_abs_intCast _ hz
      rw [abs_mul, abs_div, abs_of_pos (two_zpow_pos (min ea eb))]
      simp only [Nat.cast_one, abs_one, div_one]
      have := mul_le_mul_of_nonneg_right h1 (le_of_lt (two_zpow_pos (min ea eb)))
      linarith)
    (by rw [hval]; exact hhi)
  rw [hval] at h
  exact h

/-- The product of two finite numbers is within half a unit in the last place
of the exact product. -/
theorem mul_spec (a ea b eb : Int) (hE : -1022 ≤ ea + eb)
    (hhi : |(a : ℚ) * (2 : ℚ) ^ ea * ((b : ℚ) * (2 : ℚ) ^ eb)| < (2 : ℚ) ^ (1023 : Int)) :
    ∃ (m : Int) (e : Int), mul (fin a ea) (fin b eb) = fin m e ∧
      |(m : ℚ) * (2 : ℚ) ^ e - (a : ℚ) * (2 : ℚ) ^ ea * ((b : ℚ) * (2 : ℚ) ^ eb)| ≤
        |(a : ℚ) * (2 : ℚ) ^ ea * ((b : ℚ) * (2 : ℚ) ^ eb)| / 2 ^ 53 ∧
      min 0 (ea + eb - 52) ≤ e := by
  have h2 : (2 : ℚ) ≠ 0 := by norm_num
  have hdef : mul (fin a ea) (fin b eb) =
      round (decide (a * b < 0)) (a * b).natAbs 1 (ea + eb) := rfl
  rw [hdef]
  have hval : ((a * b : Int) : ℚ) / ((1 : Nat) : ℚ) * (2 : ℚ) ^ (ea + eb) =
      (a : ℚ) * (2 : ℚ) ^ ea * ((b : ℚ) * (2 : ℚ) ^ eb) := by
    push_cast
    rw [div_one, zpow_add₀ h2]
    ring
  have h := round_signed (a * b) 1 (ea + eb) _ (fun _ => rfl) (by norm_num) (ea + eb) hE
    (fun hz => by
      have h1 := one_le_abs_intCast _ hz
      rw [abs_mul, abs_div, abs_of_pos (two_zpow_pos (ea + eb))]
      simp only [Nat.cast_one, abs_one, div_one]
      have := mul_le_mul_of_nonneg_right h1 (le_of_lt (two_zpow_pos (ea + eb)))
      linarith)
    (by rw [hval]; exact hhi)
  rw [hval] at h
  exact h

end Float64

/-! ## The usage formulas in `float64` and in exact arithmetic -/

namespace Procstats

/-- Five roundings in a row, as in line 72: the conversions of the two deltas,
the quotient, the difference from 1 and the product with 100. -/
theorem usage_chain (A B vA vB vQ vS vV : ℚ) (hA : 0 ≤ A) (hB : 0 < B)
    (h1 : |vA - A| ≤ |A| / 2 ^ 53) (h2 : |vB - B| ≤ |B| / 2 ^ 53)
    (h3 : |vQ - vA / vB| ≤ |vA / vB| / 2 ^ 53)
    (h4 : |vS - (1 - vQ)| ≤ |1 - vQ| / 2 ^ 53)
    (h5 : |vV - vS * 100| ≤ |vS * 100| / 2 ^ 53) :
    |vV - (1 - A / B) * 100| ≤ (1 + A / B) / 2 ^ 43 ∧ |vQ| ≤ 2 * (A / B) ∧
      |vS| ≤ 2 * (1 + A / B) ∧ |vV| ≤ 200 * (1 + A / B) := by
  have e53 : ((2 : ℚ) ^ 53) = 9007199254740992 := by norm_num
  have e43 : ((2 : ℚ) ^ 43) = 8796093022208 := by norm_num
  rw [e53] at h1 h2 h3 h4 h5
  rw [e43]
  rw [abs_of_nonneg hA] at h1
  rw [abs_of_pos hB] at h2
  rw [abs_le] at h1 h2
  have hvB : 0 < vB := by linarith [h2.1]
  have hvA : 0 ≤ vA := by linarith [h1.1]
  have hq0 : 0 ≤ vA / vB := div_nonneg hvA (le_of_lt hvB)
  have hQ0 : 0 ≤ A / B := div_nonneg hA (le_of_lt hB)
  have hQB : A / B * B = A := div_mul_cancel₀ A (ne_of_gt hB)
  have hqB : vA / vB * vB = vA := div_mul_cancel₀ vA (ne_of_gt hvB)
  rw [abs_of_nonneg hq0] at h3
  generalize A / B = Q0 at *
  generalize vA / vB = q at *
  have hq1 : q ≤ Q0 * (1 + 3 / 9007199254740992) := by
    have h := mul_le_mul_of_nonneg_left
      (show B * (1 - 1 / 9007199254740992) ≤ vB by linarith [h2.1])
      (show 0 ≤ Q0 * (1 + 3 / 9007199254740992) by positivity)
    have hgoal : q * vB ≤ Q0 * (1 + 3 / 9007199254740992) * vB := by
      have e : Q0 * (1 + 3 / 9007199254740992) * (B * (1 - 1 / 9007199254740992)) =
          (Q0 * B) * ((1 + 3 / 9007199254740992) * (1 - 1 / 9007199254740992)) := by ring
      rw [e, hQB] at h
      rw [hqB]
      linarith [h1.2]
    exact le_of_mul_le_mul_right hgoal hvB
  have hq2 : Q0 * (1 - 2 / 9007199254740992) ≤ q := by
    have h := mul_le_mul_of_nonneg_left
      (show vB ≤ B * (1 + 1 / 9007199254740992) by linarith [h2.2])
      (show 0 ≤ Q0 * (1 - 2 / 9007199254740992) by
        apply mul_nonneg hQ0; norm_num)
    have hgoal : Q0 * (1 - 2 / 9007199254740992) * vB ≤ q * vB := by
      have e : Q0 * (1 - 2 / 9007199254740992) * (B * (1 + 1 / 9007199254740992)) =
          (Q0 * B) * ((1 - 2 / 9007199254740992) * (1 + 1 / 9007199254740992)) := by ring
      rw [e, hQB] at h
      rw [hqB]
      linarith [h1.1]
    exact le_of_mul_le_mul_right hgoal hvB
  rw [abs_le] at h3
  have hQa : vQ ≤ Q0 * (1 + 5 / 9007199254740992) := by linarith [h3.2]
  have hQb : Q0 * (1 - 5 / 9007199254740992) ≤ vQ := by linarith [h3.1]
  have hvQ0 : 0 ≤ vQ := by linarith
  have h1Q : |1 - vQ| ≤ 2 * (1 + Q0) := by
    rw [abs_le]; constructor <;> linarith
  rw [abs_le] at h4
  have hSa : vS - (1 - Q0) ≤ 7 / 9007199254740992 * (1 + Q0) := by linarith [h4.2]
  have hSb : -(7 / 9007199254740992 * (1 + Q0)) ≤ vS - (1 - Q0) := by linarith [h4.1]
  have hS : |vS| ≤ 2 * (1 + Q0) := by
    rw [abs_le]; constructor <;> linarith
  have hS100 : |vS * 100| ≤ 200 * (1 + Q0) := by
    rw [abs_mul]; norm_num; linarith
  rw [abs_le] at h5
  have hV : |vV - (1 - Q0) * 100| ≤ (1 + Q0) / 8796093022208 := by
    rw [abs_le]; constructor <;> linarith [h5.1, h5.2]
  refine ⟨hV, ?_, hS, ?_⟩
  · rw [abs_of_nonneg hvQ0]; linarith
  · rw [abs_le] at hV ⊢
    constructor <;> linarith [hV.1, hV.2]

theorem abs_le_two_mul (v r : ℚ) (h : |v - r| ≤ |r| / 2 ^ 53) : |v| ≤ 2 * |r| := by
  have e53 : ((2 : ℚ) ^ 53) = 9007199254740992 := by norm_num
  rw [e53] at h
  have h1 : |v| ≤ |v - r| + |r| := by
    have := abs_add (v - r) r
    simpa using this
  have h0 := abs_nonneg r
  linarith

/-- The usage that line 72 computes in `float64` is a finite number, and it
differs from the usage in exact arithmetic by at most `(1 + dI / dT) / 2 ^ 43`. -/
theorem usageOf_usageQ (deltaIdle deltaTotal : Nat) (hI : deltaIdle < 18446744073709551616)
    (hT : deltaTotal < 18446744073709551616) (hT0 : 0 < deltaTotal) :
    ∃ (m : Int) (e : Int), usageOf deltaIdle deltaTotal = Float64.fin m e ∧
      |(m : ℚ) * (2 : ℚ) ^ e - usageQ deltaIdle deltaTotal| ≤
        (1 + (deltaIdle : ℚ) / deltaTotal) / 2 ^ 43 ∧
      |(m : ℚ) * (2 : ℚ) ^ e| ≤ 200 * (1 + (deltaIdle : ℚ) / deltaTotal) ∧ -300 ≤ e := by
  have e53 : ((2 : ℚ) ^ 53) = 9007199254740992 := by norm_num
  have hIq : (deltaIdle : ℚ) < 18446744073709551616 := by exact_mod_cast hI
  have hTq : (deltaTotal : ℚ) < 18446744073709551616 := by exact_mod_cast hT
  have hT1 : (1 : ℚ) ≤ deltaTotal := by exact_mod_cast hT0
  have hI0 : (0 : ℚ) ≤ deltaIdle := Nat.cast_nonneg _
  obtain ⟨a, ea, fA, eA, xA⟩ := Float64.ofNat_spec deltaIdle hI
  obtain ⟨b, eb, fB, eB, xB⟩ := Float64.ofNat_spec deltaTotal hT
  have eA' := eA
  have eB' := eB
  rw [abs_of_nonneg hI0, e53, abs_le] at eA'
  rw [abs_of_nonneg (by linarith : (0 : ℚ) ≤ deltaTotal), e53, abs_le] at eB'
  have hvB1 : (1 : ℚ) / 2 ≤ (b : ℚ) * (2 : ℚ) ^ eb := by linarith [eB'.1]
  have hvB2 : (b : ℚ) * (2 : ℚ) ^ eb ≤ 36893488147419103232 := by linarith [eB'.2]
  have hvA0 : (0 : ℚ) ≤ (a : ℚ) * (2 : ℚ) ^ ea := by linarith [eA'.1]
  have hvA2 : (a : ℚ) * (2 : ℚ) ^ ea ≤ 36893488147419103232 := by linarith [eA'.2]
  have hb : b ≠ 0 := by
    rintro rfl
    simp at hvB1
    linarith
  have hvBpos : (0 : ℚ) < (b : ℚ) * (2 : ℚ) ^ eb := by linarith
  have hq0 : 0 ≤ (a : ℚ) * (2 : ℚ) ^ ea / ((b : ℚ) * (2 : ℚ) ^ eb) :=
    div_nonneg hvA0 (le_of_lt hvBpos)
  have hqhi : (a : ℚ) * (2 : ℚ) ^ ea / ((b : ℚ) * (2 : ℚ) ^ eb) ≤ 73786976294838206464 := by
    rw [div_le_iff₀ hvBpos]
    linarith
  obtain ⟨q, eq, fQ, eQ, xQ⟩ := Float64.div_spec a ea b eb hb (-66) (by norm_num)
    (fun ha => by
      have hI1 : (1 : ℚ) ≤ deltaIdle := by
        by_contra hc
        have h0 : deltaIdle = 0 := by
          by_contra h1
          have : 1 ≤ deltaIdle := by omega
          exact hc (by exact_mod_cast this)
        subst h0
        have hz : (a : ℚ) * (2 : ℚ) ^ ea = 0 := by
          have := eA'.1
          have := eA'.2
          simp only [Nat.cast_zero, zero_div, neg_zero, sub_zero] at *
          linarith
        rcases mul_eq_zero.1 hz with h | h
        · exact ha (by exact_mod_cast h)
        · exact absurd h (ne_of_gt (Float64.two_zpow_pos ea))
      have hvA1 : (1 : ℚ) / 2 ≤ (a : ℚ) * (2 : ℚ) ^ ea := by linarith [eA'.1]
      rw [abs_of_nonneg hq0, le_div_iff₀ hvBpos]
      have e66 : (2 : ℚ) ^ (-66 : Int) = 1 / 73786976294838206464 := by norm_num
      rw [e66]
      linarith)
    (by
      rw [abs_of_nonneg hq0]
      have : (73786976294838206464 : ℚ) < (2 : ℚ) ^ (1023 : Int) := by norm_num
      linarith)
  have xQ' : -118 ≤ eq := by simpa using xQ
  have hvQ := abs_le_two_mul _ _ eQ
  rw [abs_of_nonneg hq0] at hvQ
  obtain ⟨s, es, fS, eS, xS⟩ := Float64.sub_spec 1 0 q eq
    (by
      have : -118 ≤ min 0 eq := le_min (by norm_num) xQ'
      omega)
    (by
      have h1 : |((1 : Int) : ℚ) * (2 : ℚ) ^ (0 : Int) - (q : ℚ) * (2 : ℚ) ^ eq| ≤
          1 + |(q : ℚ) * (2 : ℚ) ^ eq| := by
        have := abs_sub ((1 : ℚ)) ((q : ℚ) * (2 : ℚ) ^ eq)
        simpa using this
      have : (1 + 2 * 73786976294838206464 : ℚ) < (2 : ℚ) ^ (1023 : Int) := by norm_num
      linarith)
  have xS' : -170 ≤ es := by
    have h1 : -118 ≤ min 0 eq := le_min (by norm_num) xQ'
    have h2 : -170 ≤ min 0 (min 0 eq - 52) := le_min (by norm_num) (by omega)
    omega
  simp only [Int.cast_one, zpow_zero, one_mul] at eS
  have hvS := abs_le_two_mul _ _ eS
  have h1Q : |1 - (q : ℚ) * (2 : ℚ) ^ eq| ≤ 1 + 2 * 73786976294838206464 := by
    have := abs_sub ((1 : ℚ)) ((q : ℚ) * (2 : ℚ) ^ eq)
    have h1 : |(1 : ℚ)| = 1 := abs_one
    linarith
  have h100 : ((25 : Int) : ℚ) * (2 : ℚ) ^ (2 : Int) = 100 := by norm_num
  obtain ⟨v, ev, fV, eV, xV⟩ := Float64.mul_spec s es 25 2 (by omega)
    (by
      rw [h100, abs_mul]
      have : |(100 : ℚ)| = 100 := by norm_num
      rw [this]
      have : (2 * (1 + 2 * 73786976294838206464) * 100 : ℚ) < (2 : ℚ) ^ (1023 : Int) := by
        norm_num
      linarith)
  rw [h100] at eV
  have xV' : -300 ≤ ev := by
    have : -300 ≤ min 0 (es + 2 - 52) := le_min (by norm_num) (by omega)
    omega
  have hres : usageOf deltaIdle deltaTotal = Float64.fin v ev := by
    have : usageOf deltaIdle deltaTotal =
        Float64.mul (Float64.sub (Float64.fin 1 0)
          (Float64.div (Float64.ofNat deltaIdle) (Float64.ofNat deltaTotal)))
          (Float64.fin 25 2) := rfl
    rw [this, fA, fB, fQ, fS, fV]
  obtain ⟨c1, _, _, c4⟩ := usage_chain (deltaIdle : ℚ) (deltaTotal : ℚ) _ _ _ _ _ hI0
    (by linarith) eA eB eQ eS eV
  exact ⟨v, ev, hres, c1, c4, xV'⟩

/-- One more rounded product, as in line 204: the usage times the converted
number of processors. -/
theorem pool_chain (X c vV K vK vW : ℚ) (hc : 0 ≤ c) (hK : 0 ≤ K) (hX : |X| ≤ 100 * c)
    (h1 : |vV - X| ≤ c / 2 ^ 43) (h2 : |vK - K| ≤ |K| / 2 ^ 53)
    (h3 : |vW - vV * vK| ≤ |vV * vK| / 2 ^ 53) :
    |vW - X * K| ≤ K * c / 2 ^ 41 ∧ |vV * vK| ≤ 101 * (K * c) := by
  have e53 : ((2 : ℚ) ^ 53) = 9007199254740992 := by norm_num
  have e43 : ((2 : ℚ) ^ 43) = 8796093022208 := by norm_num
  have e41 : ((2 : ℚ) ^ 41) = 2199023255552 := by norm_num
  rw [e53] at h2 h3
  rw [e43] at h1
  rw [e41]
  rw [abs_of_nonneg hK] at h2
  have hvK : |vK| ≤ 2 * K := by
    have := abs_add (vK - K) K
    rw [abs_of_nonneg hK] at this
    have e : vK - K + K = vK := by ring
    rw [e] at this
    linarith
  have hKc : 0 ≤ K * c := mul_nonneg hK hc
  have a1 : |(vV - X) * vK| ≤ c / 8796093022208 * (2 * K) := by
    rw [abs_mul]
    exact mul_le_mul h1 hvK (abs_nonneg _) (by positivity)
  have a2 : |X * (vK - K)| ≤ 100 * c * (K / 9007199254740992) := by
    rw [abs_mul]
    exact mul_le_mul hX h2 (abs_nonneg _) (by positivity)
  have a3 : |vV * vK - X * K| ≤ c / 8796093022208 * (2 * K) +
      100 * c * (K / 9007199254740992) := by
    have e : vV * vK - X * K = (vV - X) * vK + X * (vK - K) := by ring
    rw [e]
    exact le_trans (abs_add _ _) (add_le_add a1 a2)
  have a4 : |X * K| ≤ 100 * c * K := by
    rw [abs_mul, abs_of_nonneg hK]
    exact mul_le_mul_of_nonneg_right hX hK
  have a5 : |vV * vK| ≤ 101 * (K * c) := by
    have := abs_add (vV * vK - X * K) (X * K)
    have e : vV * vK - X * K + X * K = vV * vK := by ring
    rw [e] at this
    linarith
  refine ⟨?_, a5⟩
  have := abs_add (vW - vV * vK) (vV * vK - X * K)
  have e : vW - vV * vK + (vV * vK - X * K) = vW - X * K := by ring
  rw [e] at this
  linarith

/-- The pool value that line 204 computes in `float64` from the sums of a pool
is a finite number, and it differs from the value in exact arithmetic by at most
`k * (1 + sumIdle / sumTotal) / 2 ^ 41`. -/
theorem poolValue_poolUsageQ (sumIdle sumTotal k : Nat) (hI : sumIdle < 18446744073709551616)
    (hT : sumTotal < 18446744073709551616) (hT0 : 0 < sumTotal)
    (hk : k < 18446744073709551616) :
    ∃ (m : Int) (e : Int),
      Float64.mul (usageOf sumIdle sumTotal) (Float64.ofInt (k : Int)) = Float64.fin m e ∧
      |(m : ℚ) * (2 : ℚ) ^ e - poolUsageQ sumIdle sumTotal k| ≤
        (k : ℚ) * (1 + (sumIdle : ℚ) / sumTotal) / 2 ^ 41 := by
  have hIq : (sumIdle : ℚ) < 18446744073709551616 := by exact_mod_cast hI
  have hT1 : (1 : ℚ) ≤ sumTotal := by exact_mod_cast hT0
  have hI0 : (0 : ℚ) ≤ sumIdle := Nat.cast_nonneg _
  have hkq : (k : ℚ) < 18446744073709551616 := by exact_mod_cast hk
  have hk0 : (0 : ℚ) ≤ k := Nat.cast_nonneg _
  have hQ0 : 0 ≤ (sumIdle : ℚ) / sumTotal := div_nonneg hI0 (by linarith)
  have hQhi : (sumIdle : ℚ) / sumTotal ≤ 18446744073709551616 := by
    rw [div_le_iff₀ (by linarith)]
    nlinarith
  obtain ⟨v, ev, fV, eV, bV, xV⟩ := usageOf_usageQ sumIdle sumTotal hI hT hT0
  obtain ⟨kk, ek, fK, eK, xK⟩ := Float64.ofInt_spec (k : Int) (by
    rw [Int.cast_natCast, abs_of_nonneg hk0]
    linarith)
  rw [Int.cast_natCast] at eK
  have hvK := abs_le_two_mul _ _ eK
  rw [abs_of_nonneg hk0] at hvK
  have hprod : |(v : ℚ) * (2 : ℚ) ^ ev * ((kk : ℚ) * (2 : ℚ) ^ ek)| ≤
      200 * (1 + (sumIdle : ℚ) / sumTotal) * (2 * k) := by
    rw [abs_mul]
    exact mul_le_mul bV hvK (abs_nonneg _) (by positivity)
  obtain ⟨w, ew, fW, eW, _⟩ := Float64.mul_spec v ev kk ek (by omega)
    (by
      have h1 : 200 * (1 + (sumIdle : ℚ) / sumTotal) * (2 * k) ≤
          200 * (1 + 18446744073709551616) * (2 * 18446744073709551616) := by
        apply mul_le_mul _ (by linarith) (by positivity) (by positivity)
        linarith
      have : (200 * (1 + 18446744073709551616) * (2 * 18446744073709551616) : ℚ) <
          (2 : ℚ) ^ (1023 : Int) := by norm_num
      linarith)
  refine ⟨w, ew, by rw [fV, fK, fW], ?_⟩
  have hX : |usageQ sumIdle sumTotal| ≤ 100 * (1 + (sumIdle : ℚ) / sumTotal) := by
    unfold usageQ
    rw [abs_le]
    constructor <;> linarith
  have := (pool_chain (usageQ sumIdle sumTotal) (1 + (sumIdle : ℚ) / sumTotal) _ (k : ℚ) _ _
    (by linarith) hk0 hX eV eK eW).1
  exact this

end Procstats

/-! # The claims -/

namespace Podpools

open Strings Strconv Fmt

/-- C1, as amended: for every well-formed processor-set string (comma-separated
tokens, each a canonical decimal `n` or a range `lo-hi` with `lo ≤ hi`) whose range
bounds are below the largest `int`, `resolvePools` returns (with fuel for the
longest range) a text whose split on `,` is exactly the in-order concatenation,
token by token, of `[n]` and `[lo, ..., hi]` in decimal, duplicates kept. In
particular `"0,2-4,7"` splits to `["0","2","3","4","7"]` and `"5"` to `["5"]`. -/
theorem resolvePools_expands_wellFormed :
    (∀ (eng : Engine) (fuel : Nat) (toks : List CpuToken), toks ≠ [] →
      (∀ t ∈ toks, t.wellFormed ∧ t.bound < 9223372036854775807 ∧ t.span < fuel) →
      ∃ cpus, resolvePools eng fuel (cpusetText toks) = some cpus ∧
        Split cpus ',' = (toks.flatMap CpuToken.members).map decimal) ∧
    (∀ (eng : Engine) (fuel : Nat), 2 < fuel →
      ∃ cpus, resolvePools eng fuel "0,2-4,7".toList = some cpus ∧
        Split cpus ',' = ["0".toList, "2".toList, "3".toList, "4".toList, "7".toList]) ∧
    (∀ (eng : Engine) (fuel : Nat), 0 < fuel →
      ∃ cpus, resolvePools eng fuel "5".toList = some cpus ∧ Split cpus ',' = ["5".toList]) := by
  have general : ∀ (eng : Engine) (fuel : Nat) (toks : List CpuToken), toks ≠ [] →
      (∀ t ∈ toks, t.wellFormed ∧ t.bound < 9223372036854775807 ∧ t.span < fuel) →
      ∃ cpus, resolvePools eng fuel (cpusetText toks) = some cpus ∧
        Split cpus ',' = (toks.flatMap CpuToken.members).map decimal := by
    intro eng fuel toks hne h
    exact ⟨_, resolvePools_wellFormed eng fuel toks hne h,
      Split_ids _ (members_flatMap_ne_nil toks hne (fun t ht => (h t ht).1))⟩
  refine ⟨general, ?_, ?_⟩
  · intro eng fuel hf
    have h := general eng fuel [.single 0, .range 2 4, .single 7] (by simp) (by
      intro t ht
      simp only [List.mem_cons, List.mem_singleton, List.not_mem_nil, or_false] at ht
      rcases ht with rfl | rfl | rfl <;>
        simp [CpuToken.wellFormed, CpuToken.bound, CpuToken.span] <;> omega)
    exact h
  · intro eng fuel hf
    have h := general eng fuel [.single 5] (by simp) (by
      intro t ht
      simp only [List.mem_singleton] at ht
      subst ht
      simp [CpuToken.wellFormed, CpuToken.bound, CpuToken.span, hf])
    exact h

/-- C1, witness: the tokens `0`, `2-4`, `7` with fuel 3. -/
theorem resolvePools_expands_wellFormed_witness :
    ([CpuToken.single 0, .range 2 4, .single 7] ≠ [] ∧
      ∀ t ∈ [CpuToken.single 0, .range 2 4, .single 7],
        t.wellFormed ∧ t.bound < 9223372036854775807 ∧ t.span < 3) ∧
    ∃ cpus, resolvePools (fun f _ => f) 3
        (cpusetText [CpuToken.single 0, .range 2 4, .single 7]) = some cpus ∧
      Split cpus ',' =
        ([CpuToken.single 0, .range 2 4, .single 7].flatMap CpuToken.members).map decimal :=
  have hyp : ∀ t ∈ [CpuToken.single 0, .range 2 4, .single 7],
      t.wellFormed ∧ t.bound < 9223372036854775807 ∧ t.span < 3 := by
    intro t ht
    simp only [List.mem_cons, List.mem_singleton, List.not_mem_nil, or_false] at ht
    rcases ht with rfl | rfl | rfl <;>
      simp [CpuToken.wellFormed, CpuToken.bound, CpuToken.span]
  ⟨⟨by simp, hyp⟩,
    resolvePools_expands_wellFormed.1 (fun f _ => f) 3 _ (by simp) hyp⟩

/-- C1, counterexample: `"0-9223372036854775807"` is a well-formed range (`lo ≤ hi`,
both canonical decimals), and on it `resolvePools` returns nothing, whatever the
fuel: the loop condition `j <= end` holds for every `int`. -/
theorem resolvePools_wellFormed_no_result :
    CpuToken.wellFormed (.range 0 9223372036854775807) ∧
    cpusetText [.range 0 9223372036854775807] = "0-9223372036854775807".toList ∧
    ¬ ∃ (eng : Engine) (fuel : Nat) (cpus : GoString),
      resolvePools eng fuel "0-9223372036854775807".toList = some cpus := by
  refine ⟨by simp [CpuToken.wellFormed], by decide, ?_⟩
  rintro ⟨eng, fuel, cpus, h⟩
  rw [resolvePools_unbounded eng fuel] at h
  exact Option.noConfusion h

end Podpools

namespace Procstats

open Strings Strconv

/-- C2: for two consecutive calls of `GetCPUTimeStat` that both return `nil`,
the second is made with `IsGetCPUUsageBegin` true, and after it every
processor `i` has `DeltaIdleTime[i] = CurIdleTime[i] - (idle counter of the
previous sample)` and `DeltaTotalTime[i] = CurTotalTime[i] - (total counter of
the previous sample)`, as unsigned 64-bit values, and
`CPUUsage[i] = (1 - DeltaIdleTime[i] / DeltaTotalTime[i]) * 100` in `float64`
arithmetic (whatever `DeltaTotalTime[i]` is, so also when it is not zero). -/
theorem GetCPUTimeStat_consecutive_deltas (file1 file2 : Except GoError GoString)
    (t0 t1 t2 : CPUTimeStat)
    (h1 : GetCPUTimeStat file1 t0 = (.ok (), t1))
    (h2 : GetCPUTimeStat file2 t1 = (.ok (), t2)) :
    t1.IsGetCPUUsageBegin = true ∧
    ∀ i : Nat, (i : Int) < t1.CPUNumber →
      ∃ prevIdle prevTotal curIdle curTotal deltaIdle deltaTotal,
        t1.CurIdleTime[i]? = some prevIdle ∧ t1.CurTotalTime[i]? = some prevTotal ∧
        t2.CurIdleTime[i]? = some curIdle ∧ t2.CurTotalTime[i]? = some curTotal ∧
        t2.DeltaIdleTime[i]? = some deltaIdle ∧ t2.DeltaTotalTime[i]? = some deltaTotal ∧
        deltaIdle = subU64 curIdle prevIdle ∧ deltaTotal = subU64 curTotal prevTotal ∧
        t2.CPUUsage[i]? = some (Float64.mul (Float64.sub Float64.one
          (Float64.div (Float64.ofNat deltaIdle) (Float64.ofNat deltaTotal)))
          Float64.hundred) := by
  obtain ⟨lines1, _, hflag1, hn1, hs1⟩ := GetCPUTimeStat_sampled file1 t0 t1 h1
  obtain ⟨lines2, _, _, _, hs2⟩ := GetCPUTimeStat_sampled file2 t1 t2 h2
  refine ⟨hflag1, ?_⟩
  intro i hi
  obtain ⟨line1, f1, _, _, a1, a2, a3, a4, _, _⟩ := hs1 i (by omega)
  obtain ⟨line2, f2, _, _, b1, b2, _, _, _, b6⟩ := hs2 i hi
  obtain ⟨pi, pt, c1, c2, c3, c4, c5⟩ := b6 hflag1
  rw [a3] at c1
  rw [a4] at c2
  simp only [Option.some.injEq] at c1 c2
  subst c1 c2
  exact ⟨_, _, _, _, _, _, a1, a2, b1, b2, c3, c4, rfl, rfl, c5⟩

/-- C2, witness: two samples of a two-processor table, from the initial state. -/
theorem GetCPUTimeStat_consecutive_deltas_witness :
    (GetCPUTimeStat (.ok "cpu  11 22 33 44 55\ncpu0 1 2 3 4 5\ncpu1 10 20 30 40 50\n".toList)
        (Podpools.cpuTimeStat 2) =
      (.ok (), ⟨[4, 40], [15, 150], [4, 40], [15, 150], [0, 0], [0, 0],
        [Float64.zero, Float64.zero], true, 2⟩) ∧
     GetCPUTimeStat (.ok "cpu  21 32 43 94 65\ncpu0 2 3 4 14 7\ncpu1 20 30 40 80 60\n".toList)
        ⟨[4, 40], [15, 150], [4, 40], [15, 150], [0, 0], [0, 0],
          [Float64.zero, Float64.zero], true, 2⟩ =
      (.ok (), ⟨[14, 80], [30, 230], [14, 80], [30, 230], [10, 40], [15, 80],
        [Float64.fin 4691249611844267 (-47), Float64.fin 25 1], true, 2⟩)) ∧
    ((⟨[4, 40], [15, 150], [4, 40], [15, 150], [0, 0], [0, 0],
        [Float64.zero, Float64.zero], true, 2⟩ : CPUTimeStat).IsGetCPUUsageBegin = true ∧
      ∀ i : Nat, (i : Int) < (2 : Int) →
        ∃ prevIdle prevTotal curIdle curTotal deltaIdle deltaTotal,
          [4, 40][i]? = some prevIdle ∧ [15, 150][i]? = some prevTotal ∧
          [14, 80][i]? = some curIdle ∧ [30, 230][i]? = some curTotal ∧
          [10, 40][i]? = some deltaIdle ∧ [15, 80][i]? = some deltaTotal ∧
          deltaIdle = subU64 curIdle prevIdle ∧ deltaTotal = subU64 curTotal prevTotal ∧
          [Float64.fin 4691249611844267 (-47), Float64.fin 25 1][i]? =
            some (Float64.mul (Float64.sub Float64.one
              (Float64.div (Float64.ofNat deltaIdle) (Float64.ofNat deltaTotal)))
              Float64.hundred)) :=
  have e1 : GetCPUTimeStat
      (.ok "cpu  11 22 33 44 55\ncpu0 1 2 3 4 5\ncpu1 10 20 30 40 50\n".toList)
      (Podpools.cpuTimeStat 2) =
      (.ok (), ⟨[4, 40], [15, 150], [4, 40], [15, 150], [0, 0], [0, 0],
        [Float64.zero, Float64.zero], true, 2⟩) := by decide
  have e2 : GetCPUTimeStat
      (.ok "cpu  21 32 43 94 65\ncpu0 2 3 4 14 7\ncpu1 20 30 40 80 60\n".toList)
      ⟨[4, 40], [15, 150], [4, 40], [15, 150], [0, 0], [0, 0],
        [Float64.zero, Float64.zero], true, 2⟩ =
      (.ok (), ⟨[14, 80], [30, 230], [14, 80], [30, 230], [10, 40], [15, 80],
        [Float64.fin 4691249611844267 (-47), Float64.fin 25 1], true, 2⟩) := by decide
  ⟨⟨e1, e2⟩, GetCPUTimeStat_consecutive_deltas _ _ _ _ _ e1 e2⟩

end Procstats

namespace Podpools

open Procstats

/-- C3: for every processor count `N` (so for every `N ≥ 1`) and every counter
table for which one call of `GetCPUTimeStat` on the freshly initialised state
returns `nil`, `CPUUsage[i]` is `0` for every `i` in `[0, N)`. -/
theorem GetCPUTimeStat_bootstrap_usage_zero (N : Nat) (file : Except GoError GoString)
    (h : (GetCPUTimeStat file (cpuTimeStat N)).1 = .ok ()) :
    ∀ i : Nat, i < N → (GetCPUTimeStat file (cpuTimeStat N)).2.CPUUsage[i]? =
      some Float64.zero := by
  intro i hi
  have h' : GetCPUTimeStat file (cpuTimeStat N) =
      (.ok (), (GetCPUTimeStat file (cpuTimeStat N)).2) := by
    rw [← h]
  obtain ⟨lines, _, _, _, hs⟩ := GetCPUTimeStat_sampled file (cpuTimeStat N) _ h'
  obtain ⟨_, _, _, _, _, _, _, _, c5, _⟩ := hs i (by simp [cpuTimeStat, hi])
  exact (c5 rfl).2.2

/-- C3, witness: three processors and a table with three processor rows. -/
theorem GetCPUTimeStat_bootstrap_usage_zero_witness :
    (GetCPUTimeStat
      (.ok "cpu  6 6 6 6 6\ncpu0 1 2 3 4 5\ncpu1 1 1 1 1 1\ncpu2 7 0 0 9 0\n".toList)
      (cpuTimeStat 3)).1 = .ok () ∧
    ∀ i : Nat, i < 3 → (GetCPUTimeStat
      (.ok "cpu  6 6 6 6 6\ncpu0 1 2 3 4 5\ncpu1 1 1 1 1 1\ncpu2 7 0 0 9 0\n".toList)
      (cpuTimeStat 3)).2.CPUUsage[i]? = some Float64.zero :=
  ⟨by decide, GetCPUTimeStat_bootstrap_usage_zero 3 _ (by decide)⟩

end Podpools

namespace Procstats

/-- C9: when the counter source cannot be read, `GetCPUTimeStat` returns that
read error and leaves the state as it was, every field included. -/
theorem GetCPUTimeStat_read_error (e : GoError) (t : CPUTimeStat) :
    GetCPUTimeStat (.error e) t = (.err e, t) := by
  rfl

end Procstats

namespace Procstats

open Strings Strconv

/-- C10: for every processor row `cpuK f1 f2 ... fn` (the label, then `n ≥ 4`
decimal counters of the 64-bit range, single spaces between), a call of
`GetCPUTimeStat` that returns `nil` sets `CurIdleTime[K]` to the fourth counter
`f4` and `CurTotalTime[K]` to `f1 + f2 + ... + fn` modulo `2 ^ 64`; and the first
row, the aggregate one, is not used: two tables that differ in it alone give the
same outcome and the same state. -/
theorem GetCPUTimeStat_row_counters :
    (∀ (file : Except GoError GoString) (lines : List GoString) (t t' : CPUTimeStat)
      (K : Nat) (fs : List Nat),
      readLines file = .ok lines → lines[K + 1]? = some (cpuRow K fs) → 4 ≤ fs.length →
      (∀ f ∈ fs, f < 18446744073709551616) → (K : Int) < t.CPUNumber →
      GetCPUTimeStat file t = (.ok (), t') →
      t'.CurIdleTime[K]? = fs[3]? ∧
      t'.CurTotalTime[K]? = some (fs.sum % 18446744073709551616)) ∧
    (∀ (data1 data2 first1 first2 : GoString) (rows : List GoString) (t : CPUTimeStat),
      readLines (.ok data1) = .ok (first1 :: rows) →
      readLines (.ok data2) = .ok (first2 :: rows) →
      GetCPUTimeStat (.ok data1) t = GetCPUTimeStat (.ok data2) t) := by
  constructor
  · intro file lines t t' K fs hl hrow hn hfs hK h
    obtain ⟨lines', hl', _, _, hs⟩ := GetCPUTimeStat_sampled file t t' h
    rw [hl] at hl'
    simp only [Except.ok.injEq] at hl'
    subst hl'
    obtain ⟨line, idleField, a1, a2, a3, a4, _⟩ := hs K hK
    rw [hrow] at a1
    simp only [Option.some.injEq] at a1
    subst a1
    rw [rowTotal_cpuRow K fs hfs] at a4
    refine ⟨?_, a4⟩
    rw [Split_cpuRow] at a2
    simp only [List.getElem?_cons_succ, List.getElem?_map] at a2
    have h3 : 3 < fs.length := by omega
    rw [List.getElem?_eq_getElem h3] at a2 ⊢
    simp only [Option.map_some', Option.some.injEq] at a2
    subst a2
    rw [a3, ParseUint_decimal _ (by
      have := hfs fs[3] (List.getElem_mem h3)
      simp only [maxUint64]
      omega)]
  · intro data1 data2 first1 first2 rows t h1 h2
    simp only [GetCPUTimeStat, h1, h2, sampleRows_first_row first1 first2 rows]

/-- C10, witness: the row `cpu1 10 20 30 40 50` of a two-processor table. -/
theorem GetCPUTimeStat_row_counters_witness :
    (readLines (.ok "cpu  11 22 33 44 55\ncpu0 1 2 3 4 5\ncpu1 10 20 30 40 50\n".toList) =
        .ok ["cpu  11 22 33 44 55".toList, "cpu0 1 2 3 4 5".toList,
          "cpu1 10 20 30 40 50".toList] ∧
      ["cpu  11 22 33 44 55".toList, "cpu0 1 2 3 4 5".toList,
          "cpu1 10 20 30 40 50".toList][1 + 1]? = some (cpuRow 1 [10, 20, 30, 40, 50]) ∧
      4 ≤ [10, 20, 30, 40, 50].length ∧
      (∀ f ∈ [10, 20, 30, 40, 50], f < 18446744073709551616) ∧
      ((1 : Nat) : Int) < (Podpools.cpuTimeStat 2).CPUNumber ∧
      GetCPUTimeStat (.ok "cpu  11 22 33 44 55\ncpu0 1 2 3 4 5\ncpu1 10 20 30 40 50\n".toList)
        (Podpools.cpuTimeStat 2) =
        (.ok (), ⟨[4, 40], [15, 150], [4, 40], [15, 150], [0, 0], [0, 0],
          [Float64.zero, Float64.zero], true, 2⟩)) ∧
    ([4, 40][1]? = [10, 20, 30, 40, 50][3]? ∧
      [15, 150][1]? = some ([10, 20, 30, 40, 50].sum % 18446744073709551616)) :=
  have hl : readLines
      (.ok "cpu  11 22 33 44 55\ncpu0 1 2 3 4 5\ncpu1 10 20 30 40 50\n".toList) =
      .ok ["cpu  11 22 33 44 55".toList, "cpu0 1 2 3 4 5".toList,
        "cpu1 10 20 30 40 50".toList] := by rfl
  have hrow : ["cpu  11 22 33 44 55".toList, "cpu0 1 2 3 4 5".toList,
      "cpu1 10 20 30 40 50".toList][1 + 1]? = some (cpuRow 1 [10, 20, 30, 40, 50]) := by
    decide
  have hfs : ∀ f ∈ [10, 20, 30, 40, 50], f < 18446744073709551616 := by decide
  have hK : ((1 : Nat) : Int) < (Podpools.cpuTimeStat 2).CPUNumber := by decide
  have hcall : GetCPUTimeStat
      (.ok "cpu  11 22 33 44 55\ncpu0 1 2 3 4 5\ncpu1 10 20 30 40 50\n".toList)
      (Podpools.cpuTimeStat 2) =
      (.ok (), ⟨[4, 40], [15, 150], [4, 40], [15, 150], [0, 0], [0, 0],
        [Float64.zero, Float64.zero], true, 2⟩) := by decide
  ⟨⟨hl, hrow, by decide, hfs, hK, hcall⟩,
    GetCPUTimeStat_row_counters.1 _ _ _ _ 1 [10, 20, 30, 40, 50] hl hrow (by decide) hfs hK
      hcall⟩

end Procstats

namespace Procstats

/-- C8 (the code does otherwise): for every counter table with fewer than
`CPUNumber + 1` non-blank lines, for a positive `CPUNumber`, `GetCPUTimeStat` does
not return an error value: it indexes past the end of the rows and panics, in
the state that the rows before have left. -/
theorem GetCPUTimeStat_short_table_panics (data : GoString) (lines : List GoString)
    (t : CPUTimeStat) (hl : readLines (.ok data) = .ok lines) (hN : 0 < t.CPUNumber)
    (hshort : (lines.length : Int) < t.CPUNumber + 1) :
    ∃ t1, GetCPUTimeStat (.ok data) t = (.panic, t1) := by
  have hmem : t.CPUNumber.toNat - 1 ∈ List.range t.CPUNumber.toNat := by
    rw [List.mem_range]
    omega
  obtain ⟨t1, h1⟩ := sampleRows_missing_row lines (List.range t.CPUNumber.toNat) t
    (t.CPUNumber.toNat - 1) (List.nodup_range _) hmem (by omega)
  exact ⟨t1, by simp only [GetCPUTimeStat, hl, h1]⟩

/-- C8, failing input: two processors and a table with one processor row. The
call panics, and the slices hold the first row's counters at index 0 only. -/
theorem GetCPUTimeStat_short_table_panics_witness :
    (readLines (.ok "cpu  6 6 6 6 6\ncpu0 1 2 3 4 5\n".toList) =
        .ok ["cpu  6 6 6 6 6".toList, "cpu0 1 2 3 4 5".toList] ∧
      0 < (Podpools.cpuTimeStat 2).CPUNumber ∧
      ((["cpu  6 6 6 6 6".toList, "cpu0 1 2 3 4 5".toList].length : Nat) : Int) <
        (Podpools.cpuTimeStat 2).CPUNumber + 1) ∧
    GetCPUTimeStat (.ok "cpu  6 6 6 6 6\ncpu0 1 2 3 4 5\n".toList) (Podpools.cpuTimeStat 2) =
      (.panic, ⟨[4, 0], [15, 0], [4, 0], [15, 0], [0, 0], [0, 0],
        [Float64.zero, Float64.zero], false, 2⟩) ∧
    ∃ t1, GetCPUTimeStat (.ok "cpu  6 6 6 6 6\ncpu0 1 2 3 4 5\n".toList)
      (Podpools.cpuTimeStat 2) = (.panic, t1) :=
  have hl : readLines (.ok "cpu  6 6 6 6 6\ncpu0 1 2 3 4 5\n".toList) =
      .ok ["cpu  6 6 6 6 6".toList, "cpu0 1 2 3 4 5".toList] := by rfl
  have hN : 0 < (Podpools.cpuTimeStat 2).CPUNumber := by decide
  have hshort : ((["cpu  6 6 6 6 6".toList, "cpu0 1 2 3 4 5".toList].length : Nat) : Int) <
      (Podpools.cpuTimeStat 2).CPUNumber + 1 := by decide
  ⟨⟨hl, hN, hshort⟩, by decide,
    GetCPUTimeStat_short_table_panics _ _ (Podpools.cpuTimeStat 2) hl hN hshort⟩

/-- C6 (the code does otherwise): in a sample taken with the flag set, a
processor `i` whose total delta is 0 does not get the usage 0: `CPUUsage[i]` is the
not-a-number value or an infinity. -/
theorem GetCPUTimeStat_zero_total_usage (file : Except GoError GoString)
    (t t' : CPUTimeStat) (i : Nat) (hflag : t.IsGetCPUUsageBegin = true)
    (h : GetCPUTimeStat file t = (.ok (), t')) (hi : (i : Int) < t.CPUNumber)
    (hz : t'.DeltaTotalTime[i]? = some 0) :
    t'.CPUUsage[i]? = some .nan ∨ ∃ s, t'.CPUUsage[i]? = some (.inf s) := by
  obtain ⟨lines, _, _, _, hs⟩ := GetCPUTimeStat_sampled file t t' h
  obtain ⟨line, idleField, _, _, _, _, _, _, _, c6⟩ := hs i hi
  obtain ⟨pi, pt, _, _, _, d4, d5⟩ := c6 hflag
  rw [d4] at hz
  simp only [Option.some.injEq] at hz
  rw [hz] at d5
  rcases usageOf_zero_total (subU64 (Strconv.ParseUint idleField).1 pi) with e | ⟨s, e⟩
  · left
    rw [d5, e]
  · right
    exact ⟨s, by rw [d5, e]⟩

/-- C6, failing input: the same two-processor table read twice. Both deltas of
both processors are 0 and both usages are not-a-number. -/
theorem GetCPUTimeStat_zero_total_usage_witness :
    ((⟨[4, 40], [15, 150], [4, 40], [15, 150], [0, 0], [0, 0],
        [Float64.zero, Float64.zero], true, 2⟩ : CPUTimeStat).IsGetCPUUsageBegin = true ∧
      GetCPUTimeStat (.ok "cpu  11 22 33 44 55\ncpu0 1 2 3 4 5\ncpu1 10 20 30 40 50\n".toList)
        ⟨[4, 40], [15, 150], [4, 40], [15, 150], [0, 0], [0, 0],
          [Float64.zero, Float64.zero], true, 2⟩ =
        (.ok (), ⟨[4, 40], [15, 150], [4, 40], [15, 150], [0, 0], [0, 0],
          [Float64.nan, Float64.nan], true, 2⟩) ∧
      ((0 : Nat) : Int) < (2 : Int) ∧ [0, 0][0]? = some 0) ∧
    ([Float64.nan, Float64.nan][0]? = some Float64.nan ∨
      ∃ s, [Float64.nan, Float64.nan][0]? = some (Float64.inf s)) :=
  have hcall : GetCPUTimeStat
      (.ok "cpu  11 22 33 44 55\ncpu0 1 2 3 4 5\ncpu1 10 20 30 40 50\n".toList)
      ⟨[4, 40], [15, 150], [4, 40], [15, 150], [0, 0], [0, 0],
        [Float64.zero, Float64.zero], true, 2⟩ =
      (.ok (), ⟨[4, 40], [15, 150], [4, 40], [15, 150], [0, 0], [0, 0],
        [Float64.nan, Float64.nan], true, 2⟩) := by decide
  ⟨⟨rfl, hcall, by decide, rfl⟩,
    GetCPUTimeStat_zero_total_usage _ _ _ 0 rfl hcall (by decide) rfl⟩

end Procstats

namespace Podpools

open Strings Strconv Fmt Procstats

/-- C4: for every pool whose processor-set string is well formed and refers
only to indices in `[0, processorCount)` (the length of the delta slices, an
`int`), the value that `updatePoolCPUUsageMetrics` computes for the pool is
`(1 - S_idle / S_total) * 100 * k` in `float64` arithmetic, where `S_idle` and
`S_total` are the sums, as unsigned 64-bit values, of `DeltaIdleTime` and
`DeltaTotalTime` over exactly the `k` identifiers of the expanded set; with
`DeltaIdleTime = [10, 30]`, `DeltaTotalTime = [100, 100]` and the pool `"0-1"` the
value is 160. -/
theorem poolCPUUsage_formula :
    (∀ (eng : Engine) (fuel : Nat) (t : CPUTimeStat) (toks : List CpuToken),
      toks ≠ [] → (∀ tok ∈ toks, tok.wellFormed) →
      (∀ id ∈ toks.flatMap CpuToken.members,
        id < t.DeltaIdleTime.length ∧ id < t.DeltaTotalTime.length) →
      t.DeltaIdleTime.length < 9223372036854775808 → t.DeltaIdleTime.length ≤ fuel →
      poolCPUUsage eng fuel t (cpusetText toks) =
        .ok (Float64.mul
          (Float64.mul
            (Float64.sub Float64.one
              (Float64.div
                (Float64.ofNat (((toks.flatMap CpuToken.members).map
                  (fun id => t.DeltaIdleTime.getD id 0)).sum % 18446744073709551616))
                (Float64.ofNat (((toks.flatMap CpuToken.members).map
                  (fun id => t.DeltaTotalTime.getD id 0)).sum % 18446744073709551616))))
            Float64.hundred)
          (Float64.ofInt ((toks.flatMap CpuToken.members).length : Int)))) ∧
    (∀ (eng : Engine) (fuel : Nat), 2 ≤ fuel →
      poolCPUUsage eng fuel
        ⟨[0, 0], [0, 0], [0, 0], [0, 0], [10, 30], [100, 100],
          [Float64.zero, Float64.zero], true, 2⟩ "0-1".toList = .ok (Float64.ofNat 160)) := by
  refine ⟨poolCPUUsage_wellFormed, ?_⟩
  intro eng fuel hf
  have h := poolCPUUsage_wellFormed eng fuel
    ⟨[0, 0], [0, 0], [0, 0], [0, 0], [10, 30], [100, 100],
      [Float64.zero, Float64.zero], true, 2⟩ [.range 0 1] (by simp)
    (by
      intro tok htok
      simp only [List.mem_singleton] at htok
      subst htok
      simp [CpuToken.wellFormed])
    (by decide) (by decide) hf
  exact h.trans (by decide)

/-- C4, witness: the pool `0-1` over two processors. -/
theorem poolCPUUsage_formula_witness :
    ([CpuToken.range 0 1] ≠ [] ∧ (∀ tok ∈ [CpuToken.range 0 1], tok.wellFormed) ∧
      (∀ id ∈ [CpuToken.range 0 1].flatMap CpuToken.members,
        id < [10, 30].length ∧ id < [100, 100].length) ∧
      [10, 30].length < 9223372036854775808 ∧ [10, 30].length ≤ 2) ∧
    poolCPUUsage (fun f _ => f) 2
        ⟨[0, 0], [0, 0], [0, 0], [0, 0], [10, 30], [100, 100],
          [Float64.zero, Float64.zero], true, 2⟩ (cpusetText [CpuToken.range 0 1]) =
      .ok (Float64.mul
        (Float64.mul
          (Float64.sub Float64.one
            (Float64.div
              (Float64.ofNat ((([CpuToken.range 0 1].flatMap CpuToken.members).map
                (fun id => [10, 30].getD id 0)).sum % 18446744073709551616))
              (Float64.ofNat ((([CpuToken.range 0 1].flatMap CpuToken.members).map
                (fun id => [100, 100].getD id 0)).sum % 18446744073709551616))))
          Float64.hundred)
        (Float64.ofInt (([CpuToken.range 0 1].flatMap CpuToken.members).length : Int))) :=
  have hw : ∀ tok ∈ [CpuToken.range 0 1], tok.wellFormed := by
    intro tok htok
    simp only [List.mem_singleton] at htok
    subst htok
    simp [CpuToken.wellFormed]
  have hr : ∀ id ∈ [CpuToken.range 0 1].flatMap CpuToken.members,
      id < [10, 30].length ∧ id < [100, 100].length := by decide
  ⟨⟨by simp, hw, hr, by decide, by decide⟩,
    poolCPUUsage_formula.1 (fun f _ => f) 2
      ⟨[0, 0], [0, 0], [0, 0], [0, 0], [10, 30], [100, 100],
        [Float64.zero, Float64.zero], true, 2⟩ [CpuToken.range 0 1] (by simp) hw hr
      (by decide) (by decide)⟩

/-- C5 (the code does otherwise): for every pool whose processors' total deltas
add up to 0, the value that `updatePoolCPUUsageMetrics` computes is not 0: it is
the not-a-number value or an infinity. -/
theorem poolCPUUsage_zero_total (eng : Engine) (fuel : Nat) (t : CPUTimeStat)
    (cpuset cpus : GoString) (idle : Nat) (h1 : resolvePools eng fuel cpuset = some cpus)
    (h2 : sumPool t (Split cpus ',') 0 0 = some (idle, 0)) :
    poolCPUUsage eng fuel t cpuset = .ok .nan ∨
      ∃ s, poolCPUUsage eng fuel t cpuset = .ok (.inf s) :=
  poolCPUUsage_zero_sum eng fuel t cpuset cpus idle h1 h2

/-- C5, failing input: the first scrape. After the first sample of a
two-processor table the deltas are still the initial zeros, and the pool `0-1`
gets the not-a-number value. -/
theorem poolCPUUsage_zero_total_witness :
    (GetCPUTimeStat (.ok "cpu  11 22 33 44 55\ncpu0 1 2 3 4 5\ncpu1 10 20 30 40 50\n".toList)
        (cpuTimeStat 2) =
      (.ok (), ⟨[4, 40], [15, 150], [4, 40], [15, 150], [0, 0], [0, 0],
        [Float64.zero, Float64.zero], true, 2⟩) ∧
      resolvePools (fun f _ => f) 2 "0-1".toList = some "0,1".toList ∧
      sumPool ⟨[4, 40], [15, 150], [4, 40], [15, 150], [0, 0], [0, 0],
        [Float64.zero, Float64.zero], true, 2⟩ (Split "0,1".toList ',') 0 0 = some (0, 0)) ∧
    poolCPUUsage (fun f _ => f) 2
        ⟨[4, 40], [15, 150], [4, 40], [15, 150], [0, 0], [0, 0],
          [Float64.zero, Float64.zero], true, 2⟩ "0-1".toList = .ok .nan ∧
    (poolCPUUsage (fun f _ => f) 2
        ⟨[4, 40], [15, 150], [4, 40], [15, 150], [0, 0], [0, 0],
          [Float64.zero, Float64.zero], true, 2⟩ "0-1".toList = .ok .nan ∨
      ∃ s, poolCPUUsage (fun f _ => f) 2
        ⟨[4, 40], [15, 150], [4, 40], [15, 150], [0, 0], [0, 0],
          [Float64.zero, Float64.zero], true, 2⟩ "0-1".toList = .ok (.inf s)) :=
  have h1 : resolvePools (fun f _ => f) 2 "0-1".toList = some "0,1".toList := by decide
  have h2 : sumPool ⟨[4, 40], [15, 150], [4, 40], [15, 150], [0, 0], [0, 0],
      [Float64.zero, Float64.zero], true, 2⟩ (Split "0,1".toList ',') 0 0 = some (0, 0) := by
    decide
  ⟨⟨by decide, h1, h2⟩, by decide,
    poolCPUUsage_zero_total (fun f _ => f) 2 _ "0-1".toList "0,1".toList 0 h1 h2⟩

end Podpools

namespace Podpools

open Strings Strconv Fmt Procstats

/-- C7 (the code does otherwise): for every scrape in which every pool's
processor set resolves and one pool's set resolves to an identifier outside the
delta slices (below 0, or at least their length, the processor count),
`updatePoolCPUUsageMetrics` panics on the index: it returns no error value, for
that pool or otherwise, and no record, not for the other pools either. -/
theorem updatePoolCPUUsageMetrics_out_of_range_panics (eng : Engine) (fuel : Nat)
    (policyName : GoString) (m : Metrics) (t : CPUTimeStat)
    (hres : ∀ entry ∈ m.PoolMetrics, ∃ cpus, resolvePools eng fuel entry.2.CPUs = some cpus)
    (name : GoString) (pm : PoolMetrics) (cpus bad : GoString)
    (hpool : m.PoolMetrics.lookup name = some pm)
    (hcpus : resolvePools eng fuel pm.CPUs = some cpus) (hmem : bad ∈ Split cpus ',')
    (hbad : (Atoi bad).1 < 0 ∨ t.DeltaIdleTime.length ≤ (Atoi bad).1.toNat ∨
      t.DeltaTotalTime.length ≤ (Atoi bad).1.toNat) :
    updatePoolCPUUsageMetrics eng fuel policyName (some m) t = .panic ∧
    (∀ e, updatePoolCPUUsageMetrics eng fuel policyName (some m) t ≠ .err e) ∧
    (∀ records, updatePoolCPUUsageMetrics eng fuel policyName (some m) t ≠ .ok records) := by
  have hp : updatePoolCPUUsageMetrics eng fuel policyName (some m) t = .panic := by
    have hperm := sortStrings_perm (m.PoolMetrics.map Prod.fst)
    exact poolRecords_out_of_range eng fuel policyName m t hres name pm hpool
      (poolCPUUsage_out_of_range eng fuel t pm.CPUs cpus bad hcpus hmem hbad)
      (sortStrings (m.PoolMetrics.map Prod.fst)) (fun n hn => hperm.mem_iff.1 hn)
      (hperm.mem_iff.2 (mem_keys_of_lookup name pm _ hpool))
  refine ⟨hp, fun e => ?_, fun records => ?_⟩
  · rw [hp]; simp
  · rw [hp]; simp

/-- C7, witness: the pools `a` (processor `0`) and `b` (processor `99`) on eight
processors. The call panics on the index 99; pool `a`, which sorts first and is
in range, gets no record. -/
theorem updatePoolCPUUsageMetrics_out_of_range_panics_witness :
    ((∀ entry ∈ [("a".toList, (⟨[], "a".toList, "0".toList, [], [], [], []⟩ : PoolMetrics)),
        ("b".toList, (⟨[], "b".toList, "99".toList, [], [], [], []⟩ : PoolMetrics))],
      ∃ cpus, resolvePools (fun f _ => f) 1 entry.2.CPUs = some cpus) ∧
      [("a".toList, (⟨[], "a".toList, "0".toList, [], [], [], []⟩ : PoolMetrics)),
        ("b".toList, (⟨[], "b".toList, "99".toList, [], [], [], []⟩ : PoolMetrics))].lookup
          "b".toList = some ⟨[], "b".toList, "99".toList, [], [], [], []⟩ ∧
      resolvePools (fun f _ => f) 1 "99".toList = some "99".toList ∧
      "99".toList ∈ Split "99".toList ',' ∧
      (cpuTimeStat 8).DeltaIdleTime.length ≤ (Atoi "99".toList).1.toNat) ∧
    updatePoolCPUUsageMetrics (fun f _ => f) 1 "podpools".toList
      (some ⟨[("a".toList, ⟨[], "a".toList, "0".toList, [], [], [], []⟩),
        ("b".toList, ⟨[], "b".toList, "99".toList, [], [], [], []⟩)]⟩) (cpuTimeStat 8) =
      .panic :=
  have hres : ∀ entry ∈
      [("a".toList, (⟨[], "a".toList, "0".toList, [], [], [], []⟩ : PoolMetrics)),
        ("b".toList, (⟨[], "b".toList, "99".toList, [], [], [], []⟩ : PoolMetrics))],
      ∃ cpus, resolvePools (fun f _ => f) 1 entry.2.CPUs = some cpus := by
    intro entry hentry
    simp only [List.mem_cons, List.mem_singleton, List.not_mem_nil, or_false] at hentry
    rcases hentry with rfl | rfl
    · exact ⟨"0".toList, by decide⟩
    · exact ⟨"99".toList, by decide⟩
  have hlen : (cpuTimeStat 8).DeltaIdleTime.length ≤ (Atoi "99".toList).1.toNat := by decide
  ⟨⟨hres, by decide, by decide, by decide, hlen⟩,
    (updatePoolCPUUsageMetrics_out_of_range_panics (fun f _ => f) 1 "podpools".toList
      ⟨[("a".toList, ⟨[], "a".toList, "0".toList, [], [], [], []⟩),
        ("b".toList, ⟨[], "b".toList, "99".toList, [], [], [], []⟩)]⟩ (cpuTimeStat 8) hres
      "b".toList ⟨[], "b".toList, "99".toList, [], [], [], []⟩ "99".toList "99".toList
      (by decide) (by decide) (by decide) (Or.inr (Or.inl hlen))).1⟩

end Podpools

namespace Procstats

open Strings Strconv

/-- C11, as amended: in every processor row, a space-separated field that
`ParseUint` rejects as malformed (the empty text, or a character that is no digit
after digits within the 64-bit range) contributes 0 to that processor's
total-time counter, and such a fourth counter gives an idle-time counter of 0;
a field whose leading digits exceed the 64-bit range contributes `2 ^ 64 - 1`
instead, and as fourth counter gives the idle-time counter `2 ^ 64 - 1`; the
sample still succeeds, whatever the fields hold, when the first `CPUNumber`
processor rows have five fields or more. -/
theorem GetCPUTimeStat_unparsed_fields :
    (∀ (data : GoString) (lines : List GoString) (t : CPUTimeStat),
      readLines (.ok data) = .ok lines →
      (∀ i : Nat, (i : Int) < t.CPUNumber →
        ∃ line, lines[i + 1]? = some line ∧ 5 ≤ (Split line ' ').length) →
      wellSized t →
      ∃ t', GetCPUTimeStat (.ok data) t = (.ok (), t') ∧
        ∀ i : Nat, (i : Int) < t.CPUNumber →
          ∃ line, lines[i + 1]? = some line ∧
            t'.CurIdleTime[i]? = some (fieldValue ((Split line ' ').getD 4 [])) ∧
            t'.CurTotalTime[i]? =
              some (((Split line ' ').map fieldValue).sum % 18446744073709551616)) ∧
    fieldValue [] = 0 ∧
    (∀ (d rest : GoString) (c : Char), allDigits d = true → digitsFrom 0 d ≤ maxUint64 →
      digitVal c = none → fieldValue (d ++ c :: rest) = 0) ∧
    (∀ (d rest : GoString), allDigits d = true → maxUint64 < digitsFrom 0 d →
      fieldValue (d ++ rest) = 18446744073709551615) :=
  ⟨GetCPUTimeStat_shape, rfl, fieldValue_malformed, fieldValue_overflow⟩

/-- C11, witness: a row whose second and fourth counters are no numbers and
whose last counter has 23 digits. The sample succeeds, the idle-time counter is
0 and the total-time counter is `1 + 0 + 3 + 0 + 5 + (2 ^ 64 - 1)` modulo `2 ^ 64`. -/
theorem GetCPUTimeStat_unparsed_fields_witness :
    (readLines (.ok "cpu  x\ncpu0 1 abc 3 x9 5 77777777777777777777777\n".toList) =
        .ok ["cpu  x".toList, "cpu0 1 abc 3 x9 5 77777777777777777777777".toList] ∧
      (∀ i : Nat, (i : Int) < (Podpools.cpuTimeStat 1).CPUNumber →
        ∃ line, ["cpu  x".toList,
            "cpu0 1 abc 3 x9 5 77777777777777777777777".toList][i + 1]? = some line ∧
          5 ≤ (Split line ' ').length) ∧
      wellSized (Podpools.cpuTimeStat 1)) ∧
    GetCPUTimeStat (.ok "cpu  x\ncpu0 1 abc 3 x9 5 77777777777777777777777\n".toList)
        (Podpools.cpuTimeStat 1) =
      (.ok (), ⟨[0], [8], [0], [8], [0], [0], [Float64.zero], true, 1⟩) ∧
    ∃ t', GetCPUTimeStat (.ok "cpu  x\ncpu0 1 abc 3 x9 5 77777777777777777777777\n".toList)
        (Podpools.cpuTimeStat 1) = (.ok (), t') ∧
      ∀ i : Nat, (i : Int) < (Podpools.cpuTimeStat 1).CPUNumber →
        ∃ line, ["cpu  x".toList,
            "cpu0 1 abc 3 x9 5 77777777777777777777777".toList][i + 1]? = some line ∧
          t'.CurIdleTime[i]? = some (fieldValue ((Split line ' ').getD 4 [])) ∧
          t'.CurTotalTime[i]? =
            some (((Split line ' ').map fieldValue).sum % 18446744073709551616) :=
  have hl : readLines (.ok "cpu  x\ncpu0 1 abc 3 x9 5 77777777777777777777777\n".toList) =
      .ok ["cpu  x".toList, "cpu0 1 abc 3 x9 5 77777777777777777777777".toList] := by rfl
  have hrows : ∀ i : Nat, (i : Int) < (Podpools.cpuTimeStat 1).CPUNumber →
      ∃ line, ["cpu  x".toList,
          "cpu0 1 abc 3 x9 5 77777777777777777777777".toList][i + 1]? = some line ∧
        5 ≤ (Split line ' ').length := by
    intro i hi
    have hi0 : i = 0 := by
      simp only [Podpools.cpuTimeStat] at hi
      omega
    subst hi0
    exact ⟨_, rfl, by decide⟩
  have hsize : wellSized (Podpools.cpuTimeStat 1) := ⟨rfl, rfl, rfl, rfl, rfl, rfl, rfl⟩
  ⟨⟨hl, hrows, hsize⟩, by decide,
    GetCPUTimeStat_unparsed_fields.1 _ _ (Podpools.cpuTimeStat 1) hl hrows hsize⟩

/-- C11, counterexample: the fourth counter of the row has 20 digits, beyond the
64-bit range. The sample succeeds with the idle-time counter `2 ^ 64 - 1`, not 0,
and the total-time counter `1 + 2 + 3 + (2 ^ 64 - 1) + 4` modulo `2 ^ 64`, which is
9, not `1 + 2 + 3 + 0 + 4`. -/
theorem GetCPUTimeStat_out_of_range_field :
    GetCPUTimeStat (.ok "cpu  1 2 3 4 5\ncpu0 1 2 3 99999999999999999999 4\n".toList)
        (Podpools.cpuTimeStat 1) =
      (.ok (), ⟨[18446744073709551615], [9], [18446744073709551615], [9], [0], [0],
        [Float64.zero], true, 1⟩) := by
  decide

end Procstats

namespace Procstats

/-- C12: after every call of `GetCPUTimeStat` that returns `nil`, for every
processor `i` below `CPUNumber`, `PrevIdleTime[i] = CurIdleTime[i]` and
`PrevTotalTime[i] = CurTotalTime[i]`; `IsGetCPUUsageBegin` is true; `CPUNumber` is
as before, and the seven slices have the lengths they had, so that slices of
length exactly `CPUNumber` still have it. -/
theorem GetCPUTimeStat_previous_is_current (file : Except GoError GoString)
    (t t' : CPUTimeStat) (h : GetCPUTimeStat file t = (.ok (), t')) :
    (∀ i : Nat, (i : Int) < t.CPUNumber →
      ∃ idle total, t'.PrevIdleTime[i]? = some idle ∧ t'.CurIdleTime[i]? = some idle ∧
        t'.PrevTotalTime[i]? = some total ∧ t'.CurTotalTime[i]? = some total) ∧
    t'.IsGetCPUUsageBegin = true ∧
    t'.CPUNumber = t.CPUNumber ∧
    t'.PrevIdleTime.length = t.PrevIdleTime.length ∧
    t'.PrevTotalTime.length = t.PrevTotalTime.length ∧
    t'.CurIdleTime.length = t.CurIdleTime.length ∧
    t'.CurTotalTime.length = t.CurTotalTime.length ∧
    t'.DeltaIdleTime.length = t.DeltaIdleTime.length ∧
    t'.DeltaTotalTime.length = t.DeltaTotalTime.length ∧
    t'.CPUUsage.length = t.CPUUsage.length ∧
    (wellSized t → wellSized t') := by
  obtain ⟨lines, _, hflag, _, hs⟩ := GetCPUTimeStat_sampled file t t' h
  obtain ⟨s0, s1, s2, s3, s4, s5, s6, s7⟩ := GetCPUTimeStat_lengths file t t' h
  refine ⟨?_, hflag, s0, s1, s2, s3, s4, s5, s6, s7, GetCPUTimeStat_wellSized file t t' h⟩
  intro i hi
  obtain ⟨_, _, _, _, a1, a2, a3, a4, _⟩ := hs i hi
  exact ⟨_, _, a3, a1, a4, a2⟩

/-- C12, witness: the second sample of a two-processor table. -/
theorem GetCPUTimeStat_previous_is_current_witness :
    GetCPUTimeStat (.ok "cpu  21 32 43 94 65\ncpu0 2 3 4 14 7\ncpu1 20 30 40 80 60\n".toList)
        ⟨[4, 40], [15, 150], [4, 40], [15, 150], [0, 0], [0, 0],
          [Float64.zero, Float64.zero], true, 2⟩ =
      (.ok (), ⟨[14, 80], [30, 230], [14, 80], [30, 230], [10, 40], [15, 80],
        [Float64.fin 4691249611844267 (-47), Float64.fin 25 1], true, 2⟩) ∧
    ((∀ i : Nat, (i : Int) < (2 : Int) →
      ∃ idle total, [14, 80][i]? = some idle ∧ [14, 80][i]? = some idle ∧
        [30, 230][i]? = some total ∧ [30, 230][i]? = some total) ∧
    true = true ∧
    (2 : Int) = 2 ∧
    [14, 80].length = [4, 40].length ∧
    [30, 230].length = [15, 150].length ∧
    [14, 80].length = [4, 40].length ∧
    [30, 230].length = [15, 150].length ∧
    [10, 40].length = [0, 0].length ∧
    [15, 80].length = [0, 0].length ∧
    [Float64.fin 4691249611844267 (-47), Float64.fin 25 1].length =
      [Float64.zero, Float64.zero].length ∧
    (wellSized ⟨[4, 40], [15, 150], [4, 40], [15, 150], [0, 0], [0, 0],
        [Float64.zero, Float64.zero], true, 2⟩ →
      wellSized ⟨[14, 80], [30, 230], [14, 80], [30, 230], [10, 40], [15, 80],
        [Float64.fin 4691249611844267 (-47), Float64.fin 25 1], true, 2⟩)) :=
  have hcall : GetCPUTimeStat
      (.ok "cpu  21 32 43 94 65\ncpu0 2 3 4 14 7\ncpu1 20 30 40 80 60\n".toList)
      ⟨[4, 40], [15, 150], [4, 40], [15, 150], [0, 0], [0, 0],
        [Float64.zero, Float64.zero], true, 2⟩ =
      (.ok (), ⟨[14, 80], [30, 230], [14, 80], [30, 230], [10, 40], [15, 80],
        [Float64.fin 4691249611844267 (-47), Float64.fin 25 1], true, 2⟩) := by decide
  ⟨hcall, GetCPUTimeStat_previous_is_current _ _ _ hcall⟩

end Procstats

namespace Podpools

open Strings Strconv Fmt Procstats

/-- C13, as amended: `resolvePools` has no failure result, and a range bound
that `Atoi` rejects as malformed (text that is no number) is read as 0. For every
token `lo-X` with `lo` a canonical decimal below the largest `int` and `X` such a
text, the token contributes exactly `[lo]`; for every token `X-hi` with `X` such a
text and `hi` a canonical decimal below the largest `int`, the token contributes
`X` as it is, followed by `1, 2, ..., hi`. Here the text built so far and `X` hold
no `%`, which `fmt.Sprintf` would read as a directive. -/
theorem resolveToken_malformed_bound :
    (∀ (eng : Engine) (fuel : Nat) (cpus X : GoString) (lo : Nat),
      '%' ∉ cpus → lo < 9223372036854775807 → '-' ∉ X → (Atoi X).2 = some .malformed →
      0 < fuel →
      resolveToken eng fuel cpus (decimal lo ++ '-' :: X) =
        some (if cpus = [] then decimal lo else cpus ++ ',' :: decimal lo)) ∧
    (∀ (eng : Engine) (fuel : Nat) (cpus X : GoString) (hi : Nat),
      '%' ∉ cpus → '%' ∉ X → '-' ∉ X → (Atoi X).2 = some .malformed →
      hi < 9223372036854775807 → hi < fuel →
      resolveToken eng fuel cpus (X ++ '-' :: decimal hi) =
        some ((if cpus = [] then X else cpus ++ ',' :: X) ++
          (List.range' 1 hi).flatMap (fun k => ',' :: decimal k))) := by
  constructor
  · intro eng fuel cpus X lo hp hlo hX hmal hf
    have hsplit : Split (decimal lo ++ '-' :: X) '-' = decimal lo :: X :: [] :=
      Split_pair _ _ _ (dash_not_mem_decimal lo) hX
    have h := resolveToken_bounds eng fuel cpus _ (decimal lo) X [] lo 0 hsplit
      (by rw [Atoi_decimal lo (by omega)]) (by rw [Atoi_malformed X hmal]; rfl) hlo
      (by omega) hp (fun hlt => absurd hlt (by omega)) (by omega)
    simpa using h
  · intro eng fuel cpus X hi hp hpX hX hmal hhi hf
    have hsplit : Split (X ++ '-' :: decimal hi) '-' = X :: decimal hi :: [] :=
      Split_pair _ _ _ hX (dash_not_mem_decimal hi)
    have h := resolveToken_bounds eng fuel cpus _ X (decimal hi) [] 0 hi hsplit
      (by rw [Atoi_malformed X hmal]; rfl) (by rw [Atoi_decimal hi (by omega)]) (by omega)
      hhi hp (fun _ => hpX) (by omega)
    simpa using h

/-- C13, witness: the tokens `3-x` and `x-2` after the text `1`. -/
theorem resolveToken_malformed_bound_witness :
    (('%' ∉ "1".toList ∧ 3 < 9223372036854775807 ∧ '-' ∉ "x".toList ∧
        (Atoi "x".toList).2 = some .malformed ∧ 0 < 1) ∧
      resolveToken (fun f _ => f) 1 "1".toList (decimal 3 ++ '-' :: "x".toList) =
        some (if "1".toList = [] then decimal 3 else "1".toList ++ ',' :: decimal 3)) ∧
    (('%' ∉ "1".toList ∧ '%' ∉ "x".toList ∧ '-' ∉ "x".toList ∧
        (Atoi "x".toList).2 = some .malformed ∧ 2 < 9223372036854775807 ∧ 2 < 3) ∧
      resolveToken (fun f _ => f) 3 "1".toList ("x".toList ++ '-' :: decimal 2) =
        some ((if "1".toList = [] then "x".toList else "1".toList ++ ',' :: "x".toList) ++
          (List.range' 1 2).flatMap (fun k => ',' :: decimal k))) :=
  ⟨⟨⟨by decide, by decide, by decide, by decide, by decide⟩,
      resolveToken_malformed_bound.1 (fun f _ => f) 1 "1".toList "x".toList 3 (by decide)
        (by decide) (by decide) (by decide) (by decide)⟩,
    ⟨⟨by decide, by decide, by decide, by decide, by decide, by decide⟩,
      resolveToken_malformed_bound.2 (fun f _ => f) 3 "1".toList "x".toList 2 (by decide)
        (by decide) (by decide) (by decide) (by decide) (by decide)⟩⟩

/-- C13, counterexample: the token `0-99999999999999999999`. Its second bound
has digits beyond the `int` range; `Atoi` returns the largest `int` for it, not
0, and `resolvePools` then returns nothing, whatever the fuel, so the token does
not contribute `[0]`. -/
theorem resolvePools_bound_beyond_int :
    Atoi "99999999999999999999".toList = (maxInt64, some .outOfRange) ∧
    ¬ ∃ (eng : Engine) (fuel : Nat) (cpus : GoString),
      resolvePools eng fuel "0-99999999999999999999".toList = some cpus := by
  refine ⟨by decide, ?_⟩
  rintro ⟨eng, fuel, cpus, h⟩
  rw [resolvePools_many_digits eng fuel] at h
  exact Option.noConfusion h

/-- C18 (the code does otherwise): for a range token whose upper bound is the
largest `int`, or has more digits than an `int` holds, `resolvePools` does not
return: the condition `j <= end` holds for every `int`, whatever the fuel. -/
theorem resolvePools_does_not_return (eng : Engine) (fuel : Nat) :
    resolvePools eng fuel "0-9223372036854775807".toList = none ∧
    resolvePools eng fuel "0-99999999999999999999".toList = none :=
  ⟨resolvePools_unbounded eng fuel, resolvePools_many_digits eng fuel⟩

end Podpools

namespace Podpools

open Strings Strconv Fmt Procstats

/-- C19: for the empty processor-set string `resolvePools` returns the empty
string, and `updatePoolCPUUsageMetrics` then takes the pool to have exactly one
processor, with index 0: the sums are `DeltaIdleTime[0]` and `DeltaTotalTime[0]`
and the multiplier is 1; and for every input string on which `resolvePools`
returns, the number of pieces, which is the multiplier, is at least 1. -/
theorem resolvePools_empty_string :
    (∀ (eng : Engine) (fuel : Nat), resolvePools eng fuel [] = some []) ∧
    (∀ (eng : Engine) (fuel : Nat) (t : CPUTimeStat) (a b : Nat),
      t.DeltaIdleTime[0]? = some a → t.DeltaTotalTime[0]? = some b →
      a < 18446744073709551616 → b < 18446744073709551616 →
      sumPool t (Split [] ',') 0 0 = some (a, b) ∧ (Split [] ',').length = 1 ∧
      poolCPUUsage eng fuel t [] =
        .ok (Float64.mul
          (Float64.mul
            (Float64.sub Float64.one (Float64.div (Float64.ofNat a) (Float64.ofNat b)))
            Float64.hundred)
          (Float64.ofInt 1))) ∧
    (∀ (eng : Engine) (fuel : Nat) (cpuset cpus : GoString),
      resolvePools eng fuel cpuset = some cpus → 1 ≤ (Split cpus ',').length) := by
  refine ⟨fun _ _ => rfl, ?_, ?_⟩
  · intro eng fuel t a b ha hb hla hlb
    have hsplit : Split [] ',' = [[]] := rfl
    have hatoi : Atoi [] = (0, some .malformed) := rfl
    have hsum : sumPool t (Split [] ',') 0 0 = some (a, b) := by
      have ea : addU64 0 a = a := by
        simp only [addU64, twoPow64]
        omega
      have eb : addU64 0 b = b := by
        simp only [addU64, twoPow64]
        omega
      simp [hsplit, sumPool, hatoi, ha, hb, ea, eb]
    have hres : resolvePools eng fuel [] = some [] := rfl
    refine ⟨hsum, rfl, ?_⟩
    simp only [poolCPUUsage, hres, hsum]
    rfl
  · intro eng fuel cpuset cpus _
    have hne := Split_ne_nil cpus ','
    cases h : Split cpus ',' with
    | nil => exact absurd h hne
    | cons x xs => simp

/-- C19, witness: the empty pool over two processors with the deltas 10 and 100
at index 0. -/
theorem resolvePools_empty_string_witness :
    (([10, 30] : List Nat)[0]? = some 10 ∧ ([100, 100] : List Nat)[0]? = some 100 ∧
      10 < 18446744073709551616 ∧ 100 < 18446744073709551616) ∧
    (sumPool ⟨[0, 0], [0, 0], [0, 0], [0, 0], [10, 30], [100, 100],
        [Float64.zero, Float64.zero], true, 2⟩ (Split [] ',') 0 0 = some (10, 100) ∧
      (Split [] ',').length = 1 ∧
      poolCPUUsage (fun f _ => f) 0
        ⟨[0, 0], [0, 0], [0, 0], [0, 0], [10, 30], [100, 100],
          [Float64.zero, Float64.zero], true, 2⟩ [] =
        .ok (Float64.mul
          (Float64.mul
            (Float64.sub Float64.one (Float64.div (Float64.ofNat 10) (Float64.ofNat 100)))
            Float64.hundred)
          (Float64.ofInt 1))) :=
  ⟨⟨rfl, rfl, by decide, by decide⟩,
    resolvePools_empty_string.2.1 (fun f _ => f) 0
      ⟨[0, 0], [0, 0], [0, 0], [0, 0], [10, 30], [100, 100],
        [Float64.zero, Float64.zero], true, 2⟩ 10 100 rfl rfl (by decide) (by decide)⟩

/-- C20, as amended: for every range token `lo-hi` with bounds in canonical
decimal, `lo` below the largest `int`, and `lo > hi` or `lo = hi`, `resolvePools`
contributes exactly the single identifier `lo` for that token: after any text
built so far (without `%`), and as the result for the token alone. -/
theorem resolveToken_descending :
    (∀ (eng : Engine) (fuel : Nat) (cpus : GoString) (lo hi : Nat),
      '%' ∉ cpus → hi ≤ lo → lo < 9223372036854775807 → 0 < fuel →
      resolveToken eng fuel cpus (decimal lo ++ '-' :: decimal hi) =
        some (if cpus = [] then decimal lo else cpus ++ ',' :: decimal lo)) ∧
    (∀ (eng : Engine) (fuel : Nat) (lo hi : Nat),
      hi ≤ lo → lo < 9223372036854775807 → 0 < fuel →
      ∃ cpus, resolvePools eng fuel (decimal lo ++ '-' :: decimal hi) = some cpus ∧
        Split cpus ',' = [decimal lo]) := by
  have token : ∀ (eng : Engine) (fuel : Nat) (cpus : GoString) (lo hi : Nat),
      '%' ∉ cpus → hi ≤ lo → lo < 9223372036854775807 → 0 < fuel →
      resolveToken eng fuel cpus (decimal lo ++ '-' :: decimal hi) =
        some (if cpus = [] then decimal lo else cpus ++ ',' :: decimal lo) := by
    intro eng fuel cpus lo hi hp hle hlo hf
    have hsplit : Split (decimal lo ++ '-' :: decimal hi) '-' = decimal lo :: decimal hi :: [] :=
      Split_pair _ _ _ (dash_not_mem_decimal lo) (dash_not_mem_decimal hi)
    have h := resolveToken_bounds eng fuel cpus _ (decimal lo) (decimal hi) [] lo hi hsplit
      (by rw [Atoi_decimal lo (by omega)]) (by rw [Atoi_decimal hi (by omega)]) hlo
      (by omega) hp (fun hlt => absurd hlt (by omega)) (by omega)
    have e : hi - lo = 0 := by omega
    simpa [e] using h
  refine ⟨token, ?_⟩
  intro eng fuel lo hi hle hlo hf
  have hcomma : ',' ∉ decimal lo ++ '-' :: decimal hi := by
    simp only [List.mem_append, List.mem_cons, not_or]
    exact ⟨comma_not_mem_decimal lo, by decide, comma_not_mem_decimal hi⟩
  have htok := token eng fuel [] lo hi (by simp) hle hlo hf
  simp only [if_true] at htok
  refine ⟨decimal lo, ?_, Split_none _ _ (comma_not_mem_decimal lo)⟩
  simp only [resolvePools, Split_none _ _ hcomma, resolveTokens, htok]

/-- C20, witness: the tokens `5-3` and `4-4`. -/
theorem resolveToken_descending_witness :
    ((3 ≤ 5 ∧ 5 < 9223372036854775807 ∧ 0 < 1) ∧
      ∃ cpus, resolvePools (fun f _ => f) 1 (decimal 5 ++ '-' :: decimal 3) = some cpus ∧
        Split cpus ',' = [decimal 5]) ∧
    ((4 ≤ 4 ∧ 4 < 9223372036854775807 ∧ 0 < 1) ∧
      ∃ cpus, resolvePools (fun f _ => f) 1 (decimal 4 ++ '-' :: decimal 4) = some cpus ∧
        Split cpus ',' = [decimal 4]) :=
  ⟨⟨⟨by decide, by decide, by decide⟩,
      resolveToken_descending.2 (fun f _ => f) 1 5 3 (by decide) (by decide) (by decide)⟩,
    ⟨⟨by decide, by decide, by decide⟩,
      resolveToken_descending.2 (fun f _ => f) 1 4 4 (by decide) (by decide) (by decide)⟩⟩

/-- C20, counterexample: with `lo` the largest `int`. For `lo = hi` the token
`9223372036854775807-9223372036854775807` gives no result at all, whatever the
fuel; for `lo > hi` the token `9223372036854775807-0` never gives `lo` alone,
because `begin + 1` wraps to the smallest `int` and the loop is entered. -/
theorem resolvePools_largest_int_bound :
    (¬ ∃ (eng : Engine) (fuel : Nat) (cpus : GoString),
      resolvePools eng fuel "9223372036854775807-9223372036854775807".toList = some cpus) ∧
    (¬ ∃ (eng : Engine) (fuel : Nat),
      resolvePools eng fuel "9223372036854775807-0".toList =
        some "9223372036854775807".toList) := by
  constructor
  · rintro ⟨eng, fuel, cpus, h⟩
    rw [resolvePools_max_twice eng fuel] at h
    exact Option.noConfusion h
  · rintro ⟨eng, fuel, h⟩
    exact resolvePools_max_down eng fuel h

end Podpools

namespace Podpools

open Strings Strconv Fmt Procstats

/-- C14, as amended: for every pool with a well-formed processor set inside the
slices, whose `k` member processors all have the same total delta `T`, not zero,
and whose idle and total deltas add up to less than `2 ^ 64` (so that the `uint64`
sums of `updatePoolCPUUsageMetrics` do not wrap): with the sums `S_idle` and
`S_total` that the loop of `updatePoolCPUUsageMetrics` computes, the pool
utilization `(1 - S_idle / S_total) * 100 * k` equals, in exact rational
arithmetic, the sum of the members' utilizations
`(1 - DeltaIdleTime[i] / DeltaTotalTime[i]) * 100`, so that dividing it by `k` gives
their arithmetic mean; and the `float64` value that the function computes for the
pool is a finite number within `k * (1 + S_idle / S_total) / 2 ^ 41` of that sum. -/
theorem poolUsageQ_sum_of_members (eng : Engine) (fuel : Nat) (t : CPUTimeStat)
    (toks : List CpuToken) (T : Nat) (hne : toks ≠ []) (hw : ∀ tok ∈ toks, tok.wellFormed)
    (hr : ∀ id ∈ toks.flatMap CpuToken.members,
      id < t.DeltaIdleTime.length ∧ id < t.DeltaTotalTime.length)
    (hlen : t.DeltaIdleTime.length < 9223372036854775808)
    (hfuel : t.DeltaIdleTime.length ≤ fuel) (hT : T ≠ 0)
    (hsame : ∀ id ∈ toks.flatMap CpuToken.members, t.DeltaTotalTime.getD id 0 = T)
    (hidle : ((toks.flatMap CpuToken.members).map
      (fun id => t.DeltaIdleTime.getD id 0)).sum < 18446744073709551616)
    (htotal : ((toks.flatMap CpuToken.members).map
      (fun id => t.DeltaTotalTime.getD id 0)).sum < 18446744073709551616) :
    ∃ cpus sumIdle sumTotal, resolvePools eng fuel (cpusetText toks) = some cpus ∧
      (Split cpus ',').length = (toks.flatMap CpuToken.members).length ∧
      sumPool t (Split cpus ',') 0 0 = some (sumIdle, sumTotal) ∧
      poolUsageQ sumIdle sumTotal (Split cpus ',').length =
        ((toks.flatMap CpuToken.members).map (fun id =>
          usageQ (t.DeltaIdleTime.getD id 0) (t.DeltaTotalTime.getD id 0))).sum ∧
      poolUsageQ sumIdle sumTotal (Split cpus ',').length / ((Split cpus ',').length : ℚ) =
        ((toks.flatMap CpuToken.members).map (fun id =>
          usageQ (t.DeltaIdleTime.getD id 0) (t.DeltaTotalTime.getD id 0))).sum /
          ((toks.flatMap CpuToken.members).length : ℚ) ∧
      ∃ (m : Int) (e : Int), poolCPUUsage eng fuel t (cpusetText toks) = .ok (Float64.fin m e) ∧
        |(m : ℚ) * (2 : ℚ) ^ e - ((toks.flatMap CpuToken.members).map (fun id =>
          usageQ (t.DeltaIdleTime.getD id 0) (t.DeltaTotalTime.getD id 0))).sum| ≤
          ((Split cpus ',').length : ℚ) * (1 + (sumIdle : ℚ) / sumTotal) / 2 ^ 41 := by
  obtain ⟨cpus, hres, hk, hsum, hval⟩ := poolCPUUsage_sums eng fuel t toks
    t.DeltaIdleTime.length hne hw (fun id hid => (hr id hid).1) hr hlen hfuel
  rw [Nat.mod_eq_of_lt hidle, Nat.mod_eq_of_lt htotal] at hsum hval
  have hids := members_flatMap_ne_nil toks hne hw
  have hconst := sum_const (fun id => t.DeltaTotalTime.getD id 0) T _ hsame
  have hkpos : 0 < (toks.flatMap CpuToken.members).length := List.length_pos.2 hids
  have hTpos : 0 < T := Nat.pos_of_ne_zero hT
  have hmul : (toks.flatMap CpuToken.members).length ≤
      (toks.flatMap CpuToken.members).length * T := Nat.le_mul_of_pos_right _ hTpos
  have hsumpos : 0 < ((toks.flatMap CpuToken.members).map
      (fun id => t.DeltaTotalTime.getD id 0)).sum := by
    rw [hconst]
    exact Nat.mul_pos hkpos hTpos
  have heq := poolUsageQ_eq_sum (fun id => t.DeltaIdleTime.getD id 0)
    (fun id => t.DeltaTotalTime.getD id 0) T hT _ hsame
  obtain ⟨m, e, hfl, herr⟩ := poolValue_poolUsageQ _ _ (toks.flatMap CpuToken.members).length
    hidle htotal hsumpos (by rw [hconst] at htotal; omega)
  rw [heq] at herr
  refine ⟨cpus, _, _, hres, hk, hsum, ?_, ?_, m, e, ?_, ?_⟩
  · rw [hk]; exact heq
  · rw [hk, heq]
  · rw [hval, hfl]
  · rw [hk]; exact herr

/-- C14, witness: the pool `0-1` over the deltas `[10, 30]` and `[100, 100]`; the sums
are 40 and 200, and both sides are 160. -/
theorem poolUsageQ_sum_of_members_witness :
    ([CpuToken.range 0 1] ≠ [] ∧ (∀ tok ∈ [CpuToken.range 0 1], tok.wellFormed) ∧
      (∀ id ∈ [CpuToken.range 0 1].flatMap CpuToken.members,
        id < [10, 30].length ∧ id < [100, 100].length) ∧
      [10, 30].length < 9223372036854775808 ∧ [10, 30].length ≤ 2 ∧ 100 ≠ 0 ∧
      (∀ id ∈ [CpuToken.range 0 1].flatMap CpuToken.members,
        ([100, 100] : List Nat).getD id 0 = 100) ∧
      (([CpuToken.range 0 1].flatMap CpuToken.members).map
        (fun id => ([10, 30] : List Nat).getD id 0)).sum < 18446744073709551616 ∧
      (([CpuToken.range 0 1].flatMap CpuToken.members).map
        (fun id => ([100, 100] : List Nat).getD id 0)).sum < 18446744073709551616) ∧
    (resolvePools (fun f _ => f) 2 (cpusetText [CpuToken.range 0 1]) = some "0,1".toList ∧
      sumPool ⟨[0, 0], [0, 0], [0, 0], [0, 0], [10, 30], [100, 100],
        [Float64.zero, Float64.zero], true, 2⟩ (Split "0,1".toList ',') 0 0 = some (40, 200) ∧
      poolCPUUsage (fun f _ => f) 2 ⟨[0, 0], [0, 0], [0, 0], [0, 0], [10, 30], [100, 100],
        [Float64.zero, Float64.zero], true, 2⟩ (cpusetText [CpuToken.range 0 1]) =
        .ok (Float64.fin 5 5)) ∧
    ∃ cpus sumIdle sumTotal,
      resolvePools (fun f _ => f) 2 (cpusetText [CpuToken.range 0 1]) = some cpus ∧
      (Split cpus ',').length = ([CpuToken.range 0 1].flatMap CpuToken.members).length ∧
      sumPool ⟨[0, 0], [0, 0], [0, 0], [0, 0], [10, 30], [100, 100],
        [Float64.zero, Float64.zero], true, 2⟩ (Split cpus ',') 0 0 =
        some (sumIdle, sumTotal) ∧
      poolUsageQ sumIdle sumTotal (Split cpus ',').length =
        (([CpuToken.range 0 1].flatMap CpuToken.members).map (fun id =>
          usageQ (([10, 30] : List Nat).getD id 0) (([100, 100] : List Nat).getD id 0))).sum ∧
      poolUsageQ sumIdle sumTotal (Split cpus ',').length / ((Split cpus ',').length : ℚ) =
        (([CpuToken.range 0 1].flatMap CpuToken.members).map (fun id =>
          usageQ (([10, 30] : List Nat).getD id 0) (([100, 100] : List Nat).getD id 0))).sum /
          (([CpuToken.range 0 1].flatMap CpuToken.members).length : ℚ) ∧
      ∃ (m : Int) (e : Int),
        poolCPUUsage (fun f _ => f) 2 ⟨[0, 0], [0, 0], [0, 0], [0, 0], [10, 30], [100, 100],
          [Float64.zero, Float64.zero], true, 2⟩ (cpusetText [CpuToken.range 0 1]) =
          .ok (Float64.fin m e) ∧
        |(m : ℚ) * (2 : ℚ) ^ e - (([CpuToken.range 0 1].flatMap CpuToken.members).map
          (fun id => usageQ (([10, 30] : List Nat).getD id 0)
            (([100, 100] : List Nat).getD id 0))).sum| ≤
          ((Split cpus ',').length : ℚ) * (1 + (sumIdle : ℚ) / sumTotal) / 2 ^ 41 :=
  have hw : ∀ tok ∈ [CpuToken.range 0 1], tok.wellFormed := by
    intro tok htok
    simp only [List.mem_singleton] at htok
    subst htok
    simp [CpuToken.wellFormed]
  have hr : ∀ id ∈ [CpuToken.range 0 1].flatMap CpuToken.members,
      id < [10, 30].length ∧ id < [100, 100].length := by decide
  have hsame : ∀ id ∈ [CpuToken.range 0 1].flatMap CpuToken.members,
      ([100, 100] : List Nat).getD id 0 = 100 := by decide
  ⟨⟨by simp, hw, hr, by decide, by decide, by decide, hsame, by decide, by decide⟩,
    ⟨by decide, by decide, by decide⟩,
    poolUsageQ_sum_of_members (fun f _ => f) 2
      ⟨[0, 0], [0, 0], [0, 0], [0, 0], [10, 30], [100, 100],
        [Float64.zero, Float64.zero], true, 2⟩ [CpuToken.range 0 1] 100 (by simp) hw hr
      (by decide) (by decide) (by decide) hsame (by decide) (by decide)⟩

/-- C14, counterexample: the pool `0-1` over two processors with the idle deltas
`[1, 1]` and the total deltas `[2 ^ 63 + 1, 2 ^ 63 + 1]`, the same and not zero. The
`uint64` sum of the totals wraps to 2, so that `updatePoolCPUUsageMetrics` computes
`(1 - 2 / 2) * 100 * 2 = 0` for the pool, in `float64` and in exact arithmetic
alike, while each member's utilization is above 99 and their sum above 199. -/
theorem poolCPUUsage_wrapped_total :
    (∀ id ∈ [CpuToken.range 0 1].flatMap CpuToken.members,
      ([9223372036854775809, 9223372036854775809] : List Nat).getD id 0 =
        9223372036854775809) ∧
    resolvePools (fun f _ => f) 2 (cpusetText [CpuToken.range 0 1]) = some "0,1".toList ∧
    sumPool ⟨[0, 0], [0, 0], [0, 0], [0, 0], [1, 1],
      [9223372036854775809, 9223372036854775809], [Float64.zero, Float64.zero], true, 2⟩
      (Split "0,1".toList ',') 0 0 = some (2, 2) ∧
    poolCPUUsage (fun f _ => f) 2 ⟨[0, 0], [0, 0], [0, 0], [0, 0], [1, 1],
      [9223372036854775809, 9223372036854775809], [Float64.zero, Float64.zero], true, 2⟩
      (cpusetText [CpuToken.range 0 1]) = .ok (Float64.fin 0 0) ∧
    poolUsageQ 2 2 (Split "0,1".toList ',').length = 0 ∧
    199 < (([CpuToken.range 0 1].flatMap CpuToken.members).map (fun id =>
      usageQ (([1, 1] : List Nat).getD id 0)
        (([9223372036854775809, 9223372036854775809] : List Nat).getD id 0))).sum := by
  refine ⟨by decide, by decide, by decide, by decide, ?_, ?_⟩
  · have : (Split "0,1".toList ',').length = 2 := by decide
    rw [this]
    norm_num [poolUsageQ]
  · have : [CpuToken.range 0 1].flatMap CpuToken.members = [0, 1] := by decide
    rw [this]
    norm_num [usageQ]

/-- C17, as amended: for every two consecutive samples that return `nil`, over
rows in which every counter is at least what it was and no row sum reaches
`2 ^ 64`, each processor `i` has `DeltaIdleTime[i] ≤ DeltaTotalTime[i]`; so, when
`DeltaTotalTime[i] > 0`, its utilization lies in `[0, 100]` in exact rational
arithmetic, and the `float64` value stored in `CPUUsage[i]` is a finite number
within `2 ^ (-42)` of it. And every pool with a well-formed processor set of `k`
processors below `CPUNumber` whose total deltas add up to less than `2 ^ 64` (so
that the `uint64` sums of `updatePoolCPUUsageMetrics` do not wrap) has
`S_idle ≤ S_total` for the sums the function computes, and, when `S_total > 0`, a
utilization in `[0, 100 * k]` in exact rational arithmetic, the `float64` value the
function computes being a finite number within `k / 2 ^ 40` of it. -/
theorem usage_within_bounds (file1 file2 : Except GoError GoString)
    (lines1 lines2 : List GoString) (t0 t1 t2 : CPUTimeStat)
    (h1 : GetCPUTimeStat file1 t0 = (.ok (), t1))
    (h2 : GetCPUTimeStat file2 t1 = (.ok (), t2))
    (hl1 : readLines file1 = .ok lines1) (hl2 : readLines file2 = .ok lines2)
    (hrows : ∀ i : Nat, (i : Int) < t1.CPUNumber →
      ∃ fs fs', lines1[i + 1]? = some (cpuRow i fs) ∧ lines2[i + 1]? = some (cpuRow i fs') ∧
        List.Forall₂ (fun a b => a ≤ b) fs fs' ∧ 4 ≤ fs.length ∧
        fs'.sum < 18446744073709551616) :
    (∀ i : Nat, (i : Int) < t1.CPUNumber →
      ∃ deltaIdle deltaTotal, t2.DeltaIdleTime[i]? = some deltaIdle ∧
        t2.DeltaTotalTime[i]? = some deltaTotal ∧ deltaIdle ≤ deltaTotal ∧
        (0 < deltaTotal →
          0 ≤ usageQ deltaIdle deltaTotal ∧ usageQ deltaIdle deltaTotal ≤ 100 ∧
          ∃ (m : Int) (e : Int), t2.CPUUsage[i]? = some (Float64.fin m e) ∧
            |(m : ℚ) * (2 : ℚ) ^ e - usageQ deltaIdle deltaTotal| ≤ 1 / 2 ^ 42)) ∧
    (∀ (eng : Engine) (fuel : Nat) (toks : List CpuToken), toks ≠ [] →
      (∀ tok ∈ toks, tok.wellFormed) →
      (∀ id ∈ toks.flatMap CpuToken.members, (id : Int) < t1.CPUNumber) →
      t1.CPUNumber < 9223372036854775808 → t1.CPUNumber.toNat ≤ fuel →
      ((toks.flatMap CpuToken.members).map
        (fun id => t2.DeltaTotalTime.getD id 0)).sum < 18446744073709551616 →
      (toks.flatMap CpuToken.members).length < 9223372036854775808 →
      ∃ cpus sumIdle sumTotal, resolvePools eng fuel (cpusetText toks) = some cpus ∧
        (Split cpus ',').length = (toks.flatMap CpuToken.members).length ∧
        sumPool t2 (Split cpus ',') 0 0 = some (sumIdle, sumTotal) ∧ sumIdle ≤ sumTotal ∧
        (0 < sumTotal →
          0 ≤ poolUsageQ sumIdle sumTotal (Split cpus ',').length ∧
          poolUsageQ sumIdle sumTotal (Split cpus ',').length ≤
            100 * ((Split cpus ',').length : ℚ) ∧
          ∃ (m : Int) (e : Int),
            poolCPUUsage eng fuel t2 (cpusetText toks) = .ok (Float64.fin m e) ∧
            |(m : ℚ) * (2 : ℚ) ^ e - poolUsageQ sumIdle sumTotal (Split cpus ',').length| ≤
              ((Split cpus ',').length : ℚ) / 2 ^ 40)) := by
  have key : ∀ i : Nat, (i : Int) < t1.CPUNumber →
      ∃ deltaIdle deltaTotal, t2.DeltaIdleTime[i]? = some deltaIdle ∧
        t2.DeltaTotalTime[i]? = some deltaTotal ∧ deltaIdle ≤ deltaTotal ∧
        deltaTotal < 18446744073709551616 ∧
        t2.CPUUsage[i]? = some (usageOf deltaIdle deltaTotal) := by
    intro i hi
    obtain ⟨fs, fs', r1, r2, hle, hn, hsum⟩ := hrows i hi
    exact deltas_ordered file1 file2 lines1 lines2 t0 t1 t2 h1 h2 hl1 hl2 i hi fs fs' r1 r2
      hle hn hsum
  constructor
  · intro i hi
    obtain ⟨dI, dT, a, b, c, d, u⟩ := key i hi
    refine ⟨dI, dT, a, b, c, fun hpos => ?_⟩
    obtain ⟨q0, q1⟩ := usageQ_bounds dI dT c hpos
    obtain ⟨m, e, fl, err, _, _⟩ := usageOf_usageQ dI dT (by omega) d hpos
    refine ⟨q0, q1, m, e, by rw [u, fl], le_trans err ?_⟩
    have hq : (dI : ℚ) / dT ≤ 1 :=
      (div_le_one (by exact_mod_cast hpos)).2 (by exact_mod_cast c)
    have e43 : ((2 : ℚ) ^ 43) = 2 * 2 ^ 42 := by norm_num
    rw [e43, div_le_div_iff₀ (by positivity) (by positivity)]
    nlinarith [show (0 : ℚ) < 2 ^ 42 by positivity]
  · intro eng fuel toks hne hw hin hN hfuel htotal hk
    have hr : ∀ id ∈ toks.flatMap CpuToken.members,
        id < t2.DeltaIdleTime.length ∧ id < t2.DeltaTotalTime.length := by
      intro id hid
      obtain ⟨dI, dT, a, b, _⟩ := key id (hin id hid)
      have ha := (List.getElem?_eq_some_iff.1 a).1
      have hb := (List.getElem?_eq_some_iff.1 b).1
      exact ⟨ha, hb⟩
    have hle : ((toks.flatMap CpuToken.members).map
        (fun id => t2.DeltaIdleTime.getD id 0)).sum ≤
        ((toks.flatMap CpuToken.members).map (fun id => t2.DeltaTotalTime.getD id 0)).sum := by
      apply sum_le_sum_of_le
      intro id hid
      obtain ⟨dI, dT, a, b, c, _⟩ := key id (hin id hid)
      simp only [List.getD_eq_getElem?_getD, a, b, Option.getD_some]
      exact c
    obtain ⟨cpus, hres, hlenk, hsum, hval⟩ := poolCPUUsage_sums eng fuel t2 toks
      t1.CPUNumber.toNat hne hw (fun id hid => by have := hin id hid; omega) hr (by omega) hfuel
    rw [Nat.mod_eq_of_lt (lt_of_le_of_lt hle htotal), Nat.mod_eq_of_lt htotal] at hsum hval
    refine ⟨cpus, _, _, hres, hlenk, hsum, hle, fun hpos => ?_⟩
    obtain ⟨p0, p1⟩ := poolUsageQ_bounds _ _ (Split cpus ',').length hle hpos
    obtain ⟨m, e, fl, err⟩ := poolValue_poolUsageQ _ _ (toks.flatMap CpuToken.members).length
      (lt_of_le_of_lt hle htotal) htotal hpos (by omega)
    rw [← hlenk] at err
    refine ⟨p0, p1, m, e, by rw [hval, fl], le_trans err ?_⟩
    have hq : (((toks.flatMap CpuToken.members).map
        (fun id => t2.DeltaIdleTime.getD id 0)).sum : ℚ) /
        (((toks.flatMap CpuToken.members).map
          (fun id => t2.DeltaTotalTime.getD id 0)).sum : ℚ) ≤ 1 :=
      (div_le_one (by exact_mod_cast hpos)).2 (by exact_mod_cast hle)
    have hk0 : (0 : ℚ) ≤ ((Split cpus ',').length : ℚ) := Nat.cast_nonneg _
    have e41 : ((2 : ℚ) ^ 41) = 2199023255552 := by norm_num
    have e40 : ((2 : ℚ) ^ 40) = 1099511627776 := by norm_num
    rw [e41, e40, div_le_div_iff₀ (by norm_num) (by norm_num)]
    nlinarith [mul_nonneg hk0 (sub_nonneg.2 hq)]

/-- C17, witness: two samples of a two-processor table whose counters grow; the
deltas are `[10, 40]` idle and `[15, 80]` total, and the pool `0-1` has the sums 50
and 95. -/
theorem usage_within_bounds_witness :
    (GetCPUTimeStat (.ok "cpu  11 22 33 44 55\ncpu0 1 2 3 4 5\ncpu1 10 20 30 40 50\n".toList)
        (cpuTimeStat 2) =
      (.ok (), ⟨[4, 40], [15, 150], [4, 40], [15, 150], [0, 0], [0, 0],
        [Float64.zero, Float64.zero], true, 2⟩) ∧
     GetCPUTimeStat (.ok "cpu  21 32 43 94 65\ncpu0 2 3 4 14 7\ncpu1 20 30 40 80 60\n".toList)
        ⟨[4, 40], [15, 150], [4, 40], [15, 150], [0, 0], [0, 0],
        [Float64.zero, Float64.zero], true, 2⟩ =
      (.ok (), ⟨[14, 80], [30, 230], [14, 80], [30, 230], [10, 40], [15, 80],
        [Float64.fin 4691249611844267 (-47), Float64.fin 25 1], true, 2⟩) ∧
     readLines (.ok "cpu  11 22 33 44 55\ncpu0 1 2 3 4 5\ncpu1 10 20 30 40 50\n".toList) =
      .ok ["cpu  11 22 33 44 55".toList, "cpu0 1 2 3 4 5".toList, "cpu1 10 20 30 40 50".toList] ∧
     readLines (.ok "cpu  21 32 43 94 65\ncpu0 2 3 4 14 7\ncpu1 20 30 40 80 60\n".toList) =
      .ok ["cpu  21 32 43 94 65".toList, "cpu0 2 3 4 14 7".toList, "cpu1 20 30 40 80 60".toList] ∧
     ∀ i : Nat, (i : Int) < (2 : Int) →
      ∃ fs fs', ["cpu  11 22 33 44 55".toList, "cpu0 1 2 3 4 5".toList, "cpu1 10 20 30 40 50".toList][i + 1]? = some (cpuRow i fs) ∧
        ["cpu  21 32 43 94 65".toList, "cpu0 2 3 4 14 7".toList, "cpu1 20 30 40 80 60".toList][i + 1]? = some (cpuRow i fs') ∧
        List.Forall₂ (fun a b => a ≤ b) fs fs' ∧ 4 ≤ fs.length ∧
        fs'.sum < 18446744073709551616) ∧
    (∀ i : Nat, (i : Int) < (2 : Int) →
      ∃ deltaIdle deltaTotal, [10, 40][i]? = some deltaIdle ∧
        [15, 80][i]? = some deltaTotal ∧ deltaIdle ≤ deltaTotal ∧
        (0 < deltaTotal →
          0 ≤ usageQ deltaIdle deltaTotal ∧ usageQ deltaIdle deltaTotal ≤ 100 ∧
          ∃ (m : Int) (e : Int),
            [Float64.fin 4691249611844267 (-47), Float64.fin 25 1][i]? =
              some (Float64.fin m e) ∧
            |(m : ℚ) * (2 : ℚ) ^ e - usageQ deltaIdle deltaTotal| ≤ 1 / 2 ^ 42)) ∧
    ∃ cpus sumIdle sumTotal,
      resolvePools (fun f _ => f) 2 (cpusetText [CpuToken.range 0 1]) = some cpus ∧
      (Split cpus ',').length = ([CpuToken.range 0 1].flatMap CpuToken.members).length ∧
      sumPool ⟨[14, 80], [30, 230], [14, 80], [30, 230], [10, 40], [15, 80],
        [Float64.fin 4691249611844267 (-47), Float64.fin 25 1], true, 2⟩ (Split cpus ',') 0 0 = some (sumIdle, sumTotal) ∧ sumIdle ≤ sumTotal ∧
      (0 < sumTotal →
        0 ≤ poolUsageQ sumIdle sumTotal (Split cpus ',').length ∧
        poolUsageQ sumIdle sumTotal (Split cpus ',').length ≤
          100 * ((Split cpus ',').length : ℚ) ∧
        ∃ (m : Int) (e : Int),
          poolCPUUsage (fun f _ => f) 2 ⟨[14, 80], [30, 230], [14, 80], [30, 230], [10, 40], [15, 80],
        [Float64.fin 4691249611844267 (-47), Float64.fin 25 1], true, 2⟩ (cpusetText [CpuToken.range 0 1]) =
            .ok (Float64.fin m e) ∧
          |(m : ℚ) * (2 : ℚ) ^ e - poolUsageQ sumIdle sumTotal (Split cpus ',').length| ≤
            ((Split cpus ',').length : ℚ) / 2 ^ 40) :=
  have e1 : GetCPUTimeStat
      (.ok "cpu  11 22 33 44 55\ncpu0 1 2 3 4 5\ncpu1 10 20 30 40 50\n".toList)
      (cpuTimeStat 2) =
      (.ok (), ⟨[4, 40], [15, 150], [4, 40], [15, 150], [0, 0], [0, 0],
        [Float64.zero, Float64.zero], true, 2⟩) := by decide
  have e2 : GetCPUTimeStat
      (.ok "cpu  21 32 43 94 65\ncpu0 2 3 4 14 7\ncpu1 20 30 40 80 60\n".toList)
      ⟨[4, 40], [15, 150], [4, 40], [15, 150], [0, 0], [0, 0],
        [Float64.zero, Float64.zero], true, 2⟩ =
      (.ok (), ⟨[14, 80], [30, 230], [14, 80], [30, 230], [10, 40], [15, 80],
        [Float64.fin 4691249611844267 (-47), Float64.fin 25 1], true, 2⟩) := by decide
  have l1 : readLines (.ok "cpu  11 22 33 44 55\ncpu0 1 2 3 4 5\ncpu1 10 20 30 40 50\n".toList) =
      .ok ["cpu  11 22 33 44 55".toList, "cpu0 1 2 3 4 5".toList, "cpu1 10 20 30 40 50".toList] := by rfl
  have l2 : readLines (.ok "cpu  21 32 43 94 65\ncpu0 2 3 4 14 7\ncpu1 20 30 40 80 60\n".toList) =
      .ok ["cpu  21 32 43 94 65".toList, "cpu0 2 3 4 14 7".toList, "cpu1 20 30 40 80 60".toList] := by rfl
  have rows : ∀ i : Nat, (i : Int) < (2 : Int) →
      ∃ fs fs', ["cpu  11 22 33 44 55".toList, "cpu0 1 2 3 4 5".toList, "cpu1 10 20 30 40 50".toList][i + 1]? = some (cpuRow i fs) ∧
        ["cpu  21 32 43 94 65".toList, "cpu0 2 3 4 14 7".toList, "cpu1 20 30 40 80 60".toList][i + 1]? = some (cpuRow i fs') ∧
        List.Forall₂ (fun a b => a ≤ b) fs fs' ∧ 4 ≤ fs.length ∧
        fs'.sum < 18446744073709551616 := by
    intro i hi
    have hi2 : i = 0 ∨ i = 1 := by omega
    rcases hi2 with rfl | rfl
    · exact ⟨[1, 2, 3, 4, 5], [2, 3, 4, 14, 7], by decide, by decide, by simp, by decide,
        by decide⟩
    · exact ⟨[10, 20, 30, 40, 50], [20, 30, 40, 80, 60], by decide, by decide, by simp,
        by decide, by decide⟩
  have hw : ∀ tok ∈ [CpuToken.range 0 1], tok.wellFormed := by
    intro tok htok
    simp only [List.mem_singleton] at htok
    subst htok
    simp [CpuToken.wellFormed]
  have c := usage_within_bounds _ _ _ _ _ _ _ e1 e2 l1 l2 rows
  ⟨⟨e1, e2, l1, l2, rows⟩, c.1,
    c.2 (fun f _ => f) 2 [CpuToken.range 0 1] (by simp) hw (by decide) (by decide) (by decide)
      (by decide) (by decide)⟩

/-- C17, counterexample: two samples of two processors that return `nil`, the
counters growing from 0 to the rows `0 0 0 2 ^ 63` and `2 ^ 63 + 1 0 0 0`, both with
sums below `2 ^ 64`. Each processor has its idle delta within its total delta, yet
for the pool `0-1`, in range and of 2 processors, the `uint64` sum of the totals
wraps: `updatePoolCPUUsageMetrics` computes the sums `2 ^ 63` and `1`, a total that
is not zero, and the utilization `(1 - 2 ^ 63 / 1) * 100 * 2`, which is negative in
exact arithmetic and in `float64`, where it is `-25 * 2 ^ 66`. -/
theorem poolCPUUsage_negative :
    (GetCPUTimeStat (.ok "cpu  0 0 0 0\ncpu0 0 0 0 0\ncpu1 0 0 0 0\n".toList)
        (cpuTimeStat 2) =
      (.ok (), ⟨[0, 0], [0, 0], [0, 0], [0, 0], [0, 0], [0, 0],
        [Float64.zero, Float64.zero], true, 2⟩) ∧
     GetCPUTimeStat (.ok "cpu  0 0 0 0\ncpu0 0 0 0 9223372036854775808\ncpu1 9223372036854775809 0 0 0\n".toList)
        ⟨[0, 0], [0, 0], [0, 0], [0, 0], [0, 0], [0, 0],
        [Float64.zero, Float64.zero], true, 2⟩ =
      (.ok (), ⟨[9223372036854775808, 0], [9223372036854775808, 9223372036854775809],
        [9223372036854775808, 0], [9223372036854775808, 9223372036854775809],
        [9223372036854775808, 0], [9223372036854775808, 9223372036854775809],
        [Float64.zero, Float64.fin 25 2], true, 2⟩) ∧
     readLines (.ok "cpu  0 0 0 0\ncpu0 0 0 0 0\ncpu1 0 0 0 0\n".toList) =
      .ok ["cpu  0 0 0 0".toList, "cpu0 0 0 0 0".toList, "cpu1 0 0 0 0".toList] ∧
     readLines (.ok "cpu  0 0 0 0\ncpu0 0 0 0 9223372036854775808\ncpu1 9223372036854775809 0 0 0\n".toList) =
      .ok ["cpu  0 0 0 0".toList, "cpu0 0 0 0 9223372036854775808".toList,
        "cpu1 9223372036854775809 0 0 0".toList] ∧
     ∀ i : Nat, (i : Int) < (2 : Int) →
      ∃ fs fs', ["cpu  0 0 0 0".toList, "cpu0 0 0 0 0".toList, "cpu1 0 0 0 0".toList][i + 1]? = some (cpuRow i fs) ∧
        ["cpu  0 0 0 0".toList, "cpu0 0 0 0 9223372036854775808".toList,
        "cpu1 9223372036854775809 0 0 0".toList][i + 1]? = some (cpuRow i fs') ∧
        List.Forall₂ (fun a b => a ≤ b) fs fs' ∧ 4 ≤ fs.length ∧
        fs'.sum < 18446744073709551616) ∧
    (∀ id ∈ [CpuToken.range 0 1].flatMap CpuToken.members, (id : Int) < (2 : Int)) ∧
    resolvePools (fun f _ => f) 2 (cpusetText [CpuToken.range 0 1]) = some "0,1".toList ∧
    sumPool ⟨[9223372036854775808, 0], [9223372036854775808, 9223372036854775809],
        [9223372036854775808, 0], [9223372036854775808, 9223372036854775809],
        [9223372036854775808, 0], [9223372036854775808, 9223372036854775809],
        [Float64.zero, Float64.fin 25 2], true, 2⟩ (Split "0,1".toList ',') 0 0 = some (9223372036854775808, 1) ∧
    poolCPUUsage (fun f _ => f) 2 ⟨[9223372036854775808, 0], [9223372036854775808, 9223372036854775809],
        [9223372036854775808, 0], [9223372036854775808, 9223372036854775809],
        [9223372036854775808, 0], [9223372036854775808, 9223372036854775809],
        [Float64.zero, Float64.fin 25 2], true, 2⟩ (cpusetText [CpuToken.range 0 1]) =
      .ok (Float64.fin (-25) 66) ∧
    poolUsageQ 9223372036854775808 1 (Split "0,1".toList ',').length < 0 := by
  refine ⟨⟨by decide, by decide, by rfl, by rfl, ?_⟩, by decide, by decide, by decide,
    by decide, ?_⟩
  · intro i hi
    have hi2 : i = 0 ∨ i = 1 := by omega
    rcases hi2 with rfl | rfl
    · exact ⟨[0, 0, 0, 0], [0, 0, 0, 9223372036854775808], by decide, by decide, by simp,
        by decide, by decide⟩
    · exact ⟨[0, 0, 0, 0], [9223372036854775809, 0, 0, 0], by decide, by decide, by simp,
        by decide, by decide⟩
  · have : (Split "0,1".toList ',').length = 2 := by decide
    rw [this]
    norm_num [poolUsageQ]

end Podpools

namespace Podpools

open Strings Strconv Fmt Procstats

/-- C15: for every scrape that succeeds, with `N` processors and a pool mapping
`m` of `P` pools (distinct names, as the keys of a map are), `CollectMetrics`
returns exactly `N + P` records: the first `N` are the per-processor records, the
`i`-th with the label `decimal i` and the value `CPUUsage[i]` of the state after
the sample, and after them comes exactly one record per pool, the pool names in
strictly ascending order, each record with the labels of its pool. -/
theorem CollectMetrics_records (eng : Engine) (fuel : Nat) (policyName : GoString) (N : Nat)
    (file : Except GoError GoString) (m : Metrics) (t t1 : CPUTimeStat)
    (records : List Metric)
    (hkeys : (m.PoolMetrics.map Prod.fst).Nodup)
    (h : CollectMetrics eng fuel policyName N file (.podpools (some m)) t = (.ok records, t1)) :
    records.length = N + m.PoolMetrics.length ∧
    (∀ i : Nat, i < N → ∃ u, t1.CPUUsage[i]? = some u ∧
      records[i]? = some ⟨threadCPUUsageDesc, u, [decimal i]⟩) ∧
    ∃ names : List GoString, names.Perm (m.PoolMetrics.map Prod.fst) ∧
      List.Pairwise (fun a b => strLt a b = true) names ∧
      List.Forall₂ (fun name r => ∃ pm usage, m.PoolMetrics.lookup name = some pm ∧
        poolCPUUsage eng fuel t1 pm.CPUs = .ok usage ∧
        r = ⟨poolCPUUsageDesc, usage, [policyName, name, pm.DefName, pm.CPUs, pm.Memory,
          pm.CPUMiliSize, pm.PodNames, pm.ContainerNames]⟩) names (records.drop N) := by
  obtain ⟨threads, pools, _, ht, hp, rfl⟩ :=
    CollectMetrics_ok eng fuel policyName N file (some m) t t1 records h
  have hthreads := forall₂_range_get N threads (threadRecords_ok t1 (List.range N) threads ht)
  have hpools := poolRecords_ok eng fuel policyName m t1 _ pools hp
  have hplen : pools.length = m.PoolMetrics.length := by
    rw [← hpools.length_eq, (sortStrings_perm _).length_eq, List.length_map]
  refine ⟨by rw [List.length_append, hthreads.1, hplen], fun i hi => ?_,
    sortStrings (m.PoolMetrics.map Prod.fst), sortStrings_perm _,
    sortStrings_ascending _ hkeys, ?_⟩
  · obtain ⟨r, hr, u, hu, rfl⟩ := hthreads.2 i hi
    refine ⟨u, hu, ?_⟩
    rw [List.getElem?_append_left (by rw [hthreads.1]; exact hi)]
    exact hr
  · have hd : (threads ++ pools).drop N = pools := by
      rw [← hthreads.1]
      exact List.drop_left threads pools
    rw [hd]
    exact hpools

/-- C15, witness: the first scrape of two processors with the pools `b`
(processor `1`) and `a` (processors `0-1`): four records, pool `a` before pool
`b`. -/
theorem CollectMetrics_records_witness :
    ((["b".toList, "a".toList] : List GoString).Nodup ∧
     CollectMetrics (fun f _ => f) 2 "podpools".toList 2
        (.ok "cpu  11 22 33 44 55\ncpu0 1 2 3 4 5\ncpu1 10 20 30 40 50\n".toList)
        (.podpools (some ⟨[("b".toList, ⟨[], "b".toList, "1".toList, [], [], [], []⟩),
          ("a".toList, ⟨[], "a".toList, "0-1".toList, [], [], [], []⟩)]⟩))
        (cpuTimeStat 2) =
      (.ok [⟨threadCPUUsageDesc, Float64.zero, ["0".toList]⟩,
          ⟨threadCPUUsageDesc, Float64.zero, ["1".toList]⟩,
          ⟨poolCPUUsageDesc, Float64.nan,
            ["podpools".toList, "a".toList, [], "0-1".toList, [], [], [], []]⟩,
          ⟨poolCPUUsageDesc, Float64.nan,
            ["podpools".toList, "b".toList, [], "1".toList, [], [], [], []]⟩],
        ⟨[4, 40], [15, 150], [4, 40], [15, 150], [0, 0], [0, 0],
          [Float64.zero, Float64.zero], true, 2⟩)) ∧
    (([⟨threadCPUUsageDesc, Float64.zero, ["0".toList]⟩,
          ⟨threadCPUUsageDesc, Float64.zero, ["1".toList]⟩,
          ⟨poolCPUUsageDesc, Float64.nan,
            ["podpools".toList, "a".toList, [], "0-1".toList, [], [], [], []]⟩,
          ⟨poolCPUUsageDesc, Float64.nan,
            ["podpools".toList, "b".toList, [], "1".toList, [], [], [], []]⟩] :
        List Metric).length = 2 + 2 ∧
     ∃ names : List GoString, names.Perm ["b".toList, "a".toList] ∧
      List.Pairwise (fun a b => strLt a b = true) names) :=
  have hk : ((["b".toList, "a".toList] : List GoString)).Nodup := by decide
  have e : CollectMetrics (fun f _ => f) 2 "podpools".toList 2
        (.ok "cpu  11 22 33 44 55\ncpu0 1 2 3 4 5\ncpu1 10 20 30 40 50\n".toList)
        (.podpools (some ⟨[("b".toList, ⟨[], "b".toList, "1".toList, [], [], [], []⟩),
          ("a".toList, ⟨[], "a".toList, "0-1".toList, [], [], [], []⟩)]⟩))
        (cpuTimeStat 2) =
      (.ok [⟨threadCPUUsageDesc, Float64.zero, ["0".toList]⟩,
          ⟨threadCPUUsageDesc, Float64.zero, ["1".toList]⟩,
          ⟨poolCPUUsageDesc, Float64.nan,
            ["podpools".toList, "a".toList, [], "0-1".toList, [], [], [], []]⟩,
          ⟨poolCPUUsageDesc, Float64.nan,
            ["podpools".toList, "b".toList, [], "1".toList, [], [], [], []]⟩],
        ⟨[4, 40], [15, 150], [4, 40], [15, 150], [0, 0], [0, 0],
          [Float64.zero, Float64.zero], true, 2⟩) := by decide
  have c := CollectMetrics_records (fun f _ => f) 2 "podpools".toList 2
    (.ok "cpu  11 22 33 44 55\ncpu0 1 2 3 4 5\ncpu1 10 20 30 40 50\n".toList)
    ⟨[("b".toList, ⟨[], "b".toList, "1".toList, [], [], [], []⟩),
      ("a".toList, ⟨[], "a".toList, "0-1".toList, [], [], [], []⟩)]⟩
    (cpuTimeStat 2) _ _ hk e
  ⟨⟨hk, e⟩, c.1, c.2.2.imp (fun _ hn => ⟨hn.1, hn.2.1⟩)⟩

end Podpools
